import Mathlib

/-!
# AT86RF231 radio driver (`radio.c`)

A shallow embedding of the driver in `src/radio.c` and theorems about it.

* Every C function of `radio.c` that takes part in sending or receiving a frame is a Lean
  function of the same name over an explicit driver state `Radio`.
* The serial bus is part of the state: `Radio.miso` holds the bytes the transceiver will
  shift out during the next byte exchanges and `Radio.trace` records, in order, every
  observable effect (chip-select edges, SLP_TR edges, byte exchanges, payload creation and
  deletion).
* A driver function returns `none` when it does not return in C: the bus input known to the
  model is used up (the busy-wait of `trxReadByte`/`trxWriteByte` never ends) or a null payload
  is dereferenced (a pop from an empty queue).
* 8-bit quantities are natural numbers reduced `% 256` wherever the C code stores them in an
  `unsigned char`.
-/

namespace RadioDriver

/-! ## Collaborators that are not in `radio.c` -/

/-- Modelled from the spec: the payload of `payload.h` (absent from the sources), "a
variable-length byte buffer with a status byte, a type byte, a data length, and a
sequential-read iterator". On the wire a payload is `status[1] + type[1] + data[N]`. -/
structure Payload where
  status : Nat
  type : Nat
  data : List Nat
  iter : Nat
deriving DecidableEq, Repr

/-- Modelled from the spec: the bytes of a payload in wire order, `status[1] + type[1] +
data[N]` (§6 of the spec). -/
def payToList (p : Payload) : List Nat := p.status :: p.type :: p.data

/-- Modelled from the spec: `payGetDataLength` of `payload.h`, the number of data bytes. -/
def payGetDataLength (p : Payload) : Nat := p.data.length

/-- Modelled from the spec: `payGetPayloadLength` of `payload.h`, the number of bytes the
payload takes in a frame: status, type and the data bytes. -/
def payGetPayloadLength (p : Payload) : Nat := p.data.length + 2

/-- Modelled from the spec: `payInitIterator` of `payload.h`, rewinds the sequential-read
iterator. -/
def payInitIterator (p : Payload) : Payload := { p with iter := 0 }

/-- Modelled from the spec: `payNextElement` of `payload.h`, yields the byte under the
iterator (status, type, then the data bytes) as an 8-bit value and advances the iterator. -/
def payNextElement (p : Payload) : Nat × Payload :=
  ((payToList p).getD p.iter 0 % 256, { p with iter := p.iter + 1 })

/-- Modelled from the spec: `payCreate(len, data, status, type)` of `payload.h`. -/
def payCreate (len : Nat) (data : List Nat) (status type : Nat) : Payload :=
  { status := status % 256, type := type % 256, data := data.take len, iter := 0 }

/-- Modelled from the spec: `payCreateEmpty(len)` of `payload.h`, a payload with `len` data
bytes still to be written. The size expression of the caller is a C `int`; it is taken as an
8-bit length. -/
def payCreateEmpty (size : Int) : Payload :=
  { status := 0, type := 0, data := List.replicate (size % 256).toNat 0, iter := 0 }

/-- Modelled from the spec: `paySetStatus` of `payload.h`. -/
def paySetStatus (p : Payload) (v : Nat) : Payload := { p with status := v % 256 }

/-- Modelled from the spec: `paySetType` of `payload.h`. -/
def paySetType (p : Payload) (v : Nat) : Payload := { p with type := v % 256 }

/-- Modelled from the spec: `payWriteByte(pld, i, v)` of `payload.h`, stores data byte `i`. -/
def payWriteByte (p : Payload) (i v : Nat) : Payload := { p with data := p.data.set i (v % 256) }

/-- Modelled from the spec: the payload queue of `payload_queue.h` (absent from the sources),
a "bounded FIFO of payloads with full/empty predicates", created with a caller-specified
capacity. -/
structure PayQueue where
  capacity : Nat
  items : List Payload
deriving DecidableEq, Repr

/-- Modelled from the spec: `pqInit(capacity)`. -/
def pqInit (capacity : Nat) : PayQueue := { capacity := capacity, items := [] }

/-- Modelled from the spec: `pqIsFull`. -/
def pqIsFull (q : PayQueue) : Bool := decide (q.capacity ≤ q.items.length)

/-- Modelled from the spec: `pqIsEmpty`. -/
def pqIsEmpty (q : PayQueue) : Bool := q.items.isEmpty

/-- Modelled from the spec: `pqPop`, removes and returns the oldest payload; a pop from an
empty queue yields no payload. -/
def pqPop (q : PayQueue) : Option (Payload × PayQueue) :=
  match q.items with
  | [] => none
  | p :: rest => some (p, { q with items := rest })

/-- Register address, bit mask and bit position of a sub-register: the three arguments an
`SR_...` macro of `at86rf231.h` expands to. -/
structure SubReg where
  addr : Nat
  mask : Nat
  pos : Nat
deriving DecidableEq, Repr

/-- What `radio.c` takes from files that are not among the sources, as parameters: the
register map and command values of `at86rf231.h`, what `pqPush` of `payload_queue.h` does
with a queue that is already full, and the byte `payReadByte` of `payload.h` yields for an
index that is not below the data length, where it reads outside the data (the spec says
neither). -/
structure Deps where
  RG_TRX_STATE : Nat
  RG_IRQ_STATUS : Nat
  RG_IRQ_MASK : Nat
  RG_SHORT_ADDR_0 : Nat
  RG_SHORT_ADDR_1 : Nat
  RG_PAN_ID_0 : Nat
  RG_PAN_ID_1 : Nat
  SR_TRX_STATUS : SubReg
  SR_TRAC_STATUS : SubReg
  SR_RX_CRC_VALID : SubReg
  SR_TX_AUTO_CRC_ON : SubReg
  SR_CLKM_CTRL : SubReg
  SR_CHANNEL : SubReg
  SR_MAX_FRAME_RETRIES : SubReg
  SR_MAX_CSMA_RETRIES : SubReg
  CMD_FORCE_TRX_OFF : Nat
  CMD_PLL_ON : Nat
  CMD_RX_AACK_ON : Nat
  CMD_TX_ARET_ON : Nat
  TRX_IRQ_TRX_END : Nat
  TRAC_SUCCESS : Nat
  CLKM_NO_CLOCK : Nat
  pqPushFull : PayQueue → Payload → PayQueue
  payReadBeyond : Payload → Nat → Nat

/-- Modelled from the spec: `pqPush`, appends a payload at the tail of a queue that has room.
The result on a full queue is the parameter `Deps.pqPushFull`. -/
def pqPush (K : Deps) (q : PayQueue) (p : Payload) : PayQueue :=
  if pqIsFull q then K.pqPushFull q p else { q with items := q.items ++ [p] }

/-- Modelled from the spec: `payReadByte(pld, i)` of `payload.h`, data byte `i` as an 8-bit
value. The function does not check the index: for an index that is not below the data length
it yields the byte the parameter `Deps.payReadBeyond` gives. -/
def payReadByte (K : Deps) (p : Payload) (i : Nat) : Nat :=
  match p.data.get? i with
  | some b => b % 256
  | none => K.payReadBeyond p i % 256

/-- The values of the AT86RF231 register map (Atmel's `at86rf231.h`), with a `pqPush` that
leaves a full queue as it is and a `payReadByte` that reads 0 outside the data. Used to run the
driver on concrete inputs. -/
def at86rf231 : Deps :=
  { RG_TRX_STATE := 0x02, RG_IRQ_STATUS := 0x0F, RG_IRQ_MASK := 0x0E,
    RG_SHORT_ADDR_0 := 0x20, RG_SHORT_ADDR_1 := 0x21, RG_PAN_ID_0 := 0x22, RG_PAN_ID_1 := 0x23,
    SR_TRX_STATUS := ⟨0x01, 0x1F, 0⟩, SR_TRAC_STATUS := ⟨0x02, 0xE0, 5⟩,
    SR_RX_CRC_VALID := ⟨0x06, 0x80, 7⟩, SR_TX_AUTO_CRC_ON := ⟨0x04, 0x20, 5⟩,
    SR_CLKM_CTRL := ⟨0x03, 0x07, 0⟩, SR_CHANNEL := ⟨0x08, 0x1F, 0⟩,
    SR_MAX_FRAME_RETRIES := ⟨0x2C, 0xF0, 4⟩, SR_MAX_CSMA_RETRIES := ⟨0x2C, 0x0E, 1⟩,
    CMD_FORCE_TRX_OFF := 3, CMD_PLL_ON := 9, CMD_RX_AACK_ON := 22, CMD_TX_ARET_ON := 25,
    TRX_IRQ_TRX_END := 8, TRAC_SUCCESS := 0, CLKM_NO_CLOCK := 0,
    pqPushFull := fun q _ => q, payReadBeyond := fun _ _ => 0 }

/-! ## Constants and types of `radio.c` -/

def TRX_CMD_RW : Nat := 0xC0
def TRX_CMD_RR : Nat := 0x80
def TRX_CMD_FW : Nat := 0x60
def TRX_CMD_FR : Nat := 0x20
def MAC_HEADER_LENGTH : Nat := 9
def CRC_LENGTH : Nat := 2
def DEFAULT_CHANNEL : Nat := 0x16
def DEFAULT_DEST_PAN_ID : Nat := 0x2020
def DEFAULT_SRC_PAN_ID : Nat := 0x2020
def DEFAULT_DEST_ADDR : Nat := 0x2021
def DEFAULT_SRC_ADDR : Nat := 0x2022
def PACKET_TYPE_DATA : Nat := 0x01
def PACKET_ACK_REQ : Nat := 1

/-- The enumeration `RadioState`. -/
inductive RadioState
  | STATE_SLEEP
  | STATE_TRX_OFF
  | STATE_PLL_ON
  | STATE_RX_ON
  | STATE_RX_AACK_ON
  | STATE_TX_ARET_ON
  | STATE_BUSY_TX_ARET
deriving DecidableEq, Repr

/-- Low byte (`.byte.LB`) of a 16-bit `WordVal`. -/
def LB (w : Nat) : Nat := w % 256

/-- High byte (`.byte.HB`) of a 16-bit `WordVal`. -/
def HB (w : Nat) : Nat := w / 256 % 256

/-- Assignment to `.byte.LB` of a 16-bit `WordVal`. -/
def setLB (w b : Nat) : Nat := HB w * 256 + b % 256

/-- Assignment to `.byte.HB` of a 16-bit `WordVal`. -/
def setHB (w b : Nat) : Nat := (b % 256) * 256 + LB w

/-- Read of a bit-field of `width` bits whose lowest bit is bit `pos` of the word. -/
def getBits (w pos width : Nat) : Nat := w / 2 ^ pos % 2 ^ width

/-- Assignment to a bit-field of `width` bits whose lowest bit is bit `pos` of the 16-bit
word: the other bits keep their value. -/
def setBits (w pos width v : Nat) : Nat :=
  (w % 2 ^ pos + (v % 2 ^ width) * 2 ^ pos + (w / 2 ^ (pos + width)) * 2 ^ (pos + width)) % 65536

/-- The record `MacPacketStruct`. `frame_ctrl` is the 16-bit value of the union; its
bit-fields are allocated from the least significant bit, in declaration order: `packetType`
bits 0-2, `secEn` 3, `frmPending` 4, `ackReq` 5, `panIDComp` 6, `reserved` 7-9,
`destAddrMode` 10-11, `frmVersion` 12-13, `srcAddrMode` 14-15. `payload` is a pointer
(`none` is the null pointer). -/
structure MacPacketStruct where
  frame_ctrl : Nat
  seqNum : Nat
  destPANID : Nat
  destAddr : Nat
  srcPANID : Nat
  srcAddr : Nat
  payload : Option Payload
  payloadLength : Nat
deriving DecidableEq, Repr

/-- One observable effect of the driver. -/
inductive Ev
  /-- An assignment `SPI_CS = level`. -/
  | cs (level : Nat)
  /-- An assignment `SLPTR = level` (`trxSetSlptr`). -/
  | slptr (level : Nat)
  /-- One full-duplex byte exchange: the byte written to `SPI_BUF` and the byte shifted in. -/
  | xfer (mosi miso : Nat)
  /-- A call of `payCreate` or `payCreateEmpty`, with the payload it returns. -/
  | payCreate (p : Payload)
  /-- A call of `payDelete`, with the payload deleted. -/
  | payDelete (p : Payload)
  /-- The call `ConfigINT4(...)` that enables the radio interrupt. -/
  | configINT4
deriving DecidableEq, Repr

/-- The state of the driver: the static variables of `radio.c` (with the function-local
statics `sqn` of `trxSendPacket` and `data_length`, `data_loc`, `pld` of `radioGetChar`), the
two output pins, the bytes the transceiver will answer with (`miso`) and the effects so far
(`trace`). -/
structure Radio where
  current_state_ : RadioState
  radio_lqi_ : List Nat
  mac_rx_packet_ : MacPacketStruct
  mac_tx_packet_ : MacPacketStruct
  tx_queue_ : PayQueue
  rx_queue_ : PayQueue
  sqn : Nat
  data_length : Nat
  data_loc : Nat
  pld : Option Payload
  SPI_CS : Nat
  SLPTR : Nat
  miso : List Nat
  trace : List Ev
deriving DecidableEq, Repr

/-! ## Serial command layer -/

/-- Sequencing of two steps of the driver: the second step runs on the result of the first,
and does not run when the first does not return. -/
@[noinline]
def andThen {α β : Type} (x : Option α) (f : α → Option β) : Option β :=
  match x with
  | none => none
  | some a => f a

/-- The assignment `SPI_CS = level`. -/
def setCS (level : Nat) (s : Radio) : Radio :=
  { s with SPI_CS := level, trace := s.trace ++ [Ev.cs level] }

/-- The function `trxSetSlptr`. -/
def trxSetSlptr (val : Nat) (s : Radio) : Radio :=
  { s with SLPTR := val, trace := s.trace ++ [Ev.slptr val] }

/-- The function `trxReadByte`: writes `0x00` to the bus and returns the byte shifted in. -/
def trxReadByte (s : Radio) : Option (Nat × Radio) :=
  match s.miso with
  | [] => none
  | c :: rest => some (c % 256, { s with miso := rest, trace := s.trace ++ [Ev.xfer 0x00 c] })

/-- The function `trxWriteByte`: writes `dout` to the bus and returns the byte shifted in. -/
def trxWriteByte (dout : Nat) (s : Radio) : Option (Nat × Radio) :=
  match s.miso with
  | [] => none
  | c :: rest =>
    some (c % 256, { s with miso := rest, trace := s.trace ++ [Ev.xfer (dout % 256) c] })

/-- The function `trxReadReg`. -/
def trxReadReg (addr : Nat) (s : Radio) : Option (Nat × Radio) :=
  let s := setCS 0 s
  andThen (trxWriteByte (TRX_CMD_RR ||| addr) s) fun (_, s) =>
  andThen (trxReadByte s) fun (c, s) =>
  let s := setCS 1 s
  some (c, s)

/-- The function `trxWriteReg`. -/
def trxWriteReg (addr val : Nat) (s : Radio) : Option Radio :=
  let s := setCS 0 s
  andThen (trxWriteByte (TRX_CMD_RW ||| addr) s) fun (_, s) =>
  andThen (trxWriteByte val s) fun (_, s) =>
  let s := setCS 1 s
  some s

/-- The function `trxReadBit`; `data` and `mask` are 8-bit. -/
def trxReadBit (addr mask pos : Nat) (s : Radio) : Option (Nat × Radio) :=
  andThen (trxReadReg addr s) fun (data, s) =>
  let data := data &&& (mask % 256)
  let data := data >>> pos
  some (data, s)

/-- The function `trxWriteBit`; `temp`, `mask` and `val` are 8-bit. -/
def trxWriteBit (addr mask pos val : Nat) (s : Radio) : Option Radio :=
  andThen (trxReadReg addr s) fun (temp, s) =>
  let temp := temp &&& (255 ^^^ (mask % 256))
  let val := ((val % 256) <<< pos) % 256
  let val := val &&& (mask % 256)
  let val := val ||| temp
  trxWriteReg addr val s

/-! ## Packet framer and parser -/

/-- The function `trxCreateMacPacket`. `mem` is the content of the memory `malloc` returns;
the fields the function does not assign (`payload`, `payloadLength`) keep it. -/
def trxCreateMacPacket (mem : MacPacketStruct) : MacPacketStruct :=
  let packet := mem
  let packet := { packet with frame_ctrl := setBits packet.frame_ctrl 0 3 PACKET_TYPE_DATA }
  let packet := { packet with frame_ctrl := setBits packet.frame_ctrl 3 1 0 }
  let packet := { packet with frame_ctrl := setBits packet.frame_ctrl 4 1 0 }
  let packet := { packet with frame_ctrl := setBits packet.frame_ctrl 5 1 PACKET_ACK_REQ }
  let packet := { packet with frame_ctrl := setBits packet.frame_ctrl 6 1 1 }
  let packet := { packet with frame_ctrl := setBits packet.frame_ctrl 7 3 0 }
  let packet := { packet with frame_ctrl := setBits packet.frame_ctrl 10 2 2 }
  let packet := { packet with frame_ctrl := setBits packet.frame_ctrl 12 2 1 }
  let packet := { packet with frame_ctrl := setBits packet.frame_ctrl 14 2 2 }
  let packet := { packet with seqNum := 0 }
  let packet := { packet with destPANID := DEFAULT_DEST_PAN_ID }
  let packet := { packet with srcPANID := DEFAULT_SRC_PAN_ID }
  let packet := { packet with destAddr := DEFAULT_DEST_ADDR }
  let packet := { packet with srcAddr := DEFAULT_SRC_ADDR }
  packet

/-- The busy-wait `while (1)` of `trxSendPacket`: polls the transceiver status until it reads
`CMD_TX_ARET_ON`, or reads `CMD_RX_AACK_ON` and switches to `TX_ARET_ON` through `PLL_ON`.
Every round takes two bytes of bus input, so the number of rounds is at most the first
argument when that is the length of `miso`. -/
def trxSendPacket.poll (K : Deps) : Nat → Radio → Option Radio
  | 0, _ => none
  | fuel + 1, s =>
    andThen (trxReadBit K.SR_TRX_STATUS.addr K.SR_TRX_STATUS.mask K.SR_TRX_STATUS.pos s)
      fun (state, s) =>
    if state = K.CMD_TX_ARET_ON then
      some s
    else if state = K.CMD_RX_AACK_ON then
      andThen (trxWriteReg K.RG_TRX_STATE K.CMD_PLL_ON s) fun s =>
      andThen (trxWriteReg K.RG_TRX_STATE K.CMD_TX_ARET_ON s) fun s =>
      some s
    else
      trxSendPacket.poll K fuel s

/-- The loop `for (i = 0; i < payloadLength; i++) trxWriteByte(payNextElement(payload))` of
`trxSendPacket`; the first argument is the number of rounds left (`payloadLength - i`). -/
def trxSendPacket.writeLoop : Nat → Radio → Option Radio
  | 0, s => some s
  | n + 1, s =>
    andThen s.mac_tx_packet_.payload fun p =>
    let (b, p) := payNextElement p
    let s := { s with mac_tx_packet_ := { s.mac_tx_packet_ with payload := some p } }
    andThen (trxWriteByte b s) fun (_, s) =>
    trxSendPacket.writeLoop n s

/-- The part of `trxSendPacket` that follows the busy-wait: pops a payload, stages it, sets
the state to `BUSY_TX_ARET`, strobes `SLP_TR`, writes the frame and deletes the payload. -/
def trxSendPacket.frame (s : Radio) : Option Radio :=
  andThen (pqPop s.tx_queue_) fun (pld, q) =>
  let s := { s with tx_queue_ := q }
  let s := { s with mac_tx_packet_ := { s.mac_tx_packet_ with payload := some pld } }
  let s := { s with mac_tx_packet_ :=
    { s.mac_tx_packet_ with payloadLength := payGetPayloadLength pld % 256 } }
  let s := { s with current_state_ := RadioState.STATE_BUSY_TX_ARET }
  let s := trxSetSlptr 1 s
  let s := trxSetSlptr 0 s
  let s := setCS 0 s
  andThen (trxWriteByte TRX_CMD_FW s) fun (_, s) =>
  andThen (trxWriteByte (s.mac_tx_packet_.payloadLength + MAC_HEADER_LENGTH + CRC_LENGTH) s)
    fun (_, s) =>
  andThen (trxWriteByte (LB s.mac_tx_packet_.frame_ctrl) s) fun (_, s) =>
  andThen (trxWriteByte (HB s.mac_tx_packet_.frame_ctrl) s) fun (_, s) =>
  andThen (trxWriteByte s.sqn { s with sqn := (s.sqn + 1) % 256 }) fun (_, s) =>
  andThen (trxWriteByte (LB s.mac_tx_packet_.destPANID) s) fun (_, s) =>
  andThen (trxWriteByte (HB s.mac_tx_packet_.destPANID) s) fun (_, s) =>
  andThen (trxWriteByte (LB s.mac_tx_packet_.destAddr) s) fun (_, s) =>
  andThen (trxWriteByte (HB s.mac_tx_packet_.destAddr) s) fun (_, s) =>
  andThen (trxWriteByte (LB s.mac_tx_packet_.srcAddr) s) fun (_, s) =>
  andThen (trxWriteByte (HB s.mac_tx_packet_.srcAddr) s) fun (_, s) =>
  let s := { s with mac_tx_packet_ :=
    { s.mac_tx_packet_ with payload := s.mac_tx_packet_.payload.map payInitIterator } }
  andThen (trxSendPacket.writeLoop s.mac_tx_packet_.payloadLength s) fun s =>
  let s := setCS 1 s
  andThen s.mac_tx_packet_.payload fun p =>
  some { s with trace := s.trace ++ [Ev.payDelete p] }

/-- The function `trxSendPacket`: the guard on `BUSY_TX_ARET`, the busy-wait, then the frame
write. -/
def trxSendPacket (K : Deps) (s : Radio) : Option Radio :=
  if s.current_state_ = RadioState.STATE_BUSY_TX_ARET then
    some s
  else
    andThen (trxSendPacket.poll K s.miso.length s) fun s =>
    trxSendPacket.frame s

/-- The loop `for (i = 0; i < length-2; ++i) payWriteByte(pld, i, trxReadByte())` of
`trxReceivePacket`; the first argument is the number of rounds left, the second is `i`. -/
def trxReceivePacket.readLoop : Nat → Nat → Payload → Radio → Option (Payload × Radio)
  | 0, _, pld, s => some (pld, s)
  | n + 1, i, pld, s =>
    andThen (trxReadByte s) fun (b, s) =>
    trxReceivePacket.readLoop n (i + 1) (payWriteByte pld i b) s

/-- The conditional read of the source PAN ID in `trxReceivePacket`:
`if (!mac_rx_packet_->frame_ctrl.bits.panIDComp) { ... }`. -/
def trxReceivePacket.srcPAN (s : Radio) : Option Radio :=
  if getBits s.mac_rx_packet_.frame_ctrl 6 1 = 0 then
    andThen (trxReadByte s) fun (b, s) =>
    let s := { s with mac_rx_packet_ :=
      { s.mac_rx_packet_ with srcPANID := setLB s.mac_rx_packet_.srcPANID b } }
    andThen (trxReadByte s) fun (b, s) =>
    let s := { s with mac_rx_packet_ :=
      { s.mac_rx_packet_ with srcPANID := setHB s.mac_rx_packet_.srcPANID b } }
    some s
  else
    some s

/-- The function `trxReceivePacket`. `length` is an `unsigned char`; `length-2` is computed
as a C `int`, so it is negative for `length < 2` and the copy loop then makes no round. -/
def trxReceivePacket (K : Deps) (s : Radio) : Option Radio :=
  andThen (trxReadBit K.SR_RX_CRC_VALID.addr K.SR_RX_CRC_VALID.mask K.SR_RX_CRC_VALID.pos s)
    fun (crc, s) =>
  if crc = 0 then
    some s
  else
    let s := setCS 0 s
    andThen (trxWriteByte TRX_CMD_FR s) fun (_, s) =>
    andThen (trxReadByte s) fun (b, s) =>
    let length : Nat := (((b : Int) - MAC_HEADER_LENGTH - CRC_LENGTH) % 256).toNat
    let s := { s with mac_rx_packet_ := { s.mac_rx_packet_ with payloadLength := length } }
    andThen (trxReadByte s) fun (b, s) =>
    let s := { s with mac_rx_packet_ :=
      { s.mac_rx_packet_ with frame_ctrl := setLB s.mac_rx_packet_.frame_ctrl b } }
    andThen (trxReadByte s) fun (b, s) =>
    let s := { s with mac_rx_packet_ :=
      { s.mac_rx_packet_ with frame_ctrl := setHB s.mac_rx_packet_.frame_ctrl b } }
    andThen (trxReadByte s) fun (b, s) =>
    let s := { s with mac_rx_packet_ := { s.mac_rx_packet_ with seqNum := b } }
    andThen (trxReadByte s) fun (b, s) =>
    let s := { s with mac_rx_packet_ :=
      { s.mac_rx_packet_ with destPANID := setLB s.mac_rx_packet_.destPANID b } }
    andThen (trxReadByte s) fun (b, s) =>
    let s := { s with mac_rx_packet_ :=
      { s.mac_rx_packet_ with destPANID := setHB s.mac_rx_packet_.destPANID b } }
    andThen (trxReadByte s) fun (b, s) =>
    let s := { s with mac_rx_packet_ :=
      { s.mac_rx_packet_ with destAddr := setLB s.mac_rx_packet_.destAddr b } }
    andThen (trxReadByte s) fun (b, s) =>
    let s := { s with mac_rx_packet_ :=
      { s.mac_rx_packet_ with destAddr := setHB s.mac_rx_packet_.destAddr b } }
    andThen (trxReceivePacket.srcPAN s) fun s =>
    andThen (trxReadByte s) fun (b, s) =>
    let s := { s with mac_rx_packet_ :=
      { s.mac_rx_packet_ with srcAddr := setLB s.mac_rx_packet_.srcAddr b } }
    andThen (trxReadByte s) fun (b, s) =>
    let s := { s with mac_rx_packet_ :=
      { s.mac_rx_packet_ with srcAddr := setHB s.mac_rx_packet_.srcAddr b } }
    let pld := payCreateEmpty ((length : Int) - 2)
    let s := { s with trace := s.trace ++ [Ev.payCreate pld] }
    andThen (trxReadByte s) fun (b, s) =>
    let pld := paySetStatus pld b
    andThen (trxReadByte s) fun (b, s) =>
    let pld := paySetType pld b
    andThen (trxReceivePacket.readLoop ((length : Int) - 2).toNat 0 pld s) fun (pld, s) =>
    andThen (trxReadByte s) fun (b, s) =>
    let s := { s with radio_lqi_ := s.radio_lqi_.set 0 b }
    let s := setCS 1 s
    some { s with rx_queue_ := pqPush K s.rx_queue_ pld }

/-! ## Interrupt dispatcher -/

/-- The function `trxHandleISR` (the body of the interrupt handler `_INT4Interrupt`). The
branch `if (trx_status != TRAC_SUCCESS) { }` is empty in the source. -/
def trxHandleISR (K : Deps) (s : Radio) : Option Radio :=
  andThen (trxReadReg K.RG_IRQ_STATUS s) fun (irq_cause, s) =>
  if irq_cause = K.TRX_IRQ_TRX_END then
    if s.current_state_ = RadioState.STATE_RX_AACK_ON then
      trxReceivePacket K s
    else
      andThen (trxReadBit K.SR_TRAC_STATUS.addr K.SR_TRAC_STATUS.mask K.SR_TRAC_STATUS.pos s)
        fun (_, s) =>
      if pqIsEmpty s.tx_queue_ then
        andThen (trxWriteReg K.RG_TRX_STATE K.CMD_PLL_ON s) fun s =>
        andThen (trxWriteReg K.RG_TRX_STATE K.CMD_RX_AACK_ON s) fun s =>
        some { s with current_state_ := RadioState.STATE_RX_AACK_ON }
      else
        trxSendPacket K { s with current_state_ := RadioState.STATE_TX_ARET_ON }
  else
    some s

/-! ## Public functions -/

/-- The function `trxSetup`. The configuration of the SPI peripheral registers by
`trxSetupPeripheral` is not part of the model. -/
def trxSetup (K : Deps) (s : Radio) : Option Radio :=
  let s := setCS 1 s
  andThen (trxWriteReg K.RG_TRX_STATE K.CMD_FORCE_TRX_OFF s) fun s =>
  andThen (trxWriteReg K.RG_IRQ_MASK K.TRX_IRQ_TRX_END s) fun s =>
  andThen (trxWriteBit K.SR_TX_AUTO_CRC_ON.addr K.SR_TX_AUTO_CRC_ON.mask
    K.SR_TX_AUTO_CRC_ON.pos 1 s) fun s =>
  andThen (trxWriteBit K.SR_CLKM_CTRL.addr K.SR_CLKM_CTRL.mask K.SR_CLKM_CTRL.pos
    K.CLKM_NO_CLOCK s) fun s =>
  andThen (trxWriteBit K.SR_CHANNEL.addr K.SR_CHANNEL.mask K.SR_CHANNEL.pos
    DEFAULT_CHANNEL s) fun s =>
  andThen (trxReadReg K.RG_IRQ_STATUS s) fun (_, s) =>
  andThen (trxWriteReg K.RG_SHORT_ADDR_0 (DEFAULT_SRC_ADDR &&& 0xff) s) fun s =>
  andThen (trxWriteReg K.RG_SHORT_ADDR_1 ((DEFAULT_SRC_ADDR >>> 8) &&& 0xff) s) fun s =>
  andThen (trxWriteReg K.RG_PAN_ID_0 (DEFAULT_SRC_PAN_ID &&& 0xff) s) fun s =>
  andThen (trxWriteReg K.RG_PAN_ID_1 ((DEFAULT_SRC_PAN_ID >>> 8) &&& 0xff) s) fun s =>
  andThen (trxWriteBit K.SR_MAX_FRAME_RETRIES.addr K.SR_MAX_FRAME_RETRIES.mask
    K.SR_MAX_FRAME_RETRIES.pos 2 s) fun s =>
  andThen (trxWriteBit K.SR_MAX_CSMA_RETRIES.addr K.SR_MAX_CSMA_RETRIES.mask
    K.SR_MAX_CSMA_RETRIES.pos 2 s) fun s =>
  trxWriteReg K.RG_TRX_STATE K.CMD_RX_AACK_ON s

/-- The function `radioSetup`. `mem_rx` and `mem_tx` are the contents of the two blocks
`malloc` returns to `trxCreateMacPacket`. -/
def radioSetup (K : Deps) (tx_queue_length rx_queue_length : Nat)
    (mem_rx mem_tx : MacPacketStruct) (s : Radio) : Option Radio :=
  andThen (trxSetup K s) fun s =>
  let s := { s with current_state_ := RadioState.STATE_RX_AACK_ON }
  let s := { s with mac_rx_packet_ := trxCreateMacPacket mem_rx }
  let s := { s with mac_tx_packet_ := trxCreateMacPacket mem_tx }
  let s := { s with tx_queue_ := pqInit tx_queue_length }
  let s := { s with rx_queue_ := pqInit rx_queue_length }
  some { s with trace := s.trace ++ [Ev.configINT4] }

/-- The function `radioGetTrxState`. -/
def radioGetTrxState (K : Deps) (s : Radio) : Option (Nat × Radio) :=
  trxReadBit K.SR_TRX_STATUS.addr K.SR_TRX_STATUS.mask K.SR_TRX_STATUS.pos s

/-- The function `radioIsTxQueueFull`. -/
def radioIsTxQueueFull (s : Radio) : Bool := pqIsFull s.tx_queue_

/-- The function `radioIsRxQueueEmpty`. -/
def radioIsRxQueueEmpty (s : Radio) : Bool := pqIsEmpty s.rx_queue_

/-- The function `radioGetRxPayload`; `none` is the `NULL` result. -/
def radioGetRxPayload (s : Radio) : Option Payload × Radio :=
  if pqIsEmpty s.rx_queue_ then
    (none, s)
  else
    match pqPop s.rx_queue_ with
    | none => (none, s)
    | some (p, q) => (some p, { s with rx_queue_ := q })

/-- The function `radioSendPayload`; the result is the returned `unsigned char` and the new
state. -/
def radioSendPayload (K : Deps) (pay : Payload) (s : Radio) : Option (Nat × Radio) :=
  if pqIsFull s.tx_queue_ then
    some (0, s)
  else
    let s := { s with tx_queue_ := pqPush K s.tx_queue_ pay }
    andThen (trxSendPacket K s) fun s =>
    some (1, s)

/-- The function `radioPutChar`. -/
def radioPutChar (K : Deps) (c : Nat) (s : Radio) : Option Radio :=
  let payload := payCreate 1 [c % 256] 0 0
  let s := { s with trace := s.trace ++ [Ev.payCreate payload] }
  andThen (radioSendPayload K payload s) fun (_, s) =>
  some s

/-- The part of `radioGetChar` that follows the refill of the static payload: reads the byte
at `data_loc`, whatever the index, advances `data_loc` and deletes the payload when the two
counters are equal; it returns 1. The result is the returned value, the byte stored through
`c`, and the new state; there is none only when the static `pld` is null. -/
def radioGetChar.read (K : Deps) (s : Radio) : Option (Nat × Option Nat × Radio) :=
  andThen s.pld fun p =>
  let c := payReadByte K p s.data_loc
  let s := { s with data_loc := s.data_loc + 1 }
  if s.data_length = s.data_loc then
    some (1, some c, { s with trace := s.trace ++ [Ev.payDelete p] })
  else
    some (1, some c, s)

/-- The function `radioGetChar`. The result is the returned value, the byte stored through
`c` (`none` when nothing is stored), and the new state. -/
def radioGetChar (K : Deps) (s : Radio) : Option (Nat × Option Nat × Radio) :=
  if s.data_length = s.data_loc then
    if pqIsEmpty s.rx_queue_ then
      some (0, none, s)
    else
      andThen (pqPop s.rx_queue_) fun (p, q) =>
      let s := { s with rx_queue_ := q }
      let s := { s with pld := some p }
      let s := { s with data_length := payGetDataLength p }
      let s := { s with data_loc := 0 }
      radioGetChar.read K s
  else
    radioGetChar.read K s

/-- The loop `while (!pqIsEmpty(tx_queue_)) payDelete(pqPop(tx_queue_))` of
`radioDeleteQueues`; the first argument bounds the number of rounds (the queue length). -/
def radioDeleteQueues.drainTx : Nat → Radio → Radio
  | 0, s => s
  | n + 1, s =>
    if pqIsEmpty s.tx_queue_ then s
    else
      match pqPop s.tx_queue_ with
      | none => s
      | some (p, q) =>
        radioDeleteQueues.drainTx n
          { s with tx_queue_ := q, trace := s.trace ++ [Ev.payDelete p] }

/-- The loop `while (!pqIsEmpty(rx_queue_)) payDelete(pqPop(rx_queue_))` of
`radioDeleteQueues`; the first argument bounds the number of rounds (the queue length). -/
def radioDeleteQueues.drainRx : Nat → Radio → Radio
  | 0, s => s
  | n + 1, s =>
    if pqIsEmpty s.rx_queue_ then s
    else
      match pqPop s.rx_queue_ with
      | none => s
      | some (p, q) =>
        radioDeleteQueues.drainRx n
          { s with rx_queue_ := q, trace := s.trace ++ [Ev.payDelete p] }

/-- The function `radioDeleteQueues`. -/
def radioDeleteQueues (s : Radio) : Radio :=
  let s := radioDeleteQueues.drainTx s.tx_queue_.items.length s
  radioDeleteQueues.drainRx s.rx_queue_.items.length s

/-! ## Runs of the driver -/

/-- One entry into the driver: a call of a public function by the application, or the radio
interrupt (`_INT4Interrupt`, which runs `trxHandleISR`). Entries do not overlap. -/
inductive Call
  | radioSetup (tx_queue_length rx_queue_length : Nat) (mem_rx mem_tx : MacPacketStruct)
  | radioSendPayload (pay : Payload)
  | radioPutChar (c : Nat)
  | radioGetRxPayload
  | radioGetChar
  | radioDeleteQueues
  | interrupt
deriving DecidableEq, Repr

/-- The state after one entry into the driver. -/
def Call.exec (K : Deps) : Call → Radio → Option Radio
  | Call.radioSetup tx rx mem_rx mem_tx, s => RadioDriver.radioSetup K tx rx mem_rx mem_tx s
  | Call.radioSendPayload pay, s => (RadioDriver.radioSendPayload K pay s).map fun r => r.2
  | Call.radioPutChar c, s => RadioDriver.radioPutChar K c s
  | Call.radioGetRxPayload, s => some (RadioDriver.radioGetRxPayload s).2
  | Call.radioGetChar, s => (RadioDriver.radioGetChar K s).map fun r => r.2.2
  | Call.radioDeleteQueues, s => some (RadioDriver.radioDeleteQueues s)
  | Call.interrupt, s => trxHandleISR K s

/-- The state after a sequence of entries into the driver, one after the other. -/
def run (K : Deps) : List Call → Radio → Option Radio
  | [], s => some s
  | c :: cs, s => andThen (Call.exec K c s) (run K cs)

/-! ## Reading a trace -/

/-- The trace of one register read: `SPI_CS` low, the command byte, the read, `SPI_CS` high.
`a` and `v` are the bytes shifted in. -/
def regReadTr (addr a v : Nat) : List Ev :=
  [Ev.cs 0, Ev.xfer ((TRX_CMD_RR ||| addr) % 256) a, Ev.xfer 0 v, Ev.cs 1]

/-- The trace of one register write of `val`; `a` and `b` are the bytes shifted in. -/
def regWriteTr (addr val a b : Nat) : List Ev :=
  [Ev.cs 0, Ev.xfer ((TRX_CMD_RW ||| addr) % 256) a, Ev.xfer (val % 256) b, Ev.cs 1]

/-- The value `trxReadBit` extracts from the register byte `v` for the sub-register `r`. -/
def subRegValue (r : SubReg) (v : Nat) : Nat := ((v % 256) &&& (r.mask % 256)) >>> r.pos

/-- Scan of a trace for chip-select-bracketed bus transactions: `done` holds the bytes written
(MOSI) in each finished transaction, `cur` those of the transaction in progress. -/
structure Scan where
  done : List (List Nat)
  cur : Option (List Nat)
deriving DecidableEq, Repr

/-- One step of the scan: `SPI_CS = 0` opens a transaction, any other level closes it, a byte
exchange adds its written byte to the open transaction. -/
def Scan.step (st : Scan) : Ev → Scan
  | Ev.cs 0 => { st with cur := some [] }
  | Ev.cs _ =>
    match st.cur with
    | some t => { done := st.done ++ [t], cur := none }
    | none => st
  | Ev.xfer o _ =>
    match st.cur with
    | some t => { st with cur := some (t ++ [o]) }
    | none => st
  | _ => st

/-- The bytes written in each finished chip-select-bracketed transaction of a trace. -/
def transactions (tr : List Ev) : List (List Nat) :=
  (tr.foldl Scan.step { done := [], cur := none }).done

/-- The frame-write transactions of a trace: those that start with the command `0x60`. -/
def frameWrites (tr : List Ev) : List (List Nat) :=
  (transactions tr).filter fun t => t.head? = some TRX_CMD_FW

/-- The frame-read transactions of a trace: those that start with the command `0x20`. -/
def frameReads (tr : List Ev) : List (List Nat) :=
  (transactions tr).filter fun t => t.head? = some TRX_CMD_FR

/-- The bytes shifted in (MISO) during the byte exchanges of a trace. -/
def received : List Ev → List Nat
  | [] => []
  | Ev.xfer _ i :: tr => i :: received tr
  | _ :: tr => received tr

/-- The bytes written (MOSI) during the byte exchanges of a trace. -/
def written : List Ev → List Nat
  | [] => []
  | Ev.xfer o _ :: tr => o :: written tr
  | _ :: tr => written tr

/-- The bytes the payload iterator yields in `n` successive calls of `payNextElement`. -/
def payYield : Nat → Payload → List Nat
  | 0, _ => []
  | n + 1, p => (payNextElement p).1 :: payYield n (payNextElement p).2

/-- The bus input taken by a list of status polls: each poll is a register read that takes
two bytes, the one shifted in during the command byte and the register value. -/
def pollIn : List (Nat × Nat) → List Nat
  | [] => []
  | p :: ps => p.1 :: p.2 :: pollIn ps

/-- The trace of a list of polls of the sub-register `SR_TRX_STATUS`. -/
def pollTr (K : Deps) : List (Nat × Nat) → List Ev
  | [] => []
  | p :: ps => regReadTr K.SR_TRX_STATUS.addr p.1 p.2 ++ pollTr K ps

/-- A status register value on which the busy-wait of `trxSendPacket` goes round again. -/
def PollBusy (K : Deps) (v : Nat) : Prop :=
  subRegValue K.SR_TRX_STATUS v ≠ K.CMD_TX_ARET_ON ∧
    subRegValue K.SR_TRX_STATUS v ≠ K.CMD_RX_AACK_ON

/-- A status register value `v` on which the busy-wait of `trxSendPacket` ends, with the bus
input `ack` taken by the register writes that follow it: none when the status reads
`CMD_TX_ARET_ON`, four bytes (two register writes) when it reads `CMD_RX_AACK_ON`. -/
def PollReady (K : Deps) (v : Nat) (ack : List Nat) : Prop :=
  (subRegValue K.SR_TRX_STATUS v = K.CMD_TX_ARET_ON ∧ ack = []) ∨
    (subRegValue K.SR_TRX_STATUS v ≠ K.CMD_TX_ARET_ON ∧
      subRegValue K.SR_TRX_STATUS v = K.CMD_RX_AACK_ON ∧ ack.length = 4)

/-- The trace of the two register writes `PLL_ON`, `TX_ARET_ON` that follow a status reading
`CMD_RX_AACK_ON`; `ack` is the bus input they take (empty when the status read
`CMD_TX_ARET_ON` and no write is made). -/
def armTr (K : Deps) : List Nat → List Ev
  | [a1, b1, a2, b2] =>
    regWriteTr K.RG_TRX_STATE K.CMD_PLL_ON a1 b1 ++
      regWriteTr K.RG_TRX_STATE K.CMD_TX_ARET_ON a2 b2
  | _ => []

/-- The bytes `trxSendPacket` writes in the frame-write transaction for the staging record
`m`, the sequence counter `sqn` and the popped payload `pld`. -/
def txFrame (m : MacPacketStruct) (sqn : Nat) (pld : Payload) : List Nat :=
  [TRX_CMD_FW, (payGetPayloadLength pld % 256 + MAC_HEADER_LENGTH + CRC_LENGTH) % 256,
    LB m.frame_ctrl, HB m.frame_ctrl, sqn % 256, LB m.destPANID, HB m.destPANID,
    LB m.destAddr, HB m.destAddr, LB m.srcAddr, HB m.srcAddr] ++
  payYield (payGetPayloadLength pld % 256) (payInitIterator pld)

/-- The 8-bit `length` that `trxReceivePacket` computes from the length byte `L` read from the
bus: `L - MAC_HEADER_LENGTH - CRC_LENGTH` stored in an `unsigned char`. -/
def rxPayloadLength (L : Nat) : Nat := (L % 256 + 256 - MAC_HEADER_LENGTH - CRC_LENGTH) % 256

/-- Bit 6 of the frame-control low byte: the PAN-ID-compression flag. -/
def panIDCompBit (fctrl_lo : Nat) : Nat := fctrl_lo / 64 % 2

/-- The payload after the bytes `data` read from the bus are stored with `payWriteByte` at
the indices `i`, `i + 1`, ... -/
def payWriteAll : Payload → Nat → List Nat → Payload
  | p, _, [] => p
  | p, i, b :: bs => payWriteAll (payWriteByte p i (b % 256)) (i + 1) bs

/-- The payload `trxReceivePacket` builds from the length byte `L`, the status and type bytes
and the data bytes read from the bus. -/
def rxPayload (L st ty : Nat) (data : List Nat) : Payload :=
  payWriteAll
    (paySetType (paySetStatus (payCreateEmpty ((rxPayloadLength L : Int) - 2)) (st % 256))
      (ty % 256)) 0 data

/-- The source PAN ID of the receive staging record after the conditional read: the two
bytes read when there are two, the old value when none is read. -/
def rxSrcPAN (old : Nat) : List Nat → Nat
  | [lo, hi] => (hi % 256) * 256 + lo % 256
  | _ => old

/-- 16-bit value of a low byte and a high byte read from the bus. -/
def word (lo hi : Nat) : Nat := (hi % 256) * 256 + lo % 256

/-- A piece of trace is quiet when it is made of whole chip-select-bracketed transactions,
none of which is a frame write: scanned from a state with no open transaction it adds
finished transactions that do not start with the command `0x60`, and leaves none open. -/
def Quiet (tr : List Ev) : Prop :=
  ∀ d : List (List Nat), ∃ txs : List (List Nat),
    tr.foldl Scan.step { done := d, cur := none } = { done := d ++ txs, cur := none } ∧
    ∀ t ∈ txs, t.head? ≠ some TRX_CMD_FW

/-- The state after register transactions: `SPI_CS` is high, the bus input left is `miso`
and the trace has grown by `tr`; nothing else has changed. -/
def afterBus (s : Radio) (miso : List Nat) (tr : List Ev) : Radio :=
  { s with SPI_CS := 1, miso := miso, trace := s.trace ++ tr }

/-- A step of the driver that only talks to the transceiver registers and takes exactly `k`
bytes of bus input: it does not return when fewer are available, and otherwise it returns
with `SPI_CS` high, the `k` bytes consumed and a quiet piece of trace added; nothing else
changes. -/
def BusOnly (k : Nat) (f : Radio → Option Radio) : Prop :=
  ∀ s : Radio, (s.miso.length < k → f s = none) ∧
    (k ≤ s.miso.length → ∃ tr, Quiet tr ∧ f s = some (afterBus s (s.miso.drop k) tr))

/-- The state `radioSetup` returns: the state after the register transactions of `trxSetup`,
with the current state `RX_AACK_ON`, the two staging records, the two empty queues and the
interrupt enabled. -/
def afterSetup (s : Radio) (tx_queue_length rx_queue_length : Nat)
    (mem_rx mem_tx : MacPacketStruct) (miso : List Nat) (tr : List Ev) : Radio :=
  { afterBus s miso (tr ++ [Ev.configINT4]) with
    current_state_ := RadioState.STATE_RX_AACK_ON,
    mac_rx_packet_ := trxCreateMacPacket mem_rx,
    mac_tx_packet_ := trxCreateMacPacket mem_tx,
    tx_queue_ := pqInit tx_queue_length,
    rx_queue_ := pqInit rx_queue_length }

/-- Successive calls of `radioSendPayload`, one per payload of the list, with nothing in
between; the result is the list of returned values and the final state. -/
def sendAll (K : Deps) : List Payload → Radio → Option (List Nat × Radio)
  | [], s => some ([], s)
  | p :: ps, s =>
    andThen (radioSendPayload K p s) fun (r, s) =>
    andThen (sendAll K ps s) fun (rs, s) =>
    some (r :: rs, s)

/-- The state the frame part of `trxSendPacket` returns for the popped payload `pld`, the
rest `items` of the outbound queue, the answers `resp` of the transceiver to the frame bytes
and the bus input `rest` left. -/
def afterFrame (s : Radio) (pld : Payload) (items : List Payload) (resp rest : List Nat) :
    Radio :=
  { s with
    current_state_ := RadioState.STATE_BUSY_TX_ARET,
    tx_queue_ := { s.tx_queue_ with items := items },
    mac_tx_packet_ := { s.mac_tx_packet_ with
      payload := some { pld with iter := payGetPayloadLength pld % 256 },
      payloadLength := payGetPayloadLength pld % 256 },
    sqn := (s.sqn + 1) % 256,
    SPI_CS := 1,
    SLPTR := 0,
    miso := rest,
    trace := s.trace ++ ([] ++ [Ev.slptr 1, Ev.slptr 0, Ev.cs 0] ++
      List.zipWith Ev.xfer (txFrame s.mac_tx_packet_ s.sqn pld) resp ++
      [Ev.cs 1, Ev.payDelete { pld with iter := payGetPayloadLength pld % 256 }]) }

/-- From `s` to `s'` the trace has grown by a quiet piece (no frame write) and the sequence
counter has not changed. -/
def QuietStep (s s' : Radio) : Prop :=
  ∃ tr, Quiet tr ∧ s'.trace = s.trace ++ tr ∧ s'.sqn = s.sqn

/-- From `s` to `s'` exactly one frame has been written, as `trxSendPacket` does it: after a
quiet piece of trace, the `SLP_TR` strobe and one transaction that starts with `0x60` and
whose fifth byte is the sequence counter of `s`; the counter of `s'` is one more, modulo
256. -/
def FrameStep (s s' : Radio) : Prop :=
  ∃ (pre : List Ev) (frame resp : List Nat) (p : Payload),
    Quiet pre ∧ frame.length = resp.length ∧ frame.head? = some TRX_CMD_FW ∧
    frame[4]? = some (s.sqn % 256) ∧
    s'.trace = s.trace ++ (pre ++ [Ev.slptr 1, Ev.slptr 0, Ev.cs 0] ++
      List.zipWith Ev.xfer frame resp ++ [Ev.cs 1, Ev.payDelete p]) ∧
    s'.sqn = (s.sqn + 1) % 256

/-- The sequence-number invariant of a driver state: no bus transaction is open, the frame
write number `k` (counting from 0) of the trace carries the sequence byte `k % 256`, and the
sequence counter is the number of frames written so far, modulo 256. -/
def SeqInv (s : Radio) : Prop :=
  ∃ txs : List (List Nat),
    s.trace.foldl Scan.step { done := [], cur := none } = { done := txs, cur := none } ∧
    (∀ (k : Nat) (f : List Nat),
      (txs.filter fun t => t.head? = some TRX_CMD_FW)[k]? = some f → f[4]? = some (k % 256)) ∧
    s.sqn = (txs.filter fun t => t.head? = some TRX_CMD_FW).length % 256

/-- The memory of a staging record with every byte zero. -/
def zeroMem : MacPacketStruct :=
  { frame_ctrl := 0, seqNum := 0, destPANID := 0, destAddr := 0, srcPANID := 0, srcAddr := 0,
    payload := none, payloadLength := 0 }

/-- The driver state at program start, before `radioSetup`: static storage is zero
(`current_state_` is 0, `STATE_SLEEP`; `sqn` is 0), nothing has happened on the bus, and
`miso` is what the transceiver will answer. The queue and staging record pointers are null
at that point; `radioSetup` assigns all four before anything reads them. -/
def powerOn (miso : List Nat) : Radio :=
  { current_state_ := RadioState.STATE_SLEEP, radio_lqi_ := [0, 0, 0, 0, 0],
    mac_rx_packet_ := zeroMem, mac_tx_packet_ := zeroMem,
    tx_queue_ := pqInit 0, rx_queue_ := pqInit 0,
    sqn := 0, data_length := 0, data_loc := 0, pld := none,
    SPI_CS := 0, SLPTR := 0, miso := miso, trace := [] }

/-- The payload of the round-trip example of the spec: status 0, type 0, data
`[0xAA, 0xBB]`. -/
def samplePayload : Payload := { status := 0, type := 0, data := [0xAA, 0xBB], iter := 0 }

/-- A state of the driver after `radioSetup`, listening (`RX_AACK_ON`), with the queue
capacities and contents given and `miso` as the coming bus input. -/
def listening (txCap rxCap : Nat) (txItems rxItems : List Payload) (miso : List Nat) : Radio :=
  { powerOn miso with
    current_state_ := RadioState.STATE_RX_AACK_ON,
    mac_rx_packet_ := trxCreateMacPacket zeroMem, mac_tx_packet_ := trxCreateMacPacket zeroMem,
    tx_queue_ := { capacity := txCap, items := txItems },
    rx_queue_ := { capacity := rxCap, items := rxItems },
    SPI_CS := 1 }

/-- A run of the driver used as an example: set-up with queues of capacity 1, two send
requests (the second is deferred), and the transmit-complete interrupt that sends the second
frame. -/
def demoCalls : List Call :=
  [Call.radioSetup 1 1 zeroMem zeroMem, Call.radioSendPayload samplePayload,
    Call.radioSendPayload samplePayload, Call.interrupt]

/-- The answers of the transceiver during `demoCalls`: 36 bytes for the set-up, status
`RX_AACK_ON` (22) at the first poll, interrupt cause `TRX_END` (8), then status `TX_ARET_ON`
(25). -/
def demoInput : List Nat :=
  List.replicate 36 0 ++ [0, 22, 0, 0, 0, 0] ++ List.replicate 15 0 ++
    [0, 8, 0, 0, 0, 25] ++ List.replicate 15 0

/-- The state after `demoCalls`. -/
def demoFinal : Radio := (run at86rf231 demoCalls (powerOn demoInput)).getD (powerOn [])

/-- The trace of the transmit-complete branch of `trxHandleISR` taken with an empty outbound
queue: the read of the interrupt cause, the read of the transmit status, then the register
writes of `PLL_ON` and `RX_AACK_ON`. -/
def isrIdleTr (K : Deps) (a v a2 v2 a3 b3 a4 b4 : Nat) : List Ev :=
  regReadTr K.RG_IRQ_STATUS a v ++ regReadTr K.SR_TRAC_STATUS.addr a2 v2 ++
    regWriteTr K.RG_TRX_STATE K.CMD_PLL_ON a3 b3 ++
    regWriteTr K.RG_TRX_STATE K.CMD_RX_AACK_ON a4 b4

/-- The trace of the transmit-complete branch of `trxHandleISR` taken with a queued payload
`pld` while the transceiver status reads `TX_ARET_ON`: the reads of the interrupt cause, of the
transmit status and of the transceiver status, the `SLP_TR` strobe, the frame write and the
deletion of the payload. -/
def isrNextTr (K : Deps) (m : MacPacketStruct) (sqn : Nat) (pld : Payload)
    (a v a2 v2 a3 v3 : Nat) (resp : List Nat) : List Ev :=
  regReadTr K.RG_IRQ_STATUS a v ++ regReadTr K.SR_TRAC_STATUS.addr a2 v2 ++
    regReadTr K.SR_TRX_STATUS.addr a3 v3 ++ [Ev.slptr 1, Ev.slptr 0, Ev.cs 0] ++
    List.zipWith Ev.xfer (txFrame m sqn pld) resp ++
    [Ev.cs 1, Ev.payDelete { pld with iter := payGetPayloadLength pld % 256 }]

/-- Successive calls of `radioGetChar`, as many as the first argument says, with nothing in
between; the result is the list of returned values, each with the byte stored through `c`, and
the final state. -/
def radioGetChar.times (K : Deps) : Nat → Radio → Option (List (Nat × Option Nat) × Radio)
  | 0, s => some ([], s)
  | n + 1, s =>
    andThen (radioGetChar K s) fun (r, c, s) =>
    andThen (radioGetChar.times K n s) fun (rs, s) =>
    some ((r, c) :: rs, s)

/-- A state of the driver with a transfer in flight (`BUSY_TX_ARET`): queues of capacity 2, the
outbound queue holding `txItems`, and `miso` as the coming bus input. -/
def transmitting (txItems : List Payload) (miso : List Nat) : Radio :=
  { listening 2 2 txItems [] miso with current_state_ := RadioState.STATE_BUSY_TX_ARET }

/-- The statements of `trxSendPacket` between the busy-wait and the `SLP_TR` strobe: pops a
payload, stages it in the transmit record and sets the current state to `BUSY_TX_ARET`. -/
def trxSendPacket.stage (s : Radio) : Option Radio :=
  andThen (pqPop s.tx_queue_) fun (pld, q) =>
  let s := { s with tx_queue_ := q }
  let s := { s with mac_tx_packet_ := { s.mac_tx_packet_ with payload := some pld } }
  let s := { s with mac_tx_packet_ :=
    { s.mac_tx_packet_ with payloadLength := payGetPayloadLength pld % 256 } }
  some { s with current_state_ := RadioState.STATE_BUSY_TX_ARET }

/-- The statements of `trxSendPacket` from the `SLP_TR` strobe on: the strobe, the frame-write
transaction and the deletion of the payload. -/
def trxSendPacket.write (s : Radio) : Option Radio :=
  let s := trxSetSlptr 1 s
  let s := trxSetSlptr 0 s
  let s := setCS 0 s
  andThen (trxWriteByte TRX_CMD_FW s) fun (_, s) =>
  andThen (trxWriteByte (s.mac_tx_packet_.payloadLength + MAC_HEADER_LENGTH + CRC_LENGTH) s)
    fun (_, s) =>
  andThen (trxWriteByte (LB s.mac_tx_packet_.frame_ctrl) s) fun (_, s) =>
  andThen (trxWriteByte (HB s.mac_tx_packet_.frame_ctrl) s) fun (_, s) =>
  andThen (trxWriteByte s.sqn { s with sqn := (s.sqn + 1) % 256 }) fun (_, s) =>
  andThen (trxWriteByte (LB s.mac_tx_packet_.destPANID) s) fun (_, s) =>
  andThen (trxWriteByte (HB s.mac_tx_packet_.destPANID) s) fun (_, s) =>
  andThen (trxWriteByte (LB s.mac_tx_packet_.destAddr) s) fun (_, s) =>
  andThen (trxWriteByte (HB s.mac_tx_packet_.destAddr) s) fun (_, s) =>
  andThen (trxWriteByte (LB s.mac_tx_packet_.srcAddr) s) fun (_, s) =>
  andThen (trxWriteByte (HB s.mac_tx_packet_.srcAddr) s) fun (_, s) =>
  let s := { s with mac_tx_packet_ :=
    { s.mac_tx_packet_ with payload := s.mac_tx_packet_.payload.map payInitIterator } }
  andThen (trxSendPacket.writeLoop s.mac_tx_packet_.payloadLength s) fun s =>
  let s := setCS 1 s
  andThen s.mac_tx_packet_.payload fun p =>
  some { s with trace := s.trace ++ [Ev.payDelete p] }

/-- Successive calls of `radioGetRxPayload`, as many as the first argument says, with nothing
in between; the result is the list of returned values (`none` is `NULL`) and the final
state. -/
def radioGetRxPayload.times : Nat → Radio → List (Option Payload) × Radio
  | 0, s => ([], s)
  | n + 1, s =>
    ((radioGetRxPayload s).1 :: (radioGetRxPayload.times n (radioGetRxPayload s).2).1,
      (radioGetRxPayload.times n (radioGetRxPayload s).2).2)

/-- Successive receptions: `trxReceivePacket` called as many times as the first argument
says, each call taking its bytes from the bus input left by the one before. -/
def receiveAll (K : Deps) : Nat → Radio → Option Radio
  | 0, s => some s
  | n + 1, s => andThen (trxReceivePacket K s) (receiveAll K n)

/-- What the transceiver answers during one reception of a frame by `trxReceivePacket`: the
two bytes of the CRC status read, the byte shifted in with the command `0x20`, then the frame
bytes in the order they are read, the LQI byte last. -/
structure RxFrame where
  a : Nat
  v : Nat
  y : Nat
  L : Nat
  fl : Nat
  fh : Nat
  seq : Nat
  dpl : Nat
  dph : Nat
  dal : Nat
  dah : Nat
  span : List Nat
  sal : Nat
  sah : Nat
  st : Nat
  ty : Nat
  data : List Nat
  lqi : Nat
deriving DecidableEq, Repr

/-- The bus input of one reception. -/
def RxFrame.input (f : RxFrame) : List Nat :=
  f.a :: f.v :: f.y :: f.L :: f.fl :: f.fh :: f.seq :: f.dpl :: f.dph :: f.dal :: f.dah ::
    (f.span ++ f.sal :: f.sah :: f.st :: f.ty :: (f.data ++ [f.lqi]))

/-- The reception is that of a CRC-valid frame: the CRC-valid bit reads non-zero, the source
PAN ID bytes are there exactly when bit 6 of the frame-control low byte is clear, and there
are as many data bytes as the length byte says. -/
def RxFrame.Valid (K : Deps) (f : RxFrame) : Prop :=
  subRegValue K.SR_RX_CRC_VALID f.v ≠ 0 ∧
    f.span.length = (if panIDCompBit f.fl = 0 then 2 else 0) ∧
    f.data.length = rxPayloadLength f.L - 2

/-- The payload `trxReceivePacket` builds from the frame. -/
def RxFrame.payload (f : RxFrame) : Payload := rxPayload f.L f.st f.ty f.data

/-- The bus input of successive receptions. -/
def rxInputs : List RxFrame → List Nat
  | [] => []
  | f :: fs => f.input ++ rxInputs fs

instance (K : Deps) (f : RxFrame) : Decidable (RxFrame.Valid K f) := by
  unfold RxFrame.Valid
  infer_instance

/-- A received frame used as an example: length byte 15, PAN-ID compression set, sequence
number 5, status 1, type 2, data `[0xAA, 0xBB]`, LQI `0xFF`. -/
def demoFrame1 : RxFrame :=
  { a := 0, v := 0x80, y := 0, L := 15, fl := 0x61, fh := 0x98, seq := 5,
    dpl := 0x20, dph := 0x20, dal := 0x21, dah := 0x20, span := [], sal := 0x22, sah := 0x20,
    st := 1, ty := 2, data := [0xAA, 0xBB], lqi := 0xFF }

/-- A second received frame: length byte 14, sequence number 6, status 3, type 4, data
`[0xCC]`, LQI `0xFE`. -/
def demoFrame2 : RxFrame :=
  { a := 0, v := 0x80, y := 0, L := 14, fl := 0x61, fh := 0x98, seq := 6,
    dpl := 0x20, dph := 0x20, dal := 0x21, dah := 0x20, span := [], sal := 0x22, sah := 0x20,
    st := 3, ty := 4, data := [0xCC], lqi := 0xFE }

/-- The bytes `trxSendPacket` writes for a payload after the header of the frame: what the
payload iterator yields in as many steps as the 8-bit payload length says. -/
def wireBytes (p : Payload) : List Nat :=
  payYield (payGetPayloadLength p % 256) (payInitIterator p)

/-- The payload bytes carried by the frame writes of a trace, in the order of the frames:
each frame-write transaction without its command byte, length byte and nine header bytes. -/
def framePayloads (tr : List Ev) : List (List Nat) := (frameWrites tr).map (List.drop 11)

/-- One entry into the transmit side of the driver: a send request of the application, or the
radio interrupt. -/
inductive TxEntry
  | send (pay : Payload)
  | interrupt
deriving DecidableEq, Repr

/-- A sequence of send requests and interrupts, one after the other; the result is the list
of the payloads whose request was accepted (`radioSendPayload` returned 1), in the order of
the calls, and the final state. -/
def txRun (K : Deps) : List TxEntry → Radio → Option (List Payload × Radio)
  | [], s => some ([], s)
  | TxEntry.send p :: es, s =>
    andThen (radioSendPayload K p s) fun (r, s) =>
    andThen (txRun K es s) fun (acc, s) =>
    some ((if r = 1 then [p] else []) ++ acc, s)
  | TxEntry.interrupt :: es, s =>
    andThen (trxHandleISR K s) fun s =>
    txRun K es s

/-- From `s` to `s'` the payloads `pushed` have been appended to the outbound queue and then
either no frame has been written, or exactly one frame, which carries the bytes of the payload
taken from the head of the queue. -/
def TxStep (s s' : Radio) (pushed : List Payload) : Prop :=
  (∃ tr, Quiet tr ∧ s'.trace = s.trace ++ tr ∧
    s'.tx_queue_.items = s.tx_queue_.items ++ pushed) ∨
  (∃ (pre : List Ev) (frame resp : List Nat) (d pld : Payload),
    Quiet pre ∧ frame.length = resp.length ∧ frame.head? = some TRX_CMD_FW ∧
    frame.drop 11 = wireBytes pld ∧
    s'.trace = s.trace ++ (pre ++ [Ev.slptr 1, Ev.slptr 0, Ev.cs 0] ++
      List.zipWith Ev.xfer frame resp ++ [Ev.cs 1, Ev.payDelete d]) ∧
    pld :: s'.tx_queue_.items = s.tx_queue_.items ++ pushed)

/-- The FIFO invariant of the transmit side for the list `acc` of payloads accepted so far:
no bus transaction is open, and `acc` is the list `sent` of the payloads whose bytes the frame
writes of the trace carry, in the order of the frames, followed by the payloads still in the
outbound queue. -/
def FifoInv (s : Radio) (acc : List Payload) : Prop :=
  ∃ (txs : List (List Nat)) (sent : List Payload),
    s.trace.foldl Scan.step { done := [], cur := none } = { done := txs, cur := none } ∧
    (txs.filter fun t => t.head? = some TRX_CMD_FW).map (List.drop 11) = sent.map wireBytes ∧
    sent ++ s.tx_queue_.items = acc

/-- A second payload for examples: status 1, type 2, data `[0xCC]`. -/
def otherPayload : Payload := { status := 1, type := 2, data := [0xCC], iter := 0 }

/-- A run of the transmit side used as an example: two send requests (the second is deferred,
the first transfer being in flight) and the transmit-complete interrupt that sends the second
frame. -/
def fifoEntries : List TxEntry :=
  [TxEntry.send samplePayload, TxEntry.send otherPayload, TxEntry.interrupt]

/-- The answers of the transceiver during `fifoEntries`: status `RX_AACK_ON` (22) at the first
poll, interrupt cause `TRX_END` (8), then status `TX_ARET_ON` (25). -/
def fifoInput : List Nat :=
  [0, 22, 0, 0, 0, 0] ++ List.replicate 15 0 ++ [0, 8, 0, 0, 0, 25] ++ List.replicate 14 0

/-- The state after `fifoEntries`. -/
def fifoFinal : Radio :=
  ((txRun at86rf231 fifoEntries (listening 2 2 [] [] fifoInput)).map (·.2)).getD (powerOn [])

/-- The fields of a staging record that `trxSendPacket` writes in the frame header: frame
control, destination PAN ID, destination address and source address. -/
def txHeader (m : MacPacketStruct) : Nat × Nat × Nat × Nat :=
  (m.frame_ctrl, m.destPANID, m.destAddr, m.srcAddr)

/-- From `s` to `s'` the driver has made only whole bus transactions that are not frame
writes, and has left the sequence counter, the transmit staging record, the current state and
the outbound queue as they were. -/
def RestStep (s s' : Radio) : Prop :=
  ∃ tr, Quiet tr ∧ s'.trace = s.trace ++ tr ∧ s'.sqn = s.sqn ∧
    s'.mac_tx_packet_ = s.mac_tx_packet_ ∧ s'.current_state_ = s.current_state_ ∧
    s'.tx_queue_ = s.tx_queue_

/-- What an entry into the driver does on the wire and to the header fields of the transmit
staging record: it writes no frame, or exactly one frame made of the header fields and the
sequence counter it started with; the header fields stay as they were, or the record is a new
one built by `trxCreateMacPacket`. -/
def WireStep (s s' : Radio) : Prop :=
  ((∃ tr, Quiet tr ∧ s'.trace = s.trace ++ tr) ∨
    (∃ (pre : List Ev) (pld : Payload) (resp : List Nat) (d : Payload),
      Quiet pre ∧ (txFrame s.mac_tx_packet_ s.sqn pld).length = resp.length ∧
      s'.trace = s.trace ++ (pre ++ [Ev.slptr 1, Ev.slptr 0, Ev.cs 0] ++
        List.zipWith Ev.xfer (txFrame s.mac_tx_packet_ s.sqn pld) resp ++
        [Ev.cs 1, Ev.payDelete d]))) ∧
  (txHeader s'.mac_tx_packet_ = txHeader s.mac_tx_packet_ ∨
    ∃ mem, s'.mac_tx_packet_ = trxCreateMacPacket mem)

/-- What an entry into the driver does to the current state and the outbound queue: it leaves
the current state alone and the queue as it was or empty; or it ends in `BUSY_TX_ARET`; or it
ends in `RX_AACK_ON` with the outbound queue empty. -/
def ModeStep (s s' : Radio) : Prop :=
  (s'.current_state_ = s.current_state_ ∧
    (s'.tx_queue_.items = s.tx_queue_.items ∨ s'.tx_queue_.items = [])) ∨
  s'.current_state_ = RadioState.STATE_BUSY_TX_ARET ∨
  (s'.current_state_ = RadioState.STATE_RX_AACK_ON ∧ s'.tx_queue_.items = [])

/-- The reachable-state invariant of the current state and the outbound queue: the current
state is `RX_AACK_ON` or `BUSY_TX_ARET`, and in `RX_AACK_ON` the outbound queue is empty. -/
def ModeInv (s : Radio) : Prop :=
  (s.current_state_ = RadioState.STATE_RX_AACK_ON ∨
    s.current_state_ = RadioState.STATE_BUSY_TX_ARET) ∧
  (s.current_state_ = RadioState.STATE_RX_AACK_ON → s.tx_queue_.items = [])

/-- The header fields of a transmit staging record are those `trxCreateMacPacket` sets:
frame control `0x9861` and the default destination PAN ID, destination address and source
address. -/
def HdrOK (m : MacPacketStruct) : Prop :=
  txHeader m = (0x9861, DEFAULT_DEST_PAN_ID, DEFAULT_DEST_ADDR, DEFAULT_SRC_ADDR)

/-- The frame `trxSendPacket` writes for the sequence counter `sqn` and the payload `p` when
the header fields are those `trxCreateMacPacket` sets: command, length byte, the nine header
bytes (frame control `0x61`, `0x98`, sequence number, destination PAN ID `0x2020`, destination
address `0x2021`, source address `0x2022`, low byte first), then the payload bytes. -/
def defaultFrame (sqn : Nat) (p : Payload) : List Nat :=
  [0x60, (payGetPayloadLength p % 256 + 9 + 2) % 256, 0x61, 0x98, sqn % 256,
    0x20, 0x20, 0x21, 0x20, 0x22, 0x20] ++ wireBytes p

/-- The invariant of the frames on the wire: the header fields of the transmit staging record
are those `trxCreateMacPacket` sets, no bus transaction is open, and every frame write of the
trace is a `defaultFrame`. -/
def HdrInv (s : Radio) : Prop :=
  HdrOK s.mac_tx_packet_ ∧
  ∃ txs : List (List Nat),
    s.trace.foldl Scan.step { done := [], cur := none } = { done := txs, cur := none } ∧
    ∀ f ∈ txs.filter (fun t => t.head? = some TRX_CMD_FW), ∃ sqn p, f = defaultFrame sqn p

/-- What an entry into the driver does to the payload reference of the transmit staging
record: it leaves it as it was; or it has written a frame, deleted the payload right after
the release of chip-select, and the reference still is the deleted payload; or the record is a
new one, whose reference is what the allocated memory held. -/
def RefStep (s s' : Radio) : Prop :=
  s'.mac_tx_packet_.payload = s.mac_tx_packet_.payload ∨
  (∃ (d : Payload) (pre : List Ev),
    s'.mac_tx_packet_.payload = some d ∧ s'.trace = pre ++ [Ev.cs 1, Ev.payDelete d]) ∨
  (∃ mem, s'.mac_tx_packet_ = trxCreateMacPacket mem ∧
    s'.mac_tx_packet_.payload = mem.payload)

/-- The state after one `trxSendPacket` from the listening state with the sample payload
queued, the transceiver status reading `TX_ARET_ON` (25) at the first poll. -/
def sentOnce : Radio :=
  (trxSendPacket at86rf231
    (listening 1 1 [samplePayload] [] ([0, 25] ++ List.replicate 15 0))).getD (powerOn [])

/-- The bus input of two receptions: a CRC-valid frame with length byte 13, which carries no
payload data, then a CRC-valid frame with length byte 15 and the two data bytes
`0xAA, 0xBB`. -/
def noDataInput : List Nat :=
  [0, 0x80, 0, 13, 0x61, 0x98, 5, 0x20, 0x20, 0x21, 0x20, 0x22, 0x20, 0, 0, 0xFF,
   0, 0x80, 0, 15, 0x61, 0x98, 6, 0x20, 0x20, 0x21, 0x20, 0x22, 0x20, 0, 0, 0xAA, 0xBB, 0xFF]

/-- The state of the driver after `trxReceivePacket` has received the two frames of
`noDataInput` with inbound capacity 2; both receptions return, so the default state is not
the one taken. -/
def noDataArrived : Radio :=
  (receiveAll at86rf231 2 (listening 2 2 [] [] noDataInput)).getD (powerOn [])

/-! ## Theorems -/

@[simp]
theorem andThen_some {α β : Type} (a : α) (f : α → Option β) : andThen (some a) f = f a := rfl

@[simp]
theorem andThen_none {α β : Type} (f : α → Option β) : andThen none f = none := rfl

theorem trxWriteByte_cons (dout c : Nat) (rest : List Nat) (s : Radio) (h : s.miso = c :: rest) :
    trxWriteByte dout s
      = some (c % 256, { s with miso := rest, trace := s.trace ++ [Ev.xfer (dout % 256) c] }) := by
  simp [trxWriteByte, h]

theorem trxReadByte_cons (c : Nat) (rest : List Nat) (s : Radio) (h : s.miso = c :: rest) :
    trxReadByte s
      = some (c % 256, { s with miso := rest, trace := s.trace ++ [Ev.xfer 0 c] }) := by
  simp [trxReadByte, h]

theorem trxReadReg_cons (addr a v : Nat) (rest : List Nat) (s : Radio)
    (h : s.miso = a :: v :: rest) :
    trxReadReg addr s
      = some (v % 256, { s with SPI_CS := 1, miso := rest,
                                trace := s.trace ++ regReadTr addr a v }) := by
  simp [trxReadReg, trxWriteByte, trxReadByte, setCS, h, regReadTr]

theorem trxWriteReg_cons (addr val a b : Nat) (rest : List Nat) (s : Radio)
    (h : s.miso = a :: b :: rest) :
    trxWriteReg addr val s
      = some { s with SPI_CS := 1, miso := rest,
                      trace := s.trace ++ regWriteTr addr val a b } := by
  simp [trxWriteReg, trxWriteByte, setCS, h, regWriteTr]

theorem trxReadBit_cons (r : SubReg) (a v : Nat) (rest : List Nat) (s : Radio)
    (h : s.miso = a :: v :: rest) :
    trxReadBit r.addr r.mask r.pos s
      = some (subRegValue r v, { s with SPI_CS := 1, miso := rest,
                                        trace := s.trace ++ regReadTr r.addr a v }) := by
  simp [trxReadBit, trxReadReg_cons r.addr a v rest s h, subRegValue]

theorem poll_spec (K : Deps) (polls : List (Nat × Nat)) :
    ∀ (fuel : Nat) (s : Radio) (a v : Nat) (ack rest : List Nat),
      polls.length < fuel → (∀ p ∈ polls, PollBusy K p.2) → PollReady K v ack →
      s.miso = pollIn polls ++ a :: v :: (ack ++ rest) →
      trxSendPacket.poll K fuel s
        = some { s with SPI_CS := 1, miso := rest,
                        trace := s.trace ++ (pollTr K polls ++
                          regReadTr K.SR_TRX_STATUS.addr a v ++ armTr K ack) } := by
  induction polls with
  | nil =>
    intro fuel s a v ack rest hf _ hr hin
    obtain ⟨fuel, rfl⟩ : ∃ k, fuel = k + 1 := ⟨fuel - 1, by simp at hf; omega⟩
    simp only [pollIn, List.nil_append] at hin
    rcases hr with ⟨h1, rfl⟩ | ⟨h1, h2, h3⟩
    · simp [trxSendPacket.poll, trxReadBit_cons K.SR_TRX_STATUS a v _ s hin, h1, pollTr, armTr]
    · obtain ⟨a1, b1, a2, b2, rfl⟩ : ∃ a1 b1 a2 b2, ack = [a1, b1, a2, b2] := by
        match ack, h3 with
        | [a1, b1, a2, b2], _ => exact ⟨a1, b1, a2, b2, rfl⟩
      have h1' : K.CMD_RX_AACK_ON ≠ K.CMD_TX_ARET_ON := h2 ▸ h1
      simp [trxSendPacket.poll, trxReadBit_cons K.SR_TRX_STATUS a v _ s hin, h1', h2, pollTr,
        armTr, trxWriteReg, trxWriteByte, setCS, regWriteTr]
  | cons p ps ih =>
    intro fuel s a v ack rest hf hb hr hin
    obtain ⟨fuel, rfl⟩ : ∃ k, fuel = k + 1 := ⟨fuel - 1, by simp at hf; omega⟩
    have hp : PollBusy K p.2 := hb p (by simp)
    simp only [pollIn, List.cons_append] at hin
    simp only [trxSendPacket.poll, trxReadBit_cons K.SR_TRX_STATUS p.1 p.2 _ s hin,
      andThen_some, if_neg hp.1, if_neg hp.2]
    rw [ih fuel _ a v ack rest (by simp at hf; omega) (fun q hq => hb q (by simp [hq])) hr rfl]
    simp [pollTr]

theorem writeLoop_spec :
    ∀ (n : Nat) (s : Radio) (p : Payload) (resp rest : List Nat),
      s.mac_tx_packet_.payload = some p → resp.length = n → s.miso = resp ++ rest →
      trxSendPacket.writeLoop n s
        = some { s with
            mac_tx_packet_ := { s.mac_tx_packet_ with payload := some { p with iter := p.iter + n } },
            miso := rest,
            trace := s.trace ++ List.zipWith Ev.xfer (payYield n p) resp } := by
  intro n
  induction n with
  | zero =>
    intro s p resp rest hp hl hin
    have : resp = [] := List.length_eq_zero.mp hl
    subst this
    simp at hin
    simp [trxSendPacket.writeLoop, payYield, ← hp, ← hin]
  | succ n ih =>
    intro s p resp rest hp hl hin
    match resp, hl with
    | r :: resp, hl =>
      simp only [List.cons_append] at hin
      simp only [trxSendPacket.writeLoop, hp, andThen_some, trxWriteByte, hin]
      rw [ih _ (payNextElement p).2 resp rest rfl (by simpa using hl) rfl]
      simp [payYield, payNextElement, Nat.add_assoc, Nat.add_comm 1 n]

theorem pollIn_length (polls : List (Nat × Nat)) : (pollIn polls).length = 2 * polls.length := by
  induction polls with
  | nil => rfl
  | cons p ps ih => simp [pollIn, ih]; omega

theorem list_split_eleven (resp : List Nat) (n : Nat) (h : resp.length = 11 + n) :
    ∃ r0 r1 r2 r3 r4 r5 r6 r7 r8 r9 r10 body,
      resp = r0 :: r1 :: r2 :: r3 :: r4 :: r5 :: r6 :: r7 :: r8 :: r9 :: r10 :: body ∧
      body.length = n := by
  have step : ∀ (l : List Nat) (k : Nat), l.length = k + 1 → ∃ x t, l = x :: t ∧ t.length = k := by
    intro l k hl
    cases l with
    | nil => simp at hl
    | cons x t => exact ⟨x, t, rfl, by simpa using hl⟩
  obtain ⟨r0, t0, rfl, h0⟩ := step resp (10 + n) (by omega)
  obtain ⟨r1, t1, rfl, h1⟩ := step t0 (9 + n) (by omega)
  obtain ⟨r2, t2, rfl, h2⟩ := step t1 (8 + n) (by omega)
  obtain ⟨r3, t3, rfl, h3⟩ := step t2 (7 + n) (by omega)
  obtain ⟨r4, t4, rfl, h4⟩ := step t3 (6 + n) (by omega)
  obtain ⟨r5, t5, rfl, h5⟩ := step t4 (5 + n) (by omega)
  obtain ⟨r6, t6, rfl, h6⟩ := step t5 (4 + n) (by omega)
  obtain ⟨r7, t7, rfl, h7⟩ := step t6 (3 + n) (by omega)
  obtain ⟨r8, t8, rfl, h8⟩ := step t7 (2 + n) (by omega)
  obtain ⟨r9, t9, rfl, h9⟩ := step t8 (1 + n) (by omega)
  obtain ⟨r10, t10, rfl, h10⟩ := step t9 n (by omega)
  exact ⟨r0, r1, r2, r3, r4, r5, r6, r7, r8, r9, r10, t10, rfl, h10⟩

/-- The state `trxSendPacket` returns from a state that is not `BUSY_TX_ARET`, for a bus input
made of status polls that read busy, one poll that reads ready, the answers `ack` to the
mode-changing register writes and the answers `resp` to the bytes of the frame write. -/
theorem trxSendPacket_spec (K : Deps) (s : Radio) (pld : Payload) (items : List Payload)
    (polls : List (Nat × Nat)) (a v : Nat) (ack resp rest : List Nat)
    (hst : s.current_state_ ≠ RadioState.STATE_BUSY_TX_ARET)
    (hq : s.tx_queue_.items = pld :: items)
    (hbusy : ∀ p ∈ polls, PollBusy K p.2) (hready : PollReady K v ack)
    (hresp : resp.length = 11 + payGetPayloadLength pld % 256)
    (hin : s.miso = pollIn polls ++ a :: v :: (ack ++ (resp ++ rest))) :
    trxSendPacket K s
      = some { s with
          current_state_ := RadioState.STATE_BUSY_TX_ARET,
          tx_queue_ := { s.tx_queue_ with items := items },
          mac_tx_packet_ := { s.mac_tx_packet_ with
            payload := some { pld with iter := payGetPayloadLength pld % 256 },
            payloadLength := payGetPayloadLength pld % 256 },
          sqn := (s.sqn + 1) % 256,
          SPI_CS := 1,
          SLPTR := 0,
          miso := rest,
          trace := s.trace ++ (pollTr K polls ++ regReadTr K.SR_TRX_STATUS.addr a v ++
            armTr K ack ++ [Ev.slptr 1, Ev.slptr 0, Ev.cs 0] ++
            List.zipWith Ev.xfer (txFrame s.mac_tx_packet_ s.sqn pld) resp ++
            [Ev.cs 1, Ev.payDelete { pld with iter := payGetPayloadLength pld % 256 }]) } := by
  have hfuel : polls.length < s.miso.length := by
    rw [hin]; simp [pollIn_length]; omega
  obtain ⟨r0, r1, r2, r3, r4, r5, r6, r7, r8, r9, r10, body, rfl, hbody⟩ :=
    list_split_eleven resp _ hresp
  unfold trxSendPacket
  rw [if_neg hst, poll_spec K polls _ s a v ack _ hfuel hbusy hready hin]
  simp only [andThen_some, trxSendPacket.frame, pqPop, hq, trxSetSlptr, setCS, trxWriteByte,
    List.cons_append]
  rw [writeLoop_spec _ _ (payInitIterator pld) body rest rfl hbody rfl]
  simp [txFrame, payInitIterator, List.zipWith, LB, HB, TRX_CMD_FW, Nat.mod_lt]

/-! ### Transactions of a trace -/

theorem rr_ne_fw (addr : Nat) : (TRX_CMD_RR ||| addr) % 256 ≠ TRX_CMD_FW := by
  intro h
  have h2 := congrArg (fun x => Nat.testBit x 7) h
  have e : (256 : Nat) = 2 ^ 8 := by norm_num
  have e1 : Nat.testBit 128 7 = true := by decide
  have e2 : Nat.testBit 96 7 = false := by decide
  simp only [TRX_CMD_RR, TRX_CMD_FW, e, Nat.testBit_mod_two_pow, Nat.testBit_or, e1, e2] at h2
  simp at h2

theorem rw_ne_fw (addr : Nat) : (TRX_CMD_RW ||| addr) % 256 ≠ TRX_CMD_FW := by
  intro h
  have h2 := congrArg (fun x => Nat.testBit x 7) h
  have e : (256 : Nat) = 2 ^ 8 := by norm_num
  have e1 : Nat.testBit 192 7 = true := by decide
  have e2 : Nat.testBit 96 7 = false := by decide
  simp only [TRX_CMD_RW, TRX_CMD_FW, e, Nat.testBit_mod_two_pow, Nat.testBit_or, e1, e2] at h2
  simp at h2

theorem rr_ne_fr (addr : Nat) : (TRX_CMD_RR ||| addr) % 256 ≠ TRX_CMD_FR := by
  intro h
  have h2 := congrArg (fun x => Nat.testBit x 7) h
  have e : (256 : Nat) = 2 ^ 8 := by norm_num
  have e1 : Nat.testBit 128 7 = true := by decide
  have e2 : Nat.testBit 32 7 = false := by decide
  simp only [TRX_CMD_RR, TRX_CMD_FR, e, Nat.testBit_mod_two_pow, Nat.testBit_or, e1, e2] at h2
  simp at h2

theorem scan_regReadTr (d : List (List Nat)) (addr a v : Nat) :
    (regReadTr addr a v).foldl Scan.step { done := d, cur := none }
      = { done := d ++ [[(TRX_CMD_RR ||| addr) % 256, 0]], cur := none } := by
  simp [regReadTr, Scan.step]

theorem scan_regWriteTr (d : List (List Nat)) (addr val a b : Nat) :
    (regWriteTr addr val a b).foldl Scan.step { done := d, cur := none }
      = { done := d ++ [[(TRX_CMD_RW ||| addr) % 256, val % 256]], cur := none } := by
  simp [regWriteTr, Scan.step]

theorem scan_xfers (d : List (List Nat)) :
    ∀ (bytes resp : List Nat) (t : List Nat), bytes.length = resp.length →
      (List.zipWith Ev.xfer bytes resp).foldl Scan.step { done := d, cur := some t }
        = { done := d, cur := some (t ++ bytes) } := by
  intro bytes
  induction bytes with
  | nil => intro resp t h; simp
  | cons b bs ih =>
    intro resp t h
    match resp, h with
    | r :: rs, h =>
      simp only [List.zipWith_cons_cons, List.foldl_cons, Scan.step]
      rw [ih rs (t ++ [b]) (by simpa using h)]
      simp

theorem quiet_nil : Quiet [] := fun d => ⟨[], by simp, by simp⟩

theorem quiet_append {t1 t2 : List Ev} (h1 : Quiet t1) (h2 : Quiet t2) : Quiet (t1 ++ t2) := by
  intro d
  obtain ⟨x1, e1, n1⟩ := h1 d
  obtain ⟨x2, e2, n2⟩ := h2 (d ++ x1)
  refine ⟨x1 ++ x2, ?_, ?_⟩
  · rw [List.foldl_append, e1, e2, List.append_assoc]
  · intro t ht
    rcases List.mem_append.mp ht with h | h
    · exact n1 t h
    · exact n2 t h

theorem quiet_regReadTr (addr a v : Nat) : Quiet (regReadTr addr a v) := by
  intro d
  refine ⟨[[(TRX_CMD_RR ||| addr) % 256, 0]], scan_regReadTr d addr a v, ?_⟩
  intro t ht
  simp only [List.mem_singleton] at ht
  subst ht
  simpa using rr_ne_fw addr

theorem quiet_regWriteTr (addr val a b : Nat) : Quiet (regWriteTr addr val a b) := by
  intro d
  refine ⟨[[(TRX_CMD_RW ||| addr) % 256, val % 256]], scan_regWriteTr d addr val a b, ?_⟩
  intro t ht
  simp only [List.mem_singleton] at ht
  subst ht
  simpa using rw_ne_fw addr

theorem quiet_pollTr (K : Deps) (polls : List (Nat × Nat)) : Quiet (pollTr K polls) := by
  induction polls with
  | nil => exact quiet_nil
  | cons p ps ih => exact quiet_append (quiet_regReadTr _ _ _) ih

theorem quiet_armTr (K : Deps) (ack : List Nat) : Quiet (armTr K ack) := by
  unfold armTr
  split
  · exact quiet_append (quiet_regWriteTr _ _ _ _) (quiet_regWriteTr _ _ _ _)
  · exact quiet_nil

/-- Events that are not on the bus leave the scan as it is. -/
theorem quiet_offBus (e : Ev) (h : (∀ l, e ≠ Ev.cs l) ∧ ∀ o i, e ≠ Ev.xfer o i) : Quiet [e] := by
  intro d
  refine ⟨[], ?_, by simp⟩
  cases e with
  | cs l => exact absurd rfl (h.1 l)
  | xfer o i => exact absurd rfl (h.2 o i)
  | slptr l => simp [Scan.step]
  | payCreate p => simp [Scan.step]
  | payDelete p => simp [Scan.step]
  | configINT4 => simp [Scan.step]

theorem payYield_length : ∀ (n : Nat) (p : Payload), (payYield n p).length = n := by
  intro n
  induction n with
  | zero => intro p; rfl
  | succ n ih => intro p; simp [payYield, ih]

theorem txFrame_length (m : MacPacketStruct) (sqn : Nat) (pld : Payload) :
    (txFrame m sqn pld).length = 11 + payGetPayloadLength pld % 256 := by
  simp [txFrame, payYield_length]; omega

/-- The length byte of a frame written by `trxSendPacket` (its second byte) is the number of
bytes of the frame-write transaction, modulo 256: a length byte 13 goes with two payload
bytes after the command byte, the length byte and the nine header bytes. -/
theorem txFrame_length_byte (m : MacPacketStruct) (sqn : Nat) (pld : Payload) :
    (txFrame m sqn pld)[1]? = some ((txFrame m sqn pld).length % 256) := by
  rw [txFrame_length]
  simp only [txFrame, MAC_HEADER_LENGTH, CRC_LENGTH, List.cons_append, List.getElem?_cons_succ,
    List.getElem?_cons_zero, Option.some.injEq]
  omega

/-- The scan of the trace of one frame write by `trxSendPacket`: the quiet polling, the
`SLP_TR` strobe, then one transaction with the bytes of the frame. -/
theorem scan_sendTrace (d : List (List Nat)) (pre : List Ev) (frame resp : List Nat)
    (p : Payload) (hq : Quiet pre) (hl : frame.length = resp.length) :
    ∃ txs, (pre ++ [Ev.slptr 1, Ev.slptr 0, Ev.cs 0] ++ List.zipWith Ev.xfer frame resp ++
        [Ev.cs 1, Ev.payDelete p]).foldl Scan.step { done := d, cur := none }
      = { done := d ++ txs ++ [frame], cur := none } ∧ ∀ t ∈ txs, t.head? ≠ some TRX_CMD_FW := by
  obtain ⟨txs, e, hn⟩ := hq d
  refine ⟨txs, ?_, hn⟩
  simp only [List.foldl_append, e]
  simp only [List.foldl_cons, List.foldl_nil, Scan.step]
  rw [scan_xfers _ frame resp [] hl]
  simp [Scan.step]

theorem filter_noFrame (txs : List (List Nat)) (hn : ∀ t ∈ txs, t.head? ≠ some TRX_CMD_FW) :
    txs.filter (fun t => t.head? = some TRX_CMD_FW) = [] := by
  rw [List.filter_eq_nil_iff]
  intro t ht
  simpa using hn t ht

theorem frameWrites_sendTrace (pre : List Ev) (frame resp : List Nat) (p : Payload)
    (hq : Quiet pre) (hl : frame.length = resp.length) (hh : frame.head? = some TRX_CMD_FW) :
    frameWrites (pre ++ [Ev.slptr 1, Ev.slptr 0, Ev.cs 0] ++ List.zipWith Ev.xfer frame resp ++
        [Ev.cs 1, Ev.payDelete p]) = [frame] := by
  obtain ⟨txs, e, hn⟩ := scan_sendTrace [] pre frame resp p hq hl
  unfold frameWrites transactions
  rw [e]
  simp [List.filter_append, filter_noFrame txs hn, hh]

/-! ### Transmit path -/

/-- C1: for every payload `pld` that `trxSendPacket` pops, with payload length `n ≤ 244`, and
every staging record, the call returns and the only frame-write transaction it makes
exchanges exactly the `n + 11` bytes `0x60`, `n + 9 + 2`, frame-control low and high, the
sequence byte, destPANID low and high, destAddr low and high, srcAddr low and high, then the
`n` bytes the payload iterator yields, in this order. The bus input is any number of status
polls that read busy, one that reads ready, the answers to the mode-changing register writes
and the `n + 11` answers to the frame bytes. -/
theorem trxSendPacket_frame_bytes (K : Deps) (s : Radio) (pld : Payload) (items : List Payload)
    (n : Nat) (polls : List (Nat × Nat)) (a v : Nat) (ack resp rest : List Nat)
    (hst : s.current_state_ ≠ RadioState.STATE_BUSY_TX_ARET)
    (hq : s.tx_queue_.items = pld :: items)
    (hn : payGetPayloadLength pld = n) (hn244 : n ≤ 244)
    (hbusy : ∀ p ∈ polls, PollBusy K p.2) (hready : PollReady K v ack)
    (hresp : resp.length = n + 11)
    (hin : s.miso = pollIn polls ++ a :: v :: (ack ++ (resp ++ rest))) :
    ∃ s', trxSendPacket K s = some s' ∧ s'.miso = rest ∧
      frameWrites (s'.trace.drop s.trace.length)
        = [[0x60, n + 9 + 2, LB s.mac_tx_packet_.frame_ctrl, HB s.mac_tx_packet_.frame_ctrl,
            s.sqn % 256, LB s.mac_tx_packet_.destPANID, HB s.mac_tx_packet_.destPANID,
            LB s.mac_tx_packet_.destAddr, HB s.mac_tx_packet_.destAddr,
            LB s.mac_tx_packet_.srcAddr, HB s.mac_tx_packet_.srcAddr]
            ++ payYield n (payInitIterator pld)] ∧
      (payYield n (payInitIterator pld)).length = n := by
  have hmod : payGetPayloadLength pld % 256 = n := by rw [hn]; omega
  have hresp' : resp.length = 11 + payGetPayloadLength pld % 256 := by rw [hmod]; omega
  refine ⟨_, trxSendPacket_spec K s pld items polls a v ack resp rest hst hq hbusy hready
    hresp' hin, rfl, ?_, payYield_length _ _⟩
  simp only [List.drop_left]
  rw [frameWrites_sendTrace _ _ resp _
    (quiet_append (quiet_append (quiet_pollTr K polls) (quiet_regReadTr _ _ _))
      (quiet_armTr K ack))
    (by rw [txFrame_length, hresp']) (by simp [txFrame])]
  have h2 : (n + 9 + 2) % 256 = n + 9 + 2 := by omega
  simp [txFrame, hmod, TRX_CMD_FW, MAC_HEADER_LENGTH, CRC_LENGTH, h2]

/-- Witness for C1: a listening driver with the sample payload queued; the status reads
`RX_AACK_ON` (22) at the first poll. The frame has 4 + 11 bytes. -/
theorem trxSendPacket_frame_bytes_witness :
    ∃ s', trxSendPacket at86rf231
        (listening 2 2 [samplePayload] [] ([0, 22, 0, 0, 0, 0] ++ List.replicate 15 0)) = some s' ∧
      s'.miso = [] ∧
      frameWrites (s'.trace.drop 0)
        = [[0x60, 15, 0x61, 0x98, 0, 0x20, 0x20, 0x21, 0x20, 0x22, 0x20] ++ [0, 0, 0xAA, 0xBB]] ∧
      (payYield 4 (payInitIterator samplePayload)).length = 4 :=
  trxSendPacket_frame_bytes at86rf231
    (listening 2 2 [samplePayload] [] ([0, 22, 0, 0, 0, 0] ++ List.replicate 15 0))
    samplePayload [] 4 [] 0 22 [0, 0, 0, 0] (List.replicate 15 0) []
    (by decide) rfl rfl (by decide) (by simp) (Or.inr ⟨by decide, by decide, rfl⟩) rfl rfl

theorem trxCreateMacPacket_frame_ctrl (mem : MacPacketStruct) :
    (trxCreateMacPacket mem).frame_ctrl = 0x9861 := by
  simp only [trxCreateMacPacket, setBits, PACKET_TYPE_DATA, PACKET_ACK_REQ]
  norm_num
  omega

/-- C3 (as stated, refuted): with the default staging record and the payload status 0,
type 0, data `[0xAA, 0xBB]`, the bytes `trxSendPacket` writes after the command byte start
with the length byte 15, not 13: the length byte counts the four payload bytes (status, type
and the two data bytes), the nine header bytes and the two CRC bytes. -/
theorem trxSendPacket_sample_length_not_13 :
    (trxSendPacket at86rf231
        (listening 2 2 [samplePayload] [] ([0, 22, 0, 0, 0, 0] ++ List.replicate 15 0))).map
        (fun s' => frameWrites s'.trace)
      = some [[0x60, 15, 0x61, 0x98, 0, 0x20, 0x20, 0x21, 0x20, 0x22, 0x20, 0, 0, 0xAA, 0xBB]] ∧
    ¬ ∃ fctrl_lo fctrl_hi seq,
      (trxSendPacket at86rf231
        (listening 2 2 [samplePayload] [] ([0, 22, 0, 0, 0, 0] ++ List.replicate 15 0))).map
        (fun s' => frameWrites s'.trace)
      = some [[0x60, 13, fctrl_lo, fctrl_hi, seq, 0x20, 0x20, 0x21, 0x20, 0x22, 0x20,
                0, 0, 0xAA, 0xBB]] := by
  have h : (trxSendPacket at86rf231
        (listening 2 2 [samplePayload] [] ([0, 22, 0, 0, 0, 0] ++ List.replicate 15 0))).map
        (fun s' => frameWrites s'.trace)
      = some [[0x60, 15, 0x61, 0x98, 0, 0x20, 0x20, 0x21, 0x20, 0x22, 0x20, 0, 0, 0xAA, 0xBB]] := by
    decide
  refine ⟨h, ?_⟩
  rintro ⟨fl, fh, seq, h'⟩
  rw [h] at h'
  simp at h'

/-- C3 (amended): with the staging record built by `trxCreateMacPacket` (destAddr 0x2021,
destPAN 0x2020, srcAddr 0x2022) and the payload status 0, type 0, data `[0xAA, 0xBB]` at the
head of the outbound queue, `trxSendPacket` writes in its frame-write transaction the command
byte `0x60`, then the length byte 15, the frame-control bytes `0x61`, `0x98`, the sequence
byte, `0x20, 0x20, 0x21, 0x20, 0x22, 0x20`, then `0x00` (status), `0x00` (type), `0xAA`,
`0xBB`. -/
theorem trxSendPacket_sample_frame (K : Deps) (s : Radio) (mem : MacPacketStruct)
    (pl : Option Payload) (plen it : Nat) (items : List Payload)
    (polls : List (Nat × Nat)) (a v : Nat) (ack resp rest : List Nat)
    (hst : s.current_state_ ≠ RadioState.STATE_BUSY_TX_ARET)
    (hm : s.mac_tx_packet_ = { trxCreateMacPacket mem with payload := pl, payloadLength := plen })
    (hq : s.tx_queue_.items
      = { status := 0, type := 0, data := [0xAA, 0xBB], iter := it } :: items)
    (hbusy : ∀ p ∈ polls, PollBusy K p.2) (hready : PollReady K v ack)
    (hresp : resp.length = 15)
    (hin : s.miso = pollIn polls ++ a :: v :: (ack ++ (resp ++ rest))) :
    ∃ s', trxSendPacket K s = some s' ∧
      frameWrites (s'.trace.drop s.trace.length)
        = [[0x60, 15, 0x61, 0x98, s.sqn % 256, 0x20, 0x20, 0x21, 0x20, 0x22, 0x20,
            0x00, 0x00, 0xAA, 0xBB]] := by
  have hlen : payGetPayloadLength
      { status := 0, type := 0, data := [0xAA, 0xBB], iter := it } % 256 = 4 := by
    simp [payGetPayloadLength]
  have hresp' : resp.length = 11 + payGetPayloadLength
      { status := 0, type := 0, data := [0xAA, 0xBB], iter := it } % 256 := by
    rw [hlen, hresp]
  refine ⟨_, trxSendPacket_spec K s _ items polls a v ack resp rest hst hq hbusy hready
    hresp' hin, ?_⟩
  simp only [List.drop_left]
  rw [frameWrites_sendTrace _ _ resp _
    (quiet_append (quiet_append (quiet_pollTr K polls) (quiet_regReadTr _ _ _))
      (quiet_armTr K ack))
    (by rw [txFrame_length, hresp']) (by simp [txFrame])]
  have h1 : s.mac_tx_packet_.frame_ctrl = 0x9861 := by
    rw [hm]; exact trxCreateMacPacket_frame_ctrl mem
  have h2 : s.mac_tx_packet_.destPANID = 0x2020 := by rw [hm]; rfl
  have h3 : s.mac_tx_packet_.destAddr = 0x2021 := by rw [hm]; rfl
  have h4 : s.mac_tx_packet_.srcAddr = 0x2022 := by rw [hm]; rfl
  simp [txFrame, h1, h2, h3, h4, hlen, LB, HB, payYield, payNextElement, payInitIterator,
    payToList, TRX_CMD_FW, MAC_HEADER_LENGTH, CRC_LENGTH]

/-- Witness for C3 (amended): the listening driver with the sample payload queued. -/
theorem trxSendPacket_sample_frame_witness :
    ∃ s', trxSendPacket at86rf231
        (listening 2 2 [samplePayload] [] ([0, 25] ++ List.replicate 15 0)) = some s' ∧
      frameWrites (s'.trace.drop 0)
        = [[0x60, 15, 0x61, 0x98, 0 % 256, 0x20, 0x20, 0x21, 0x20, 0x22, 0x20,
            0x00, 0x00, 0xAA, 0xBB]] :=
  trxSendPacket_sample_frame at86rf231
    (listening 2 2 [samplePayload] [] ([0, 25] ++ List.replicate 15 0)) zeroMem none 0 0 []
    [] 0 25 [] (List.replicate 15 0) [] (by decide) rfl rfl (by simp)
    (Or.inl ⟨by decide, rfl⟩) rfl rfl

/-- C5: when the outbound queue is full, `radioSendPayload` returns 0 and the whole driver
state, the bus trace included, is left as it was: no byte is exchanged, and both queues, the
current state and the sequence counter are unchanged. A second call gives the same result. -/
theorem radioSendPayload_full (K : Deps) (p : Payload) (s : Radio)
    (hfull : pqIsFull s.tx_queue_ = true) :
    radioSendPayload K p s = some (0, s) ∧
      andThen (radioSendPayload K p s) (fun r => radioSendPayload K p r.2) = some (0, s) := by
  have h : radioSendPayload K p s = some (0, s) := by simp [radioSendPayload, hfull]
  exact ⟨h, by rw [h]; exact h⟩

/-- Witness for C5: a queue of capacity 1 that holds one payload. -/
theorem radioSendPayload_full_witness :
    radioSendPayload at86rf231 samplePayload (listening 1 1 [samplePayload] [] [])
        = some (0, listening 1 1 [samplePayload] [] []) ∧
      andThen (radioSendPayload at86rf231 samplePayload (listening 1 1 [samplePayload] [] []))
        (fun r => radioSendPayload at86rf231 samplePayload r.2)
        = some (0, listening 1 1 [samplePayload] [] []) :=
  radioSendPayload_full at86rf231 samplePayload (listening 1 1 [samplePayload] [] []) (by decide)

/-- C7: in the state `BUSY_TX_ARET` with room in the outbound queue, `radioSendPayload`
returns 1 and only appends the payload at the tail of the outbound queue: the rest of the
state, with the bus trace, the current state and the sequence counter, is unchanged. -/
theorem radioSendPayload_busy (K : Deps) (p : Payload) (s : Radio)
    (hbusy : s.current_state_ = RadioState.STATE_BUSY_TX_ARET)
    (hroom : pqIsFull s.tx_queue_ = false) :
    radioSendPayload K p s
      = some (1, { s with tx_queue_ := { s.tx_queue_ with items := s.tx_queue_.items ++ [p] } }) := by
  simp [radioSendPayload, hroom, pqPush, trxSendPacket, hbusy]

/-- Witness for C7: a transfer is in flight and the queue of capacity 2 holds one payload. -/
theorem radioSendPayload_busy_witness :
    radioSendPayload at86rf231 samplePayload
        { listening 2 1 [samplePayload] [] [] with
          current_state_ := RadioState.STATE_BUSY_TX_ARET }
      = some (1, { listening 2 1 [samplePayload] [] [] with
          current_state_ := RadioState.STATE_BUSY_TX_ARET,
          tx_queue_ := { capacity := 2, items := [samplePayload] ++ [samplePayload] } }) :=
  radioSendPayload_busy at86rf231 samplePayload
    { listening 2 1 [samplePayload] [] [] with current_state_ := RadioState.STATE_BUSY_TX_ARET }
    rfl (by decide)

/-! ### Register-only steps -/

theorem quiet_cs_high : Quiet [Ev.cs 1] := fun d => ⟨[], by simp [Scan.step], by simp⟩

theorem busOnly_bind {k1 k2 : Nat} {f g : Radio → Option Radio}
    (hf : BusOnly k1 f) (hg : BusOnly k2 g) : BusOnly (k1 + k2) (fun s => andThen (f s) g) := by
  intro s
  by_cases h1 : s.miso.length < k1
  · refine ⟨fun _ => by simp [(hf s).1 h1], fun h => by omega⟩
  · obtain ⟨tr1, q1, e1⟩ := (hf s).2 (by omega)
    simp only [e1, andThen_some]
    constructor
    · intro h
      exact (hg _).1 (by simp only [afterBus, List.length_drop]; omega)
    · intro h
      obtain ⟨tr2, q2, e2⟩ := (hg (afterBus s (s.miso.drop k1) tr1)).2
        (by simp only [afterBus, List.length_drop]; omega)
      refine ⟨tr1 ++ tr2, quiet_append q1 q2, ?_⟩
      rw [e2]
      simp [afterBus, List.drop_drop, Nat.add_comm]

theorem busOnly_trxWriteReg (addr val : Nat) : BusOnly 2 (trxWriteReg addr val) := by
  intro s
  match hm : s.miso with
  | [] => exact ⟨fun _ => by simp [trxWriteReg, trxWriteByte, setCS, hm], fun h => by simp at h⟩
  | [a] =>
    exact ⟨fun _ => by simp [trxWriteReg, trxWriteByte, setCS, hm], fun h => by simp at h⟩
  | a :: b :: rest =>
    refine ⟨fun h => by simp only [List.length_cons] at h; omega,
      fun _ => ⟨_, quiet_regWriteTr addr val a b, ?_⟩⟩
    rw [trxWriteReg_cons addr val a b rest s hm]
    simp [afterBus]

theorem trxReadReg_short (addr : Nat) (s : Radio) (h : s.miso.length < 2) :
    trxReadReg addr s = none := by
  match hm : s.miso with
  | [] => simp [trxReadReg, trxWriteByte, setCS, hm]
  | [a] => simp [trxReadReg, trxWriteByte, trxReadByte, setCS, hm]
  | a :: b :: rest => rw [hm] at h; simp only [List.length_cons] at h; omega

theorem busOnly_trxReadReg (addr : Nat) : BusOnly 2 (fun s => (trxReadReg addr s).map (·.2)) := by
  intro s
  constructor
  · intro h
    simp [trxReadReg_short addr s h]
  · intro h
    match hm : s.miso with
    | [] => simp [hm] at h
    | [a] => simp [hm] at h
    | a :: v :: rest =>
      refine ⟨_, quiet_regReadTr addr a v, ?_⟩
      simp only [trxReadReg_cons addr a v rest s hm]
      simp [afterBus]

theorem busOnly_trxWriteBit (addr mask pos val : Nat) :
    BusOnly 4 (trxWriteBit addr mask pos val) := by
  intro s
  by_cases h2 : s.miso.length < 2
  · exact ⟨fun _ => by simp [trxWriteBit, trxReadReg_short addr s h2], fun h => by omega⟩
  · match hm : s.miso with
    | [] => simp [hm] at h2
    | [a] => simp [hm] at h2
    | a :: v :: rest =>
      simp only [trxWriteBit, trxReadReg_cons addr a v rest s hm, andThen_some]
      constructor
      · intro h
        exact (busOnly_trxWriteReg addr _ _).1 (by simp at h ⊢; omega)
      · intro h
        obtain ⟨tr, q, e⟩ := (busOnly_trxWriteReg addr
          (((val % 256) <<< pos) % 256 &&& (mask % 256) ||| (v % 256) &&& (255 ^^^ (mask % 256)))
          (afterBus s rest (regReadTr addr a v))).2 (by simp [afterBus] at h ⊢; omega)
        refine ⟨regReadTr addr a v ++ tr, quiet_append (quiet_regReadTr addr a v) q, ?_⟩
        simp only [afterBus] at e ⊢
        rw [e]
        simp

theorem busOnly_trxSetup (K : Deps) :
    ∀ s : Radio, (s.miso.length < 36 → trxSetup K s = none) ∧
      (36 ≤ s.miso.length → ∃ tr, Quiet tr ∧
        trxSetup K s = some (afterBus s (s.miso.drop 36) tr)) := by
  have hchain := busOnly_bind (busOnly_trxWriteReg K.RG_TRX_STATE K.CMD_FORCE_TRX_OFF)
    (busOnly_bind (busOnly_trxWriteReg K.RG_IRQ_MASK K.TRX_IRQ_TRX_END)
    (busOnly_bind (busOnly_trxWriteBit K.SR_TX_AUTO_CRC_ON.addr K.SR_TX_AUTO_CRC_ON.mask
      K.SR_TX_AUTO_CRC_ON.pos 1)
    (busOnly_bind (busOnly_trxWriteBit K.SR_CLKM_CTRL.addr K.SR_CLKM_CTRL.mask
      K.SR_CLKM_CTRL.pos K.CLKM_NO_CLOCK)
    (busOnly_bind (busOnly_trxWriteBit K.SR_CHANNEL.addr K.SR_CHANNEL.mask
      K.SR_CHANNEL.pos DEFAULT_CHANNEL)
    (busOnly_bind (busOnly_trxReadReg K.RG_IRQ_STATUS)
    (busOnly_bind (busOnly_trxWriteReg K.RG_SHORT_ADDR_0 (DEFAULT_SRC_ADDR &&& 0xff))
    (busOnly_bind (busOnly_trxWriteReg K.RG_SHORT_ADDR_1 ((DEFAULT_SRC_ADDR >>> 8) &&& 0xff))
    (busOnly_bind (busOnly_trxWriteReg K.RG_PAN_ID_0 (DEFAULT_SRC_PAN_ID &&& 0xff))
    (busOnly_bind (busOnly_trxWriteReg K.RG_PAN_ID_1 ((DEFAULT_SRC_PAN_ID >>> 8) &&& 0xff))
    (busOnly_bind (busOnly_trxWriteBit K.SR_MAX_FRAME_RETRIES.addr K.SR_MAX_FRAME_RETRIES.mask
      K.SR_MAX_FRAME_RETRIES.pos 2)
    (busOnly_bind (busOnly_trxWriteBit K.SR_MAX_CSMA_RETRIES.addr K.SR_MAX_CSMA_RETRIES.mask
      K.SR_MAX_CSMA_RETRIES.pos 2)
    (busOnly_trxWriteReg K.RG_TRX_STATE K.CMD_RX_AACK_ON))))))))))))
  intro s
  have hs := hchain (setCS 1 s)
  have heq : trxSetup K s = (fun s => andThen (trxWriteReg K.RG_TRX_STATE K.CMD_FORCE_TRX_OFF s)
      fun s => andThen (trxWriteReg K.RG_IRQ_MASK K.TRX_IRQ_TRX_END s)
      fun s => andThen (trxWriteBit K.SR_TX_AUTO_CRC_ON.addr K.SR_TX_AUTO_CRC_ON.mask
        K.SR_TX_AUTO_CRC_ON.pos 1 s)
      fun s => andThen (trxWriteBit K.SR_CLKM_CTRL.addr K.SR_CLKM_CTRL.mask
        K.SR_CLKM_CTRL.pos K.CLKM_NO_CLOCK s)
      fun s => andThen (trxWriteBit K.SR_CHANNEL.addr K.SR_CHANNEL.mask
        K.SR_CHANNEL.pos DEFAULT_CHANNEL s)
      fun s => andThen ((trxReadReg K.RG_IRQ_STATUS s).map (·.2))
      fun s => andThen (trxWriteReg K.RG_SHORT_ADDR_0 (DEFAULT_SRC_ADDR &&& 0xff) s)
      fun s => andThen (trxWriteReg K.RG_SHORT_ADDR_1 ((DEFAULT_SRC_ADDR >>> 8) &&& 0xff) s)
      fun s => andThen (trxWriteReg K.RG_PAN_ID_0 (DEFAULT_SRC_PAN_ID &&& 0xff) s)
      fun s => andThen (trxWriteReg K.RG_PAN_ID_1 ((DEFAULT_SRC_PAN_ID >>> 8) &&& 0xff) s)
      fun s => andThen (trxWriteBit K.SR_MAX_FRAME_RETRIES.addr K.SR_MAX_FRAME_RETRIES.mask
        K.SR_MAX_FRAME_RETRIES.pos 2 s)
      fun s => andThen (trxWriteBit K.SR_MAX_CSMA_RETRIES.addr K.SR_MAX_CSMA_RETRIES.mask
        K.SR_MAX_CSMA_RETRIES.pos 2 s)
      (trxWriteReg K.RG_TRX_STATE K.CMD_RX_AACK_ON)) (setCS 1 s) := by
    unfold trxSetup
    simp only
    congr 1; funext s
    congr 1; funext s
    congr 1; funext s
    congr 1; funext s
    congr 1; funext s
    cases trxReadReg K.RG_IRQ_STATUS s <;> rfl
  rw [heq]
  constructor
  · intro h
    exact hs.1 (by simpa [setCS] using h)
  · intro h
    obtain ⟨tr, q, e⟩ := hs.2 (by simpa [setCS] using h)
    refine ⟨[Ev.cs 1] ++ tr, quiet_append quiet_cs_high q, ?_⟩
    rw [e]
    simp [setCS, afterBus]

theorem radioSetup_spec (K : Deps) (N rx : Nat) (mem_rx mem_tx : MacPacketStruct) (s : Radio)
    (h : 36 ≤ s.miso.length) :
    ∃ tr, Quiet tr ∧
      radioSetup K N rx mem_rx mem_tx s
        = some (afterSetup s N rx mem_rx mem_tx (s.miso.drop 36) tr) := by
  obtain ⟨tr, q, e⟩ := (busOnly_trxSetup K s).2 h
  refine ⟨tr, q, ?_⟩
  simp [radioSetup, e, afterSetup, afterBus]

theorem radioSendPayload_deferred (K : Deps) (p : Payload) (s : Radio)
    (hbusy : s.current_state_ = RadioState.STATE_BUSY_TX_ARET)
    (hroom : pqIsFull s.tx_queue_ = false) :
    radioSendPayload K p s
      = some (1, { s with tx_queue_ := { s.tx_queue_ with items := s.tx_queue_.items ++ [p] } }) := by
  simp [radioSendPayload, hroom, pqPush, trxSendPacket, hbusy]

theorem sendAll_busy (K : Deps) :
    ∀ (ps : List Payload) (s : Radio),
      s.current_state_ = RadioState.STATE_BUSY_TX_ARET →
      s.tx_queue_.items.length + ps.length ≤ s.tx_queue_.capacity →
      ∃ s', sendAll K ps s = some (List.replicate ps.length 1, s') ∧
        s'.tx_queue_ = { s.tx_queue_ with items := s.tx_queue_.items ++ ps } := by
  intro ps
  induction ps with
  | nil => intro s _ _; exact ⟨s, by simp [sendAll], by simp⟩
  | cons p ps ih =>
    intro s hb hc
    have hroom : pqIsFull s.tx_queue_ = false := by
      simp only [pqIsFull, decide_eq_false_iff_not, List.length_cons] at hc ⊢
      omega
    obtain ⟨s', e, hq⟩ := ih
      { s with tx_queue_ := { s.tx_queue_ with items := s.tx_queue_.items ++ [p] } } hb
      (by simp only [List.length_append, List.length_cons, List.length_nil] at hc ⊢; omega)
    refine ⟨s', ?_, ?_⟩
    · simp only [sendAll, radioSendPayload_deferred K p s hb hroom, andThen_some, e,
        List.length_cons, List.replicate_succ]
    · rw [hq]; simp

/-- C6 (as stated, refuted): after `radioSetup` with outbound capacity 1 and one call of
`radioSendPayload` (which returns 1 and leaves the queue empty, its payload being popped for
transmission at once), the second call returns 1, not 0, and changes the outbound queue. -/
theorem second_send_accepted_at_capacity_one :
    (andThen (radioSetup at86rf231 1 1 zeroMem zeroMem
        (powerOn (List.replicate 36 0 ++ [0, 22, 0, 0, 0, 0] ++ List.replicate 15 0))) fun s =>
      andThen (radioSendPayload at86rf231 samplePayload s) fun r1 =>
      andThen (radioSendPayload at86rf231 samplePayload r1.2) fun r2 =>
      some (r1.1, r1.2.tx_queue_.items, r2.1, r2.2.tx_queue_.items))
      = some (1, [], 1, [samplePayload]) := by
  decide

/-- C6 (amended): for every capacity `N ≥ 1`, after `radioSetup` with outbound capacity `N`,
`N + 1` calls of `radioSendPayload` with no interrupt in between all return 1 (the first
payload is popped for transmission at once, the other `N` stay queued), and the `(N + 2)`-th
call returns 0 and leaves the whole state, the outbound queue included, unchanged. The bus
input is the 36 answers to the register transactions of the set-up, then status polls that
read busy, one that reads ready, and the answers to the register writes and the frame
bytes. -/
theorem send_refused_after_filling (K : Deps) (s0 : Radio) (N rx : Nat)
    (mem_rx mem_tx : MacPacketStruct) (p1 q : Payload) (ps : List Payload)
    (setupIn : List Nat) (polls : List (Nat × Nat)) (a v : Nat) (ack resp rest : List Nat)
    (hN : 1 ≤ N) (hps : ps.length = N) (hsetup : setupIn.length = 36)
    (hbusy : ∀ p ∈ polls, PollBusy K p.2) (hready : PollReady K v ack)
    (hresp : resp.length = 11 + payGetPayloadLength p1 % 256)
    (hin : s0.miso = setupIn ++ (pollIn polls ++ a :: v :: (ack ++ (resp ++ rest)))) :
    ∃ s, andThen (radioSetup K N rx mem_rx mem_tx s0) (sendAll K (p1 :: ps))
        = some (List.replicate (N + 1) 1, s) ∧
      s.tx_queue_ = { capacity := N, items := ps } ∧
      radioSendPayload K q s = some (0, s) := by
  obtain ⟨S1, e, hq1, hst1, hm1⟩ : ∃ S1, radioSetup K N rx mem_rx mem_tx s0 = some S1 ∧
      S1.tx_queue_ = pqInit N ∧ S1.current_state_ = RadioState.STATE_RX_AACK_ON ∧
      S1.miso = pollIn polls ++ a :: v :: (ack ++ (resp ++ rest)) := by
    obtain ⟨tr, _, e⟩ := radioSetup_spec K N rx mem_rx mem_tx s0 (by rw [hin]; simp; omega)
    refine ⟨_, e, rfl, rfl, ?_⟩
    show s0.miso.drop 36 = _
    rw [hin]; exact List.drop_left' hsetup
  have hroom : pqIsFull (pqInit N) = false := by
    simp only [pqIsFull, pqInit, decide_eq_false_iff_not, List.length_nil]; omega
  have hpush : pqPush K S1.tx_queue_ p1 = { capacity := N, items := [p1] } := by
    rw [hq1]; simp only [pqPush, hroom]; rfl
  obtain ⟨s2, hfirst, hb2, hq2⟩ : ∃ s2, radioSendPayload K p1 S1 = some (1, s2) ∧
      s2.current_state_ = RadioState.STATE_BUSY_TX_ARET ∧
      s2.tx_queue_ = { capacity := N, items := [] } := by
    obtain ⟨sX, hsend, hbX, hqX⟩ : ∃ sX,
        trxSendPacket K { S1 with tx_queue_ := pqPush K S1.tx_queue_ p1 } = some sX ∧
        sX.current_state_ = RadioState.STATE_BUSY_TX_ARET ∧
        sX.tx_queue_ = { capacity := N, items := [] } :=
      ⟨_, trxSendPacket_spec K { S1 with tx_queue_ := pqPush K S1.tx_queue_ p1 }
        p1 [] polls a v ack resp rest (by simp [hst1]) (by rw [hpush]) hbusy hready hresp hm1,
        rfl, by simp only [hpush]⟩
    have hfull : ¬ (pqIsFull S1.tx_queue_ = true) := by rw [hq1, hroom]; simp
    refine ⟨sX, ?_, hbX, hqX⟩
    unfold radioSendPayload
    rw [if_neg hfull]
    simp only [hsend, andThen_some]
  obtain ⟨s3, hrest, hq3⟩ := sendAll_busy K ps s2 hb2 (by rw [hq2]; simp [hps])
  refine ⟨s3, ?_, ?_, ?_⟩
  · rw [e]
    simp only [andThen_some, sendAll, hfirst, hrest, hps, List.replicate_succ]
  · rw [hq3, hq2]; simp
  · have : pqIsFull s3.tx_queue_ = true := by
      rw [hq3, hq2]; simp [pqIsFull, hps]
    simp [radioSendPayload, this]

/-- Witness for C6 (amended): capacity 1, the sample payload sent twice, then a third call. -/
theorem send_refused_after_filling_witness :
    ∃ s, andThen (radioSetup at86rf231 1 1 zeroMem zeroMem
          (powerOn (List.replicate 36 0 ++ ([0, 22, 0, 0, 0, 0] ++ List.replicate 15 0))))
          (sendAll at86rf231 (samplePayload :: [samplePayload]))
        = some (List.replicate (1 + 1) 1, s) ∧
      s.tx_queue_ = { capacity := 1, items := [samplePayload] } ∧
      radioSendPayload at86rf231 samplePayload s = some (0, s) :=
  send_refused_after_filling at86rf231
    (powerOn (List.replicate 36 0 ++ ([0, 22, 0, 0, 0, 0] ++ List.replicate 15 0))) 1 1
    zeroMem zeroMem samplePayload samplePayload [samplePayload] (List.replicate 36 0) []
    0 22 [0, 0, 0, 0] (List.replicate 15 0) [] (by decide) rfl rfl (by simp)
    (Or.inr ⟨by decide, by decide, rfl⟩) rfl rfl

/-! ### What a call that returns has done -/

theorem andThen_eq_some {α β : Type} {x : Option α} {f : α → Option β} {y : β}
    (h : andThen x f = some y) : ∃ a, x = some a ∧ f a = some y := by
  cases x with
  | none => simp at h
  | some a => exact ⟨a, rfl, by simpa using h⟩

theorem step_write {β : Type} {d : Nat} {s : Radio} {f : Nat × Radio → Option β} {y : β}
    (h : andThen (trxWriteByte d s) f = some y) :
    ∃ c rest, s.miso = c :: rest ∧
      f (c % 256, { s with miso := rest, trace := s.trace ++ [Ev.xfer (d % 256) c] }) = some y := by
  match hm : s.miso with
  | [] => simp [trxWriteByte, hm] at h
  | c :: rest => exact ⟨c, rest, rfl, by simpa [trxWriteByte, hm] using h⟩

theorem step_read {β : Type} {s : Radio} {f : Nat × Radio → Option β} {y : β}
    (h : andThen (trxReadByte s) f = some y) :
    ∃ c rest, s.miso = c :: rest ∧
      f (c % 256, { s with miso := rest, trace := s.trace ++ [Ev.xfer 0 c] }) = some y := by
  match hm : s.miso with
  | [] => simp [trxReadByte, hm] at h
  | c :: rest => exact ⟨c, rest, rfl, by simpa [trxReadByte, hm] using h⟩

theorem writeLoop_needs : ∀ (n : Nat) (s s' : Radio),
    trxSendPacket.writeLoop n s = some s' → n ≤ s.miso.length := by
  intro n
  induction n with
  | zero => intro s s' _; exact Nat.zero_le _
  | succ n ih =>
    intro s s' h
    simp only [trxSendPacket.writeLoop] at h
    obtain ⟨p, _, h⟩ := andThen_eq_some h
    obtain ⟨c, rest, hm, h⟩ := step_write h
    have := ih _ _ h
    simp only at this
    rw [hm]
    simp only [List.length_cons]
    omega

theorem readLoop_needs : ∀ (n i : Nat) (pld : Payload) (s : Radio) (r : Payload × Radio),
    trxReceivePacket.readLoop n i pld s = some r → n ≤ s.miso.length := by
  intro n
  induction n with
  | zero => intro i pld s r _; exact Nat.zero_le _
  | succ n ih =>
    intro i pld s r h
    simp only [trxReceivePacket.readLoop] at h
    obtain ⟨c, rest, hm, h⟩ := step_read h
    have := ih _ _ _ _ h
    simp only at this
    rw [hm]
    simp only [List.length_cons]
    omega

/-- When the frame part of `trxSendPacket` returns, the outbound queue was not empty and the
bus input held an answer to every byte of the frame. -/
theorem frame_needs (s s' : Radio) (h : trxSendPacket.frame s = some s') :
    ∃ pld items, s.tx_queue_.items = pld :: items ∧
      11 + payGetPayloadLength pld % 256 ≤ s.miso.length := by
  unfold trxSendPacket.frame at h
  obtain ⟨⟨pld, q⟩, hpop, h⟩ := andThen_eq_some h
  obtain ⟨items, hq⟩ : ∃ items, s.tx_queue_.items = pld :: items := by
    unfold pqPop at hpop
    split at hpop
    · simp at hpop
    · next p rest hi =>
      simp only [Option.some.injEq, Prod.mk.injEq] at hpop
      exact ⟨rest, by rw [hi, hpop.1]⟩
  refine ⟨pld, items, hq, ?_⟩
  simp only [trxSetSlptr, setCS] at h
  obtain ⟨c0, m0, hm0, h⟩ := step_write h
  simp only at hm0 h
  obtain ⟨c1, m1, hm1, h⟩ := step_write h
  simp only at hm1 h
  obtain ⟨c2, m2, hm2, h⟩ := step_write h
  simp only at hm2 h
  obtain ⟨c3, m3, hm3, h⟩ := step_write h
  simp only at hm3 h
  obtain ⟨c4, m4, hm4, h⟩ := step_write h
  simp only at hm4 h
  obtain ⟨c5, m5, hm5, h⟩ := step_write h
  simp only at hm5 h
  obtain ⟨c6, m6, hm6, h⟩ := step_write h
  simp only at hm6 h
  obtain ⟨c7, m7, hm7, h⟩ := step_write h
  simp only at hm7 h
  obtain ⟨c8, m8, hm8, h⟩ := step_write h
  simp only at hm8 h
  obtain ⟨c9, m9, hm9, h⟩ := step_write h
  simp only at hm9 h
  obtain ⟨c10, m10, hm10, h⟩ := step_write h
  simp only at hm10 h
  obtain ⟨s1, hloop, _⟩ := andThen_eq_some h
  have hn := writeLoop_needs _ _ _ hloop
  simp only at hn
  rw [hm0, hm1, hm2, hm3, hm4, hm5, hm6, hm7, hm8, hm9, hm10]
  simp only [List.length_cons]
  omega

theorem quietStep_of_eq {s s' : Radio} (ht : s'.trace = s.trace) (hs : s'.sqn = s.sqn) :
    QuietStep s s' := ⟨[], quiet_nil, by simp [ht], hs⟩

theorem quietStep_trans {s s1 s' : Radio} (h1 : QuietStep s s1) (h2 : QuietStep s1 s') :
    QuietStep s s' := by
  obtain ⟨t1, q1, e1, n1⟩ := h1
  obtain ⟨t2, q2, e2, n2⟩ := h2
  exact ⟨t1 ++ t2, quiet_append q1 q2, by rw [e2, e1, List.append_assoc], by rw [n2, n1]⟩

theorem quiet_then_frame {s s1 s' : Radio} (h1 : QuietStep s s1) (h2 : FrameStep s1 s') :
    FrameStep s s' := by
  obtain ⟨t1, q1, e1, n1⟩ := h1
  obtain ⟨pre, frame, resp, p, q2, hl, hh, h4, e2, n2⟩ := h2
  refine ⟨t1 ++ pre, frame, resp, p, quiet_append q1 q2, hl, hh, by rw [← n1]; exact h4, ?_,
    by rw [n2, n1]⟩
  rw [e2, e1]
  simp only [List.append_assoc]

theorem quietStep_afterBus (s : Radio) (rest : List Nat) (tr : List Ev) (q : Quiet tr) :
    QuietStep s (afterBus s rest tr) := ⟨tr, q, rfl, rfl⟩

theorem trxReadReg_some (addr : Nat) (s : Radio) (r : Nat × Radio)
    (h : trxReadReg addr s = some r) :
    ∃ a v rest, s.miso = a :: v :: rest ∧ r = (v % 256, afterBus s rest (regReadTr addr a v)) := by
  match hm : s.miso with
  | [] => rw [trxReadReg_short addr s (by simp [hm])] at h; simp at h
  | [a] => rw [trxReadReg_short addr s (by simp [hm])] at h; simp at h
  | a :: v :: rest =>
    rw [trxReadReg_cons addr a v rest s hm] at h
    exact ⟨a, v, rest, rfl, by simpa [afterBus] using h.symm⟩

theorem trxReadBit_some (r : SubReg) (s : Radio) (x : Nat × Radio)
    (h : trxReadBit r.addr r.mask r.pos s = some x) :
    ∃ a v rest, s.miso = a :: v :: rest ∧
      x = (subRegValue r v, afterBus s rest (regReadTr r.addr a v)) := by
  unfold trxReadBit at h
  obtain ⟨y, hy, h⟩ := andThen_eq_some h
  obtain ⟨a, v, rest, hm, rfl⟩ := trxReadReg_some r.addr s y hy
  exact ⟨a, v, rest, hm, by simpa [subRegValue] using h.symm⟩

theorem trxWriteReg_some (addr val : Nat) (s s' : Radio) (h : trxWriteReg addr val s = some s') :
    ∃ tr rest, Quiet tr ∧ s' = afterBus s rest tr := by
  by_cases hl : s.miso.length < 2
  · rw [(busOnly_trxWriteReg addr val s).1 hl] at h; simp at h
  · obtain ⟨tr, q, e⟩ := (busOnly_trxWriteReg addr val s).2 (by omega)
    rw [e] at h
    exact ⟨tr, _, q, (Option.some.inj h).symm⟩

theorem afterBus_afterBus (s : Radio) (r1 r2 : List Nat) (t1 t2 : List Ev) :
    afterBus (afterBus s r1 t1) r2 t2 = afterBus s r2 (t1 ++ t2) := by
  simp [afterBus]

/-- When the busy-wait of `trxSendPacket` ends, it has only made register transactions. -/
theorem poll_some (K : Deps) : ∀ (fuel : Nat) (s s1 : Radio),
    trxSendPacket.poll K fuel s = some s1 → ∃ tr rest, Quiet tr ∧ s1 = afterBus s rest tr := by
  intro fuel
  induction fuel with
  | zero => intro s s1 h; simp [trxSendPacket.poll] at h
  | succ fuel ih =>
    intro s s1 h
    simp only [trxSendPacket.poll] at h
    obtain ⟨x, hx, h⟩ := andThen_eq_some h
    obtain ⟨a, v, rest, _, rfl⟩ := trxReadBit_some K.SR_TRX_STATUS s x hx
    simp only at h
    split at h
    · exact ⟨_, _, quiet_regReadTr _ a v, (Option.some.inj h).symm⟩
    · split at h
      · obtain ⟨s2, h2, h⟩ := andThen_eq_some h
        obtain ⟨s3, h3, h⟩ := andThen_eq_some h
        obtain ⟨t2, r2, q2, rfl⟩ := trxWriteReg_some _ _ _ _ h2
        obtain ⟨t3, r3, q3, rfl⟩ := trxWriteReg_some _ _ _ _ h3
        refine ⟨regReadTr K.SR_TRX_STATUS.addr a v ++ (t2 ++ t3), r3,
          quiet_append (quiet_regReadTr _ a v) (quiet_append q2 q3), ?_⟩
        rw [← Option.some.inj h, afterBus_afterBus, afterBus_afterBus]
      · obtain ⟨t, r, q, rfl⟩ := ih _ _ h
        exact ⟨regReadTr K.SR_TRX_STATUS.addr a v ++ t, r,
          quiet_append (quiet_regReadTr _ a v) q, afterBus_afterBus _ _ _ _ _⟩

/-- The bound on the rounds of the busy-wait never cuts it short: with at least as many rounds
allowed as there are bytes of bus input, allowing more rounds changes nothing. The busy-wait
fails to return only when the bus input is used up. -/
theorem poll_fuel_enough (K : Deps) : ∀ (n : Nat) (s : Radio) (m : Nat),
    s.miso.length ≤ n → n ≤ m → trxSendPacket.poll K m s = trxSendPacket.poll K n s := by
  intro n
  induction n with
  | zero =>
    intro s m hl _
    have hnil : s.miso = [] := List.length_eq_zero.mp (Nat.le_zero.mp hl)
    cases m with
    | zero => rfl
    | succ k =>
      simp [trxSendPacket.poll, trxReadBit, trxReadReg, trxWriteByte, setCS, hnil]
  | succ n ih =>
    intro s m hl hm
    obtain ⟨k, rfl⟩ : ∃ k, m = k + 1 := ⟨m - 1, by omega⟩
    simp only [trxSendPacket.poll]
    by_cases h2 : s.miso.length < 2
    · simp [trxReadBit, trxReadReg_short _ s h2]
    · match hmiso : s.miso with
      | [] => simp [hmiso] at h2
      | [a] => simp [hmiso] at h2
      | a :: v :: rest =>
        rw [trxReadBit_cons K.SR_TRX_STATUS a v rest s hmiso]
        simp only [andThen_some]
        split
        · rfl
        · split
          · rfl
          · exact ih _ k (by rw [hmiso] at hl; simp at hl ⊢; omega) (by omega)

/-- The state the frame part of `trxSendPacket` returns. -/
theorem frame_spec (s : Radio) (pld : Payload) (items : List Payload) (resp rest : List Nat)
    (hq : s.tx_queue_.items = pld :: items)
    (hresp : resp.length = 11 + payGetPayloadLength pld % 256)
    (hin : s.miso = resp ++ rest) :
    trxSendPacket.frame s = some (afterFrame s pld items resp rest) := by
  obtain ⟨r0, r1, r2, r3, r4, r5, r6, r7, r8, r9, r10, body, rfl, hbody⟩ :=
    list_split_eleven resp _ hresp
  simp only [andThen_some, trxSendPacket.frame, pqPop, hq, trxSetSlptr, setCS, trxWriteByte,
    List.cons_append, hin]
  rw [writeLoop_spec _ _ (payInitIterator pld) body rest rfl hbody rfl]
  simp [afterFrame, txFrame, payInitIterator, List.zipWith, LB, HB, TRX_CMD_FW, Nat.mod_lt]

theorem frame_step (s s' : Radio) (h : trxSendPacket.frame s = some s') : FrameStep s s' := by
  obtain ⟨pld, items, hq, hlen⟩ := frame_needs s s' h
  have e := frame_spec s pld items
    (s.miso.take (11 + payGetPayloadLength pld % 256))
    (s.miso.drop (11 + payGetPayloadLength pld % 256)) hq
    (by rw [List.length_take]; omega) (List.take_append_drop _ _).symm
  rw [h] at e
  obtain rfl := Option.some.inj e
  refine ⟨[], txFrame s.mac_tx_packet_ s.sqn pld, _, _, quiet_nil, ?_, by simp [txFrame],
    by simp [txFrame], rfl, rfl⟩
  rw [txFrame_length, List.length_take]; omega

/-- When `trxSendPacket` returns it has written no frame, or exactly one. -/
theorem trxSendPacket_step (K : Deps) (s s' : Radio) (h : trxSendPacket K s = some s') :
    QuietStep s s' ∨ FrameStep s s' := by
  unfold trxSendPacket at h
  split at h
  · obtain rfl := Option.some.inj h
    exact Or.inl (quietStep_of_eq rfl rfl)
  · obtain ⟨s1, hp, hf⟩ := andThen_eq_some h
    obtain ⟨tr, rest, q, rfl⟩ := poll_some K _ _ _ hp
    exact Or.inr (quiet_then_frame (quietStep_afterBus s rest tr q) (frame_step _ _ hf))

/-! ### Receive path -/

theorem setHB_setLB (w lo hi : Nat) : setHB (setLB w (lo % 256)) (hi % 256) = word lo hi := by
  simp only [setHB, setLB, LB, HB, word]
  omega

theorem getBits_word (lo hi : Nat) : getBits (word lo hi) 6 1 = panIDCompBit lo := by
  simp only [getBits, word, panIDCompBit]
  norm_num
  omega

theorem readLoop_spec :
    ∀ (data : List Nat) (i : Nat) (pld : Payload) (s : Radio) (rest : List Nat),
      s.miso = data ++ rest →
      trxReceivePacket.readLoop data.length i pld s
        = some (payWriteAll pld i data,
            { s with miso := rest, trace := s.trace ++ data.map (Ev.xfer 0) }) := by
  intro data
  induction data with
  | nil =>
    intro i pld s rest hin
    simp at hin
    simp [trxReceivePacket.readLoop, payWriteAll, ← hin]
  | cons b bs ih =>
    intro i pld s rest hin
    simp only [List.cons_append] at hin
    simp only [List.length_cons, trxReceivePacket.readLoop, trxReadByte, hin, andThen_some]
    rw [ih (i + 1) _ _ rest rfl]
    simp [payWriteAll]

theorem rxPayloadLength_int (L : Nat) :
    ((((L % 256 : Nat) : Int) - (MAC_HEADER_LENGTH : Nat) - (CRC_LENGTH : Nat)) % 256).toNat
      = rxPayloadLength L := by
  simp only [rxPayloadLength, MAC_HEADER_LENGTH, CRC_LENGTH]
  omega

theorem rxCount_int (n : Nat) : ((n : Int) - 2).toNat = n - 2 := by omega

/-- The state `trxReceivePacket` returns when the CRC-valid bit reads non-zero, for a bus input
made of the answers to the status read and to the command byte, the length byte `L`, the
header bytes (with the source PAN ID bytes `span` present exactly when bit 6 of the
frame-control low byte is clear), status, type, the data bytes and the LQI byte. -/
theorem trxReceivePacket_spec (K : Deps) (s : Radio)
    (a v y L fl fh seq dpl dph dal dah sal sah st ty lqi : Nat) (span data rest : List Nat)
    (hcrc : subRegValue K.SR_RX_CRC_VALID v ≠ 0)
    (hspan : span.length = if panIDCompBit fl = 0 then 2 else 0)
    (hdata : data.length = rxPayloadLength L - 2)
    (hin : s.miso = a :: v :: y :: L :: fl :: fh :: seq :: dpl :: dph :: dal :: dah ::
      (span ++ sal :: sah :: st :: ty :: (data ++ lqi :: rest))) :
    trxReceivePacket K s
      = some { s with
          mac_rx_packet_ := { s.mac_rx_packet_ with
            payloadLength := rxPayloadLength L,
            frame_ctrl := word fl fh,
            seqNum := seq % 256,
            destPANID := word dpl dph,
            destAddr := word dal dah,
            srcPANID := rxSrcPAN s.mac_rx_packet_.srcPANID span,
            srcAddr := word sal sah },
          radio_lqi_ := s.radio_lqi_.set 0 (lqi % 256),
          rx_queue_ := pqPush K s.rx_queue_ (rxPayload L st ty data),
          SPI_CS := 1,
          miso := rest,
          trace := s.trace ++ (regReadTr K.SR_RX_CRC_VALID.addr a v ++
            [Ev.cs 0, Ev.xfer 0x20 y] ++
            ([L, fl, fh, seq, dpl, dph, dal, dah] ++ span ++ [sal, sah]).map (Ev.xfer 0) ++
            [Ev.payCreate (payCreateEmpty ((rxPayloadLength L : Int) - 2))] ++
            ([st, ty] ++ data ++ [lqi]).map (Ev.xfer 0) ++ [Ev.cs 1]) } := by
  unfold trxReceivePacket
  rw [trxReadBit_cons K.SR_RX_CRC_VALID a v _ s hin]
  simp only [andThen_some, if_neg hcrc, setCS, trxWriteByte, trxReadByte, setHB_setLB,
    rxPayloadLength_int, rxCount_int, trxReceivePacket.srcPAN, getBits_word]
  by_cases hb : panIDCompBit fl = 0
  · rw [if_pos hb] at hspan
    obtain ⟨lo, hi, rfl⟩ : ∃ lo hi, span = [lo, hi] := by
      match span, hspan with
      | [lo, hi], _ => exact ⟨lo, hi, rfl⟩
    simp only [if_pos hb, trxReadByte, andThen_some, List.cons_append, List.nil_append,
      setHB_setLB]
    rw [← hdata, readLoop_spec data 0 _ _ (lqi :: rest) rfl]
    simp [trxReadByte, rxPayload, rxSrcPAN, word, TRX_CMD_FR, hdata]
  · rw [if_neg hb] at hspan
    have : span = [] := List.length_eq_zero.mp hspan
    subst this
    simp only [if_neg hb, trxReadByte, andThen_some, List.nil_append, setHB_setLB]
    rw [← hdata, readLoop_spec data 0 _ _ (lqi :: rest) rfl]
    simp [trxReadByte, rxPayload, rxSrcPAN, word, TRX_CMD_FR, hdata]

theorem payWriteAll_fresh (st ty it : Nat) :
    ∀ (data pre : List Nat),
      payWriteAll { status := st, type := ty, data := pre ++ List.replicate data.length 0,
                    iter := it } pre.length data
        = { status := st, type := ty, data := pre ++ data.map (· % 256), iter := it } := by
  intro data
  induction data with
  | nil => intro pre; simp [payWriteAll]
  | cons b bs ih =>
    intro pre
    have h := ih (pre ++ [b % 256])
    simp only [List.length_append, List.length_singleton, List.append_assoc,
      List.singleton_append] at h
    simp only [payWriteAll, payWriteByte, List.length_cons, List.replicate_succ, List.map_cons,
      Nat.mod_mod]
    rw [← h]
    congr 2
    simp [List.set_append_right]

theorem rxPayload_eq (L st ty : Nat) (data : List Nat) (h2 : 2 ≤ rxPayloadLength L)
    (hdata : data.length = rxPayloadLength L - 2) :
    rxPayload L st ty data
      = { status := st % 256, type := ty % 256, data := data.map (· % 256), iter := 0 } := by
  have hlt : rxPayloadLength L < 256 := Nat.mod_lt _ (by norm_num)
  have hsz : ((((rxPayloadLength L : Nat) : Int) - 2) % 256).toNat = data.length := by
    rw [hdata]; omega
  have h := payWriteAll_fresh (st % 256) (ty % 256) 0 data []
  simp only [List.nil_append, List.length_nil] at h
  simp only [rxPayload, payCreateEmpty, paySetStatus, paySetType, hsz, Nat.mod_mod]
  exact h

theorem list_snoc_of_length (t : List Nat) (k : Nat) (h : t.length = k + 1) :
    ∃ d x, t = d ++ [x] ∧ d.length = k := by
  rcases List.eq_nil_or_concat t with rfl | ⟨d, x, hx⟩
  · simp at h
  · rw [List.concat_eq_append] at hx
    subst hx
    exact ⟨d, x, rfl, by simpa using h⟩

theorem scan_reads (d : List (List Nat)) :
    ∀ (bytes t : List Nat),
      (bytes.map (Ev.xfer 0)).foldl Scan.step { done := d, cur := some t }
        = { done := d, cur := some (t ++ List.replicate bytes.length 0) } := by
  intro bytes
  induction bytes with
  | nil => intro t; simp
  | cons b bs ih =>
    intro t
    simp only [List.map_cons, List.foldl_cons, Scan.step, ih, List.length_cons,
      List.replicate_succ]
    simp

theorem received_append (t1 t2 : List Ev) : received (t1 ++ t2) = received t1 ++ received t2 := by
  induction t1 with
  | nil => rfl
  | cons e t ih => cases e <;> simp [received, ih]

theorem received_reads (bytes : List Nat) : received (bytes.map (Ev.xfer 0)) = bytes := by
  induction bytes with
  | nil => rfl
  | cons b bs ih => simp [received, ih]

/-- C9: for a CRC-valid frame whose length byte `L` satisfies `13 ≤ L ≤ 255` and whose
frame-control low byte has bit 6 (PAN-ID compression) set, `trxReceivePacket` returns after
one register read and one frame-read transaction in which, after the command `0x20`, exactly
the `L` bytes of `frame` are read (length, nine header bytes, status, type, `L - 13` data
bytes, one LQI byte); it pushes one payload on the inbound queue (at the tail when the queue
has room) whose status is the 11th byte read, whose type is the 12th and whose data are the
next `L - 13` bytes in order; the current state is unchanged. Bytes read are 8-bit values
(`% 256`). -/
theorem trxReceivePacket_frame (K : Deps) (s : Radio) (a v y L : Nat) (frame rest : List Nat)
    (hcrc : subRegValue K.SR_RX_CRC_VALID v ≠ 0)
    (hL13 : 13 ≤ L) (hL255 : L ≤ 255)
    (hlen : frame.length = L) (hhead : frame.head? = some L)
    (hpan : panIDCompBit (frame.getD 1 0) = 1)
    (hin : s.miso = a :: v :: y :: (frame ++ rest)) :
    ∃ s', trxReceivePacket K s = some s' ∧ s'.miso = rest ∧
      received (s'.trace.drop s.trace.length) = a :: v :: y :: frame ∧
      transactions (s'.trace.drop s.trace.length)
        = [[(0x80 ||| K.SR_RX_CRC_VALID.addr) % 256, 0], 0x20 :: List.replicate L 0] ∧
      s'.rx_queue_ = pqPush K s.rx_queue_
        { status := frame.getD 10 0 % 256, type := frame.getD 11 0 % 256,
          data := ((frame.drop 12).take (L - 13)).map (· % 256), iter := 0 } ∧
      (pqIsFull s.rx_queue_ = false → s'.rx_queue_.items = s.rx_queue_.items ++
        [{ status := frame.getD 10 0 % 256, type := frame.getD 11 0 % 256,
           data := ((frame.drop 12).take (L - 13)).map (· % 256), iter := 0 }]) ∧
      s'.current_state_ = s.current_state_ := by
  obtain ⟨L', fl, fh, seq, dpl, dph, dal, dah, sal, sah, st, t, rfl, ht⟩ :
      ∃ L' fl fh seq dpl dph dal dah sal sah st t,
        frame = L' :: fl :: fh :: seq :: dpl :: dph :: dal :: dah :: sal :: sah :: st :: t ∧
        t.length = 2 + (L - 13) := by
    obtain ⟨r0, r1, r2, r3, r4, r5, r6, r7, r8, r9, r10, t, rfl, ht⟩ :=
      list_split_eleven frame (2 + (L - 13)) (by omega)
    exact ⟨r0, r1, r2, r3, r4, r5, r6, r7, r8, r9, r10, t, rfl, ht⟩
  obtain ⟨ty, t2, rfl, ht2⟩ : ∃ ty t2, t = ty :: t2 ∧ t2.length = (L - 13) + 1 := by
    match t, ht with
    | ty :: t2, ht => exact ⟨ty, t2, rfl, by simp at ht; omega⟩
  obtain ⟨data, lqi, rfl, hd⟩ := list_snoc_of_length t2 (L - 13) ht2
  simp only [List.head?_cons, Option.some.injEq] at hhead
  subst hhead
  simp only [List.getD_cons_succ, List.getD_cons_zero] at hpan
  have hn : rxPayloadLength L' = L' - 11 := by
    simp only [rxPayloadLength, MAC_HEADER_LENGTH, CRC_LENGTH]; omega
  have hdata : data.length = rxPayloadLength L' - 2 := by rw [hn, hd]; omega
  have hspec := trxReceivePacket_spec K s a v y L' fl fh seq dpl dph dal dah sal sah st ty lqi
    [] data rest hcrc (by simp [hpan]) hdata (by simpa using hin)
  have hpld := rxPayload_eq L' st ty data (by rw [hn]; omega) hdata
  have htake : List.take (L' - 13) (data ++ [lqi]) = data := by
    rw [← hd]; simp
  refine ⟨_, hspec, rfl, ?_, ?_, ?_, ?_, rfl⟩
  · simp [List.drop_left, received_append, received_reads, regReadTr, received]
  · have hcount : (0 : Nat) :: 0 :: 0 :: 0 :: 0 :: 0 :: 0 :: 0 :: 0 :: 0 ::
        List.replicate (data.length + 1 + 1 + 1) 0 = List.replicate L' (0 : Nat) := by
      have : L' = data.length + 1 + 1 + 1 + 10 := by omega
      rw [this]
      rfl
    simp only [List.drop_left, transactions, List.foldl_append, scan_regReadTr,
      List.nil_append, List.foldl_cons, List.foldl_nil, Scan.step, scan_reads]
    simp [TRX_CMD_RR, hcount]
  · simp [hpld, htake]
  · intro hroom
    simp [hpld, htake, pqPush, hroom]

/-- Witness for C9: a frame with length byte 15 and two data bytes. -/
theorem trxReceivePacket_frame_witness :
    ∃ s', trxReceivePacket at86rf231 (listening 2 2 [] []
        [0, 0x80, 0, 15, 0x61, 0x98, 5, 0x20, 0x20, 0x21, 0x20, 0x22, 0x20, 1, 2, 0xAA, 0xBB, 0xFF])
        = some s' ∧ s'.miso = [] ∧
      received (s'.trace.drop 0) = 0 :: 0x80 :: 0 ::
        [15, 0x61, 0x98, 5, 0x20, 0x20, 0x21, 0x20, 0x22, 0x20, 1, 2, 0xAA, 0xBB, 0xFF] ∧
      transactions (s'.trace.drop 0) = [[(0x80 ||| 0x06) % 256, 0], 0x20 :: List.replicate 15 0] ∧
      s'.rx_queue_ = pqPush at86rf231 { capacity := 2, items := [] }
        { status := 1, type := 2, data := [0xAA, 0xBB], iter := 0 } ∧
      (pqIsFull { capacity := 2, items := [] } = false → s'.rx_queue_.items = [] ++
        [{ status := 1, type := 2, data := [0xAA, 0xBB], iter := 0 }]) ∧
      s'.current_state_ = RadioState.STATE_RX_AACK_ON :=
  trxReceivePacket_frame at86rf231 (listening 2 2 [] []
      [0, 0x80, 0, 15, 0x61, 0x98, 5, 0x20, 0x20, 0x21, 0x20, 0x22, 0x20, 1, 2, 0xAA, 0xBB, 0xFF])
    0 0x80 0 15
    [15, 0x61, 0x98, 5, 0x20, 0x20, 0x21, 0x20, 0x22, 0x20, 1, 2, 0xAA, 0xBB, 0xFF] []
    (by decide) (by decide) (by decide) rfl rfl (by decide) rfl

/-- C4 (as stated, refuted): fed the byte sequence `13, 0x61, 0x98, seq, 0x20, 0x20, 0x21,
0x20, 0x22, 0x20, 0x00, 0x00, 0xAA, 0xBB` with the CRC-valid bit set, `trxReceivePacket`
builds a payload with no data byte: `13 - 9 - 2 - 2 = 0`. It takes `0xAA`
as the link-quality byte and leaves `0xBB` unread on the bus. -/
theorem trxReceivePacket_sample_13_no_data :
    (trxReceivePacket at86rf231 (listening 2 2 [] []
        [0, 0x80, 0, 13, 0x61, 0x98, 5, 0x20, 0x20, 0x21, 0x20, 0x22, 0x20, 0, 0, 0xAA, 0xBB])).map
        (fun s' => (s'.rx_queue_.items, s'.radio_lqi_, s'.miso))
      = some ([{ status := 0, type := 0, data := [], iter := 0 }], [0xAA, 0, 0, 0, 0], [0xBB]) := by
  decide

/-- C4 (amended): with the CRC-valid bit set, when `trxReceivePacket` reads from the bus the
byte sequence 15, fctrl_lo (PAN-ID-compression bit set), fctrl_hi, seq, `0x20, 0x20, 0x21,
0x20, 0x22, 0x20, 0x00, 0x00, 0xAA, 0xBB` and one link-quality byte, it pushes on the inbound
queue (at the tail when the queue has room) a payload whose data is `[0xAA, 0xBB]`. -/
theorem trxReceivePacket_sample_frame (K : Deps) (s : Radio)
    (a v y fctrl_lo fctrl_hi seq lqi : Nat) (rest : List Nat)
    (hcrc : subRegValue K.SR_RX_CRC_VALID v ≠ 0) (hpan : panIDCompBit fctrl_lo = 1)
    (hin : s.miso = a :: v :: y :: 15 :: fctrl_lo :: fctrl_hi :: seq :: 0x20 :: 0x20 :: 0x21 ::
      0x20 :: 0x22 :: 0x20 :: 0x00 :: 0x00 :: 0xAA :: 0xBB :: lqi :: rest) :
    ∃ s', trxReceivePacket K s = some s' ∧ s'.miso = rest ∧
      s'.rx_queue_ = pqPush K s.rx_queue_
        { status := 0, type := 0, data := [0xAA, 0xBB], iter := 0 } ∧
      (pqIsFull s.rx_queue_ = false → s'.rx_queue_.items = s.rx_queue_.items ++
        [{ status := 0, type := 0, data := [0xAA, 0xBB], iter := 0 }]) := by
  have hn : rxPayloadLength 15 = 4 := by decide
  have hspec := trxReceivePacket_spec K s a v y 15 fctrl_lo fctrl_hi seq 0x20 0x20 0x21 0x20
    0x22 0x20 0x00 0x00 lqi [] [0xAA, 0xBB] rest hcrc (by simp [hpan]) (by rw [hn]; rfl)
    (by simpa using hin)
  have hpld := rxPayload_eq 15 0x00 0x00 [0xAA, 0xBB] (by rw [hn]; decide) (by rw [hn]; rfl)
  refine ⟨_, hspec, rfl, ?_, ?_⟩
  · simp [hpld]
  · intro hroom
    simp [hpld, pqPush, hroom]

/-- Witness for C4 (amended): the same frame with length byte 15, then the link-quality byte
`0xFF`. -/
theorem trxReceivePacket_sample_frame_witness :
    ∃ s', trxReceivePacket at86rf231 (listening 2 2 [] []
        [0, 0x80, 0, 15, 0x61, 0x98, 5, 0x20, 0x20, 0x21, 0x20, 0x22, 0x20, 0, 0, 0xAA, 0xBB, 0xFF])
        = some s' ∧ s'.miso = [] ∧
      s'.rx_queue_ = pqPush at86rf231 { capacity := 2, items := [] }
        { status := 0, type := 0, data := [0xAA, 0xBB], iter := 0 } ∧
      (pqIsFull { capacity := 2, items := [] } = false → s'.rx_queue_.items = [] ++
        [{ status := 0, type := 0, data := [0xAA, 0xBB], iter := 0 }]) :=
  trxReceivePacket_sample_frame at86rf231 (listening 2 2 [] []
      [0, 0x80, 0, 15, 0x61, 0x98, 5, 0x20, 0x20, 0x21, 0x20, 0x22, 0x20, 0, 0, 0xAA, 0xBB, 0xFF])
    0 0x80 0 0x61 0x98 5 0xFF [] (by decide) (by decide) rfl

theorem payYield_from (st ty : Nat) (d : List Nat) :
    ∀ (post pre : List Nat), st :: ty :: d = pre ++ post →
      payYield post.length { status := st, type := ty, data := d, iter := pre.length }
        = post.map (· % 256) := by
  intro post
  induction post with
  | nil => intro pre _; rfl
  | cons b bs ih =>
    intro pre h
    have h' : st :: ty :: d = (pre ++ [b]) ++ bs := by simp [h]
    have := ih (pre ++ [b]) h'
    simp only [List.length_append, List.length_singleton] at this
    simp only [List.length_cons, payYield, payNextElement, payToList, List.map_cons, h, this]
    simp [List.getD_eq_getElem?_getD, List.getElem_append_right]

theorem map_mod_of_lt (d : List Nat) (h : ∀ b ∈ d, b < 256) : d.map (· % 256) = d := by
  induction d with
  | nil => rfl
  | cons b bs ih =>
    simp only [List.map_cons]
    rw [Nat.mod_eq_of_lt (h b (by simp)), ih (fun x hx => h x (by simp [hx]))]

/-- C2: round trip. For a payload with status `st`, type `ty` and data `d` (bytes, at most
242 of them) at the head of the outbound queue and the staging record built by
`trxCreateMacPacket`, `trxSendPacket` returns and writes one frame `0x60 :: wire`; and when
`wire` followed by one link-quality byte is the bus input of `trxReceivePacket` with the
CRC-valid bit set, that call returns and pushes exactly one payload on the inbound queue (at
the tail when the queue has room), with status `st`, type `ty` and data `d`. -/
theorem send_receive_roundtrip (K : Deps) (s1 : Radio) (mem : MacPacketStruct)
    (pl : Option Payload) (plen st ty it : Nat) (d : List Nat) (items : List Payload)
    (polls : List (Nat × Nat)) (a v : Nat) (ack resp rest : List Nat)
    (hst : s1.current_state_ ≠ RadioState.STATE_BUSY_TX_ARET)
    (hm : s1.mac_tx_packet_ = { trxCreateMacPacket mem with payload := pl, payloadLength := plen })
    (hq : s1.tx_queue_.items = { status := st, type := ty, data := d, iter := it } :: items)
    (hstb : st < 256) (htyb : ty < 256) (hdb : ∀ b ∈ d, b < 256) (hd : d.length ≤ 242)
    (hbusy : ∀ p ∈ polls, PollBusy K p.2) (hready : PollReady K v ack)
    (hresp : resp.length = d.length + 13)
    (hin : s1.miso = pollIn polls ++ a :: v :: (ack ++ (resp ++ rest))) :
    ∃ s1' wire, trxSendPacket K s1 = some s1' ∧
      frameWrites (s1'.trace.drop s1.trace.length) = [0x60 :: wire] ∧
      ∀ (s2 : Radio) (a2 v2 y2 lqi : Nat) (rest2 : List Nat),
        subRegValue K.SR_RX_CRC_VALID v2 ≠ 0 →
        s2.miso = a2 :: v2 :: y2 :: (wire ++ lqi :: rest2) →
        ∃ s2', trxReceivePacket K s2 = some s2' ∧ s2'.miso = rest2 ∧
          s2'.rx_queue_ = pqPush K s2.rx_queue_
            { status := st, type := ty, data := d, iter := 0 } ∧
          (pqIsFull s2.rx_queue_ = false → s2'.rx_queue_.items = s2.rx_queue_.items ++
            [{ status := st, type := ty, data := d, iter := 0 }]) := by
  have hlen : payGetPayloadLength
      { status := st, type := ty, data := d, iter := it } % 256 = d.length + 2 := by
    simp only [payGetPayloadLength]; omega
  have hresp' : resp.length = 11 + payGetPayloadLength
      { status := st, type := ty, data := d, iter := it } % 256 := by
    rw [hlen, hresp]; omega
  have h1 : s1.mac_tx_packet_.frame_ctrl = 0x9861 := by
    rw [hm]; exact trxCreateMacPacket_frame_ctrl mem
  have h2 : s1.mac_tx_packet_.destPANID = 0x2020 := by rw [hm]; rfl
  have h3 : s1.mac_tx_packet_.destAddr = 0x2021 := by rw [hm]; rfl
  have h4 : s1.mac_tx_packet_.srcAddr = 0x2022 := by rw [hm]; rfl
  have hy : payYield (d.length + 2)
      (payInitIterator { status := st, type := ty, data := d, iter := it })
      = st :: ty :: d := by
    have := payYield_from st ty d (st :: ty :: d) [] rfl
    simp only [List.length_cons, List.length_nil, List.map_cons] at this
    rw [Nat.mod_eq_of_lt hstb, Nat.mod_eq_of_lt htyb, map_mod_of_lt d hdb] at this
    exact this
  have hL : (d.length + 2 + 9 + 2) % 256 = d.length + 13 := by omega
  have hframe : txFrame s1.mac_tx_packet_ s1.sqn
      { status := st, type := ty, data := d, iter := it }
      = 0x60 :: (d.length + 13) :: 0x61 :: 0x98 :: (s1.sqn % 256) :: 0x20 :: 0x20 :: 0x21 ::
          0x20 :: 0x22 :: 0x20 :: st :: ty :: d := by
    simp [txFrame, h1, h2, h3, h4, hlen, hy, hL, LB, HB, TRX_CMD_FW, MAC_HEADER_LENGTH,
      CRC_LENGTH]
  refine ⟨_, (d.length + 13) :: 0x61 :: 0x98 :: (s1.sqn % 256) :: 0x20 :: 0x20 :: 0x21 ::
    0x20 :: 0x22 :: 0x20 :: st :: ty :: d,
    trxSendPacket_spec K s1 _ items polls a v ack resp rest hst hq hbusy hready hresp' hin,
    ?_, ?_⟩
  · simp only [List.drop_left]
    rw [frameWrites_sendTrace _ _ resp _
      (quiet_append (quiet_append (quiet_pollTr K polls) (quiet_regReadTr _ _ _))
        (quiet_armTr K ack))
      (by rw [txFrame_length, hresp']) (by simp [txFrame]), hframe]
  · intro s2 a2 v2 y2 lqi rest2 hcrc hin2
    have hn : rxPayloadLength (d.length + 13) = d.length + 2 := by
      simp only [rxPayloadLength, MAC_HEADER_LENGTH, CRC_LENGTH]; omega
    have hspec := trxReceivePacket_spec K s2 a2 v2 y2 (d.length + 13) 0x61 0x98 (s1.sqn % 256)
      0x20 0x20 0x21 0x20 0x22 0x20 st ty lqi [] d rest2 hcrc (by decide) (by rw [hn]; rfl)
      (by simpa using hin2)
    have hpld := rxPayload_eq (d.length + 13) st ty d (by rw [hn]; omega) (by rw [hn]; rfl)
    rw [Nat.mod_eq_of_lt hstb, Nat.mod_eq_of_lt htyb, map_mod_of_lt d hdb] at hpld
    refine ⟨_, hspec, rfl, ?_, ?_⟩
    · simp [hpld]
    · intro hroom
      simp [hpld, pqPush, hroom]

/-- Witness for C2: the sample payload sent by a listening driver whose status reads
`TX_ARET_ON` (25) at the first poll. -/
theorem send_receive_roundtrip_witness :
    ∃ s1' wire, trxSendPacket at86rf231
        (listening 2 2 [samplePayload] [] ([0, 25] ++ List.replicate 15 0)) = some s1' ∧
      frameWrites (s1'.trace.drop 0) = [0x60 :: wire] ∧
      ∀ (s2 : Radio) (a2 v2 y2 lqi : Nat) (rest2 : List Nat),
        subRegValue at86rf231.SR_RX_CRC_VALID v2 ≠ 0 →
        s2.miso = a2 :: v2 :: y2 :: (wire ++ lqi :: rest2) →
        ∃ s2', trxReceivePacket at86rf231 s2 = some s2' ∧ s2'.miso = rest2 ∧
          s2'.rx_queue_ = pqPush at86rf231 s2.rx_queue_
            { status := 0, type := 0, data := [0xAA, 0xBB], iter := 0 } ∧
          (pqIsFull s2.rx_queue_ = false → s2'.rx_queue_.items = s2.rx_queue_.items ++
            [{ status := 0, type := 0, data := [0xAA, 0xBB], iter := 0 }]) :=
  send_receive_roundtrip at86rf231
    (listening 2 2 [samplePayload] [] ([0, 25] ++ List.replicate 15 0)) zeroMem none 0 0 0 0
    [0xAA, 0xBB] [] [] 0 25 [] (List.replicate 15 0) [] (by decide) rfl rfl (by decide)
    (by decide) (by decide) (by decide) (by simp) (Or.inl ⟨by decide, rfl⟩) rfl rfl

theorem readLoop_result (n i : Nat) (pld : Payload) (s : Radio) (r : Payload × Radio)
    (h : trxReceivePacket.readLoop n i pld s = some r) :
    r = (payWriteAll pld i (s.miso.take n),
      { s with miso := s.miso.drop n, trace := s.trace ++ (s.miso.take n).map (Ev.xfer 0) }) := by
  have hn := readLoop_needs n i pld s r h
  have hl : (s.miso.take n).length = n := by rw [List.length_take]; omega
  have e := readLoop_spec (s.miso.take n) i pld s (s.miso.drop n)
    (List.take_append_drop _ _).symm
  rw [hl, h] at e
  exact Option.some.inj e

theorem quiet_frameRead (y : Nat) (hdr tl : List Nat) (p : Payload) :
    Quiet ([Ev.cs 0, Ev.xfer 0x20 y] ++ hdr.map (Ev.xfer 0) ++ [Ev.payCreate p] ++
      tl.map (Ev.xfer 0) ++ [Ev.cs 1]) := by
  intro d
  refine ⟨[[0x20] ++ List.replicate hdr.length 0 ++ List.replicate tl.length 0], ?_, ?_⟩
  · simp only [List.foldl_append, List.foldl_cons, List.foldl_nil, Scan.step, scan_reads]
    simp
  · simp [TRX_CMD_FW]

/-- When `trxReceivePacket` returns it has written no frame and has left the sequence counter
as it was. -/
theorem trxReceivePacket_quiet (K : Deps) (s s' : Radio) (h : trxReceivePacket K s = some s') :
    QuietStep s s' := by
  have h0 := h
  unfold trxReceivePacket at h
  obtain ⟨x, hx, h⟩ := andThen_eq_some h
  obtain ⟨a, v, m, hm, rfl⟩ := trxReadBit_some K.SR_RX_CRC_VALID s x hx
  simp only at h
  by_cases hcrc : subRegValue K.SR_RX_CRC_VALID v = 0
  · rw [if_pos hcrc] at h
    obtain rfl := Option.some.inj h
    exact quietStep_afterBus _ _ _ (quiet_regReadTr _ _ _)
  · rw [if_neg hcrc] at h
    simp only [setCS, afterBus, rxPayloadLength_int, rxCount_int, setHB_setLB] at h
    obtain ⟨y, m0, e0, h⟩ := step_write h
    simp only at e0 h
    obtain ⟨L, m1, e1, h⟩ := step_read h
    simp only [rxPayloadLength_int, rxCount_int] at e1 h
    obtain ⟨fl, m2, e2, h⟩ := step_read h
    simp only at e2 h
    obtain ⟨fh, m3, e3, h⟩ := step_read h
    simp only [setHB_setLB] at e3 h
    obtain ⟨seq, m4, e4, h⟩ := step_read h
    simp only at e4 h
    obtain ⟨dpl, m5, e5, h⟩ := step_read h
    simp only at e5 h
    obtain ⟨dph, m6, e6, h⟩ := step_read h
    simp only at e6 h
    obtain ⟨dal, m7, e7, h⟩ := step_read h
    simp only at e7 h
    obtain ⟨dah, m8, e8, h⟩ := step_read h
    simp only at e8 h
    obtain ⟨s2, hsp, h⟩ := andThen_eq_some h
    obtain ⟨span, m9, e9, hspan, hs2⟩ : ∃ span m9, m8 = span ++ m9 ∧
        span.length = (if panIDCompBit fl = 0 then 2 else 0) ∧ s2.miso = m9 := by
      unfold trxReceivePacket.srcPAN at hsp
      simp only [getBits_word] at hsp
      split at hsp
      · next hb =>
        obtain ⟨lo, r1, el, hsp⟩ := step_read hsp
        simp only at el hsp
        obtain ⟨hi, r2, eh, hsp⟩ := step_read hsp
        simp only at eh hsp
        obtain rfl := Option.some.inj hsp
        exact ⟨[lo, hi], r2, by rw [el, eh]; rfl, by simp [hb], rfl⟩
      · next hb =>
        obtain rfl := Option.some.inj hsp
        exact ⟨[], _, rfl, by simp [hb], rfl⟩
    obtain ⟨sal, m10, e10, h⟩ := step_read h
    simp only at e10 h
    obtain ⟨sah, m11, e11, h⟩ := step_read h
    simp only at e11 h
    obtain ⟨st, m12, e12, h⟩ := step_read h
    simp only at e12 h
    obtain ⟨ty, m13, e13, h⟩ := step_read h
    simp only at e13 h
    obtain ⟨⟨pld, s3⟩, hloop, h⟩ := andThen_eq_some h
    have hcnt := readLoop_needs _ _ _ _ _ hloop
    have hres := readLoop_result _ _ _ _ _ hloop
    simp only at hcnt hres
    obtain ⟨rfl, rfl⟩ := Prod.mk.inj hres
    obtain ⟨lqi, rest, e14, _⟩ := step_read h
    simp only at e14
    have hdl : (m13.take (rxPayloadLength L - 2)).length = rxPayloadLength L - 2 := by
      rw [List.length_take]; omega
    have hin : s.miso = a :: v :: y :: L :: fl :: fh :: seq :: dpl :: dph :: dal :: dah ::
        (span ++ sal :: sah :: st :: ty ::
          (m13.take (rxPayloadLength L - 2) ++ lqi :: rest)) := by
      rw [← e14, List.take_append_drop, ← e13, ← e12, ← e11, ← e10, hs2, ← e9, ← e8, ← e7,
        ← e6, ← e5, ← e4, ← e3, ← e2, ← e1, ← e0, hm]
    have hspec := trxReceivePacket_spec K s a v y L fl fh seq dpl dph dal dah sal sah st ty lqi
      span (m13.take (rxPayloadLength L - 2)) rest hcrc hspan hdl hin
    rw [h0] at hspec
    obtain rfl := Option.some.inj hspec
    refine ⟨_, ?_, rfl, rfl⟩
    have hq := quiet_append (quiet_regReadTr K.SR_RX_CRC_VALID.addr a v)
      (quiet_frameRead y ([L, fl, fh, seq, dpl, dph, dal, dah] ++ span ++ [sal, sah])
        ([st, ty] ++ m13.take (rxPayloadLength L - 2) ++ [lqi])
        (payCreateEmpty ((rxPayloadLength L : Int) - 2)))
    simpa only [List.append_assoc] using hq

/-! ### Sequence numbers -/

theorem radioSendPayload_step (K : Deps) (p : Payload) (s : Radio) (r : Nat × Radio)
    (h : radioSendPayload K p s = some r) : QuietStep s r.2 ∨ FrameStep s r.2 := by
  unfold radioSendPayload at h
  split at h
  · obtain rfl := Option.some.inj h
    exact Or.inl (quietStep_of_eq rfl rfl)
  · obtain ⟨s1, h1, h⟩ := andThen_eq_some h
    obtain rfl := Option.some.inj h
    have hq : QuietStep s { s with tx_queue_ := pqPush K s.tx_queue_ p } :=
      quietStep_of_eq rfl rfl
    rcases trxSendPacket_step K _ _ h1 with h2 | h2
    · exact Or.inl (quietStep_trans hq h2)
    · exact Or.inr (quiet_then_frame hq h2)

theorem radioPutChar_step (K : Deps) (c : Nat) (s s' : Radio)
    (h : radioPutChar K c s = some s') : QuietStep s s' ∨ FrameStep s s' := by
  unfold radioPutChar at h
  obtain ⟨r, h1, h⟩ := andThen_eq_some h
  obtain rfl := Option.some.inj h
  have hq : QuietStep s { s with trace := s.trace ++ [Ev.payCreate (payCreate 1 [c % 256] 0 0)] } :=
    ⟨_, quiet_offBus _ ⟨by simp, by simp⟩, rfl, rfl⟩
  rcases radioSendPayload_step K _ _ _ h1 with h2 | h2
  · exact Or.inl (quietStep_trans hq h2)
  · exact Or.inr (quiet_then_frame hq h2)

theorem trxHandleISR_step (K : Deps) (s s' : Radio) (h : trxHandleISR K s = some s') :
    QuietStep s s' ∨ FrameStep s s' := by
  unfold trxHandleISR at h
  obtain ⟨x, hx, h⟩ := andThen_eq_some h
  obtain ⟨a, v, rest, _, rfl⟩ := trxReadReg_some _ _ _ hx
  have hq1 := quietStep_afterBus s rest _ (quiet_regReadTr K.RG_IRQ_STATUS a v)
  simp only at h
  split at h
  · split at h
    · exact Or.inl (quietStep_trans hq1 (trxReceivePacket_quiet K _ _ h))
    · obtain ⟨y, hy, h⟩ := andThen_eq_some h
      obtain ⟨a2, v2, rest2, _, rfl⟩ := trxReadBit_some K.SR_TRAC_STATUS _ _ hy
      have hq2 := quietStep_trans hq1
        (quietStep_afterBus _ rest2 _ (quiet_regReadTr K.SR_TRAC_STATUS.addr a2 v2))
      simp only at h
      split at h
      · obtain ⟨s3, h3, h⟩ := andThen_eq_some h
        obtain ⟨s4, h4, h⟩ := andThen_eq_some h
        obtain ⟨t3, r3, q3, rfl⟩ := trxWriteReg_some _ _ _ _ h3
        obtain ⟨t4, r4, q4, rfl⟩ := trxWriteReg_some _ _ _ _ h4
        obtain rfl := Option.some.inj h
        exact Or.inl (quietStep_trans hq2 (quietStep_trans (quietStep_afterBus _ r3 t3 q3)
          (quietStep_trans (quietStep_afterBus _ r4 t4 q4) (quietStep_of_eq rfl rfl))))
      · have hq0 : QuietStep
            (afterBus (afterBus s rest (regReadTr K.RG_IRQ_STATUS a v)) rest2
              (regReadTr K.SR_TRAC_STATUS.addr a2 v2))
            { afterBus (afterBus s rest (regReadTr K.RG_IRQ_STATUS a v)) rest2
                (regReadTr K.SR_TRAC_STATUS.addr a2 v2) with
              current_state_ := RadioState.STATE_TX_ARET_ON } :=
          quietStep_of_eq rfl rfl
        have hq3 := quietStep_trans hq2 hq0
        rcases trxSendPacket_step K _ _ h with h2 | h2
        · exact Or.inl (quietStep_trans hq3 h2)
        · exact Or.inr (quiet_then_frame hq3 h2)
  · obtain rfl := Option.some.inj h
    exact Or.inl hq1

theorem radioSetup_step (K : Deps) (N rx : Nat) (mem_rx mem_tx : MacPacketStruct)
    (s s' : Radio) (h : radioSetup K N rx mem_rx mem_tx s = some s') : QuietStep s s' := by
  by_cases hl : s.miso.length < 36
  · simp [radioSetup, (busOnly_trxSetup K s).1 hl] at h
  · obtain ⟨tr, q, e⟩ := radioSetup_spec K N rx mem_rx mem_tx s (by omega)
    rw [h] at e
    obtain rfl := Option.some.inj e
    exact ⟨tr ++ [Ev.configINT4],
      quiet_append q (quiet_offBus _ ⟨by simp, by simp⟩), rfl, rfl⟩

theorem radioGetChar_read_step (K : Deps) (s : Radio) (r : Nat × Option Nat × Radio)
    (h : radioGetChar.read K s = some r) : QuietStep s r.2.2 := by
  unfold radioGetChar.read at h
  obtain ⟨p, _, h⟩ := andThen_eq_some h
  simp only at h
  split at h
  · obtain rfl := Option.some.inj h
    exact ⟨[Ev.payDelete p], quiet_offBus _ ⟨by simp, by simp⟩, rfl, rfl⟩
  · obtain rfl := Option.some.inj h
    exact quietStep_of_eq rfl rfl

theorem radioGetChar_step (K : Deps) (s : Radio) (r : Nat × Option Nat × Radio)
    (h : radioGetChar K s = some r) : QuietStep s r.2.2 := by
  unfold radioGetChar at h
  split at h
  · split at h
    · obtain rfl := Option.some.inj h
      exact quietStep_of_eq rfl rfl
    · obtain ⟨⟨p, q⟩, _, h⟩ := andThen_eq_some h
      simp only at h
      refine quietStep_trans ?_ (radioGetChar_read_step K _ _ h)
      exact quietStep_of_eq rfl rfl
  · exact radioGetChar_read_step K _ _ h

theorem drainTx_step : ∀ (n : Nat) (s : Radio), QuietStep s (radioDeleteQueues.drainTx n s) := by
  intro n
  induction n with
  | zero => intro s; exact quietStep_of_eq rfl rfl
  | succ n ih =>
    intro s
    unfold radioDeleteQueues.drainTx
    split
    · exact quietStep_of_eq rfl rfl
    · split
      · exact quietStep_of_eq rfl rfl
      · next p q _ =>
        exact quietStep_trans
          (⟨[Ev.payDelete p], quiet_offBus _ ⟨by simp, by simp⟩, rfl, rfl⟩ :
            QuietStep s { s with tx_queue_ := q, trace := s.trace ++ [Ev.payDelete p] })
          (ih _)

theorem drainRx_step : ∀ (n : Nat) (s : Radio), QuietStep s (radioDeleteQueues.drainRx n s) := by
  intro n
  induction n with
  | zero => intro s; exact quietStep_of_eq rfl rfl
  | succ n ih =>
    intro s
    unfold radioDeleteQueues.drainRx
    split
    · exact quietStep_of_eq rfl rfl
    · split
      · exact quietStep_of_eq rfl rfl
      · next p q _ =>
        exact quietStep_trans
          (⟨[Ev.payDelete p], quiet_offBus _ ⟨by simp, by simp⟩, rfl, rfl⟩ :
            QuietStep s { s with rx_queue_ := q, trace := s.trace ++ [Ev.payDelete p] })
          (ih _)

theorem radioGetRxPayload_step (s : Radio) : QuietStep s (radioGetRxPayload s).2 := by
  unfold radioGetRxPayload
  split
  · exact quietStep_of_eq rfl rfl
  · split
    · exact quietStep_of_eq rfl rfl
    · exact quietStep_of_eq rfl rfl

/-- Every entry into the driver that returns has written no frame, or exactly one frame that
carries the sequence counter and advances it by one. -/
theorem exec_step (K : Deps) (c : Call) (s s' : Radio) (h : Call.exec K c s = some s') :
    QuietStep s s' ∨ FrameStep s s' := by
  cases c with
  | radioSetup tx rx mem_rx mem_tx => exact Or.inl (radioSetup_step K tx rx mem_rx mem_tx s s' h)
  | radioSendPayload pay =>
    simp only [Call.exec, Option.map_eq_some'] at h
    obtain ⟨r, hr, rfl⟩ := h
    exact radioSendPayload_step K pay s r hr
  | radioPutChar c => exact radioPutChar_step K c s s' h
  | radioGetRxPayload =>
    simp only [Call.exec, Option.some.injEq] at h
    subst h
    exact Or.inl (radioGetRxPayload_step s)
  | radioGetChar =>
    simp only [Call.exec, Option.map_eq_some'] at h
    obtain ⟨r, hr, rfl⟩ := h
    exact Or.inl (radioGetChar_step K s r hr)
  | radioDeleteQueues =>
    simp only [Call.exec, Option.some.injEq] at h
    subst h
    exact Or.inl (quietStep_trans (drainTx_step _ s) (drainRx_step _ _))
  | interrupt => exact trxHandleISR_step K s s' h

theorem seqInv_quiet {s s' : Radio} (hi : SeqInv s) (h : QuietStep s s') : SeqInv s' := by
  obtain ⟨txs, hscan, hseq, hsqn⟩ := hi
  obtain ⟨tr, q, ht, hs⟩ := h
  obtain ⟨x, e, hn⟩ := q txs
  refine ⟨txs ++ x, by rw [ht, List.foldl_append, hscan, e], ?_, ?_⟩
  · rw [List.filter_append, filter_noFrame x hn, List.append_nil]
    exact hseq
  · rw [List.filter_append, filter_noFrame x hn, List.append_nil, hs]
    exact hsqn

theorem seqInv_frame {s s' : Radio} (hi : SeqInv s) (h : FrameStep s s') : SeqInv s' := by
  obtain ⟨txs, hscan, hseq, hsqn⟩ := hi
  obtain ⟨pre, frame, resp, p, q, hl, hh, h4, ht, hs⟩ := h
  obtain ⟨x, e, hn⟩ := scan_sendTrace txs pre frame resp p q hl
  have hf : (txs ++ x ++ [frame]).filter (fun t => t.head? = some TRX_CMD_FW)
      = txs.filter (fun t => t.head? = some TRX_CMD_FW) ++ [frame] := by
    simp [List.filter_append, filter_noFrame x hn, hh]
  refine ⟨txs ++ x ++ [frame], by rw [ht, List.foldl_append, hscan, e], ?_, ?_⟩
  · intro k f hk
    rw [hf] at hk
    rcases Nat.lt_or_ge k (txs.filter fun t => t.head? = some TRX_CMD_FW).length with hlt | hge
    · rw [List.getElem?_append_left hlt] at hk
      exact hseq k f hk
    · rw [List.getElem?_append_right hge] at hk
      have hk0 : k = (txs.filter fun t => t.head? = some TRX_CMD_FW).length := by
        by_contra hne
        have : 1 ≤ k - (txs.filter fun t => t.head? = some TRX_CMD_FW).length := by omega
        rw [List.getElem?_eq_none (by simpa using this)] at hk
        simp at hk
      rw [hk0, Nat.sub_self] at hk
      simp only [List.getElem?_cons_zero, Option.some.injEq] at hk
      subst hk
      rw [h4, hsqn, hk0, Nat.mod_mod]
  · rw [hf, hs, hsqn, List.length_append, List.length_singleton]
    omega

theorem run_seqInv (K : Deps) : ∀ (calls : List Call) (s s' : Radio),
    SeqInv s → run K calls s = some s' → SeqInv s' := by
  intro calls
  induction calls with
  | nil =>
    intro s s' hi h
    simp only [run, Option.some.injEq] at h
    subst h
    exact hi
  | cons c cs ih =>
    intro s s' hi h
    simp only [run] at h
    obtain ⟨s1, h1, h⟩ := andThen_eq_some h
    rcases exec_step K c s s1 h1 with hq | hf
    · exact ih s1 s' (seqInv_quiet hi hq) h
    · exact ih s1 s' (seqInv_frame hi hf) h

/-- C8: in every state `s` the driver reaches from program start (sequence counter 0, empty
bus trace) through any sequence of entries (public calls and radio interrupts), the frame
write number `k` counting from 0, that is the `(k+1)`-th frame written, carries the sequence
byte `k % 256`, and the sequence counter equals the number of frames written, modulo 256: so
consecutive frames carry sequence numbers that increase by 1 modulo 256. A send request that
is refused (queue full) or deferred (`BUSY_TX_ARET`) returns, writes no frame and leaves the
sequence counter unchanged. -/
theorem sequence_numbers (K : Deps) (s0 : Radio) (calls : List Call) (s : Radio)
    (h0 : s0.sqn = 0) (ht : s0.trace = []) (hrun : run K calls s0 = some s) :
    (∀ (k : Nat) (frame : List Nat),
      (frameWrites s.trace)[k]? = some frame → frame[4]? = some (k % 256)) ∧
    s.sqn = (frameWrites s.trace).length % 256 ∧
    (∀ p, pqIsFull s.tx_queue_ = true →
      ∃ r, radioSendPayload K p s = some r ∧ r.1 = 0 ∧ r.2.sqn = s.sqn ∧
        frameWrites r.2.trace = frameWrites s.trace) ∧
    (∀ p, pqIsFull s.tx_queue_ = false → s.current_state_ = RadioState.STATE_BUSY_TX_ARET →
      ∃ r, radioSendPayload K p s = some r ∧ r.1 = 1 ∧ r.2.sqn = s.sqn ∧
        frameWrites r.2.trace = frameWrites s.trace) := by
  have hinit : SeqInv s0 := ⟨[], by rw [ht]; rfl, by simp, by simp [h0]⟩
  obtain ⟨txs, hscan, hseq, hsqn⟩ := run_seqInv K calls s0 s hinit hrun
  have hfw : frameWrites s.trace = txs.filter fun t => t.head? = some TRX_CMD_FW := by
    simp only [frameWrites, transactions, hscan]
  refine ⟨by rw [hfw]; exact hseq, by rw [hfw]; exact hsqn, ?_, ?_⟩
  · intro p hfull
    exact ⟨(0, s), by simp [radioSendPayload, hfull], rfl, rfl, rfl⟩
  · intro p hroom hbusy
    exact ⟨_, radioSendPayload_deferred K p s hbusy hroom, rfl, rfl, rfl⟩

/-- Witness for C8: the run `demoCalls` writes two frames, with sequence bytes 0 and 1. -/
theorem sequence_numbers_witness :
    (frameWrites demoFinal.trace).map (fun f => f[4]?) = [some 0, some 1] ∧
    (∀ (k : Nat) (frame : List Nat),
      (frameWrites demoFinal.trace)[k]? = some frame → frame[4]? = some (k % 256)) ∧
    demoFinal.sqn = (frameWrites demoFinal.trace).length % 256 ∧
    (∀ p, pqIsFull demoFinal.tx_queue_ = true →
      ∃ r, radioSendPayload at86rf231 p demoFinal = some r ∧ r.1 = 0 ∧
        r.2.sqn = demoFinal.sqn ∧ frameWrites r.2.trace = frameWrites demoFinal.trace) ∧
    (∀ p, pqIsFull demoFinal.tx_queue_ = false →
      demoFinal.current_state_ = RadioState.STATE_BUSY_TX_ARET →
      ∃ r, radioSendPayload at86rf231 p demoFinal = some r ∧ r.1 = 1 ∧
        r.2.sqn = demoFinal.sqn ∧ frameWrites r.2.trace = frameWrites demoFinal.trace) :=
  ⟨by decide!, sequence_numbers at86rf231 (powerOn demoInput) demoCalls demoFinal rfl rfl rfl⟩

/-- C10: when the CRC-valid bit reads 0, `trxReceivePacket` returns after the single register
read of the CRC status: the trace grows by that register read only (the command byte
`0x80 | addr` and one read), no byte `0x20` is written, no payload is created, and apart from
the chip-select pin (high on return) and the consumed bus input the state is unchanged, so the
inbound queue, the receive staging record and the current state are as before. -/
theorem trxReceivePacket_crc_invalid (K : Deps) (s : Radio) (a v : Nat) (rest : List Nat)
    (hin : s.miso = a :: v :: rest) (hcrc : subRegValue K.SR_RX_CRC_VALID v = 0) :
    trxReceivePacket K s
        = some { s with SPI_CS := 1, miso := rest,
                        trace := s.trace ++ regReadTr K.SR_RX_CRC_VALID.addr a v } ∧
      written (regReadTr K.SR_RX_CRC_VALID.addr a v)
        = [(0x80 ||| K.SR_RX_CRC_VALID.addr) % 256, 0x00] ∧
      TRX_CMD_FR ∉ written (regReadTr K.SR_RX_CRC_VALID.addr a v) ∧
      ∀ p, Ev.payCreate p ∉ regReadTr K.SR_RX_CRC_VALID.addr a v := by
  refine ⟨?_, ?_, ?_, ?_⟩
  · simp [trxReceivePacket, trxReadBit_cons K.SR_RX_CRC_VALID a v rest s hin, hcrc]
  · simp [regReadTr, written, TRX_CMD_RR]
  · have h := rr_ne_fr K.SR_RX_CRC_VALID.addr
    simp only [regReadTr, written, List.mem_cons, List.mem_singleton, not_or]
    refine ⟨fun e => h e.symm, by simp [TRX_CMD_FR], by simp⟩
  · intro p
    simp [regReadTr]

/-- Witness for C10: the status register reads `0x00`, CRC-valid bit clear. -/
theorem trxReceivePacket_crc_invalid_witness :
    trxReceivePacket at86rf231 (listening 2 2 [] [] [0, 0x00, 7])
        = some { listening 2 2 [] [] [0, 0x00, 7] with
            SPI_CS := 1, miso := [7], trace := [] ++ regReadTr 0x06 0 0x00 } ∧
      written (regReadTr 0x06 0 0x00) = [(0x80 ||| 0x06) % 256, 0x00] ∧
      TRX_CMD_FR ∉ written (regReadTr 0x06 0 0x00) ∧
      ∀ p, Ev.payCreate p ∉ regReadTr 0x06 0 0x00 :=
  trxReceivePacket_crc_invalid at86rf231 (listening 2 2 [] [] [0, 0x00, 7]) 0 0x00 [7] rfl
    (by decide)

/-! ### Interrupt dispatcher -/

/-- C19: for every state and every interrupt-status value `v` whose 8-bit value is not the
end-of-frame cause `TRX_IRQ_TRX_END` (values with that bit and other bits set included, the
comparison being an equality), `trxHandleISR` returns after the one read of the
interrupt-status register: the trace grows by that register read only, and the current state,
both queues, both staging records and the sequence counter are unchanged. -/
theorem trxHandleISR_other_cause (K : Deps) (s : Radio) (a v : Nat) (rest : List Nat)
    (hin : s.miso = a :: v :: rest) (hcause : v % 256 ≠ K.TRX_IRQ_TRX_END) :
    trxHandleISR K s = some (afterBus s rest (regReadTr K.RG_IRQ_STATUS a v)) ∧
      transactions (regReadTr K.RG_IRQ_STATUS a v) = [[(0x80 ||| K.RG_IRQ_STATUS) % 256, 0]] ∧
      ∀ s', trxHandleISR K s = some s' →
        s'.current_state_ = s.current_state_ ∧ s'.tx_queue_ = s.tx_queue_ ∧
        s'.rx_queue_ = s.rx_queue_ ∧ s'.mac_rx_packet_ = s.mac_rx_packet_ ∧
        s'.mac_tx_packet_ = s.mac_tx_packet_ ∧ s'.sqn = s.sqn := by
  have h : trxHandleISR K s = some (afterBus s rest (regReadTr K.RG_IRQ_STATUS a v)) := by
    simp [trxHandleISR, trxReadReg_cons K.RG_IRQ_STATUS a v rest s hin, hcause, afterBus]
  refine ⟨h, ?_, ?_⟩
  · simp [transactions, scan_regReadTr, TRX_CMD_RR]
  · intro s' hs'
    rw [h] at hs'
    obtain rfl := Option.some.inj hs'
    exact ⟨rfl, rfl, rfl, rfl, rfl, rfl⟩

/-- Witness for C19: the cause reads `0x0C`, the end-of-frame bit (`0x08`) together with bit 2. -/
theorem trxHandleISR_other_cause_witness :
    trxHandleISR at86rf231 (listening 1 1 [samplePayload] [] [0, 0x0C, 7])
        = some (afterBus (listening 1 1 [samplePayload] [] [0, 0x0C, 7]) [7]
            (regReadTr 0x0F 0 0x0C)) ∧
      transactions (regReadTr 0x0F 0 0x0C) = [[(0x80 ||| 0x0F) % 256, 0]] ∧
      ∀ s', trxHandleISR at86rf231 (listening 1 1 [samplePayload] [] [0, 0x0C, 7]) = some s' →
        s'.current_state_ = RadioState.STATE_RX_AACK_ON ∧
        s'.tx_queue_ = { capacity := 1, items := [samplePayload] } ∧
        s'.rx_queue_ = { capacity := 1, items := [] } ∧
        s'.mac_rx_packet_ = trxCreateMacPacket zeroMem ∧
        s'.mac_tx_packet_ = trxCreateMacPacket zeroMem ∧ s'.sqn = 0 :=
  trxHandleISR_other_cause at86rf231 (listening 1 1 [samplePayload] [] [0, 0x0C, 7]) 0 0x0C [7]
    rfl (by decide)

/-- C17: in every state whose current state is not `RX_AACK_ON` and whose outbound queue is
empty, an interrupt whose cause reads end-of-frame makes `trxHandleISR` read the transmit
status, write `PLL_ON` and then `RX_AACK_ON` to the state register and return with the current
state `RX_AACK_ON`; the call makes no frame-write transaction, deletes no payload and leaves
both queues as they were. -/
theorem trxHandleISR_tx_done_idle (K : Deps) (s : Radio) (a v a2 v2 a3 b3 a4 b4 : Nat)
    (rest : List Nat)
    (hst : s.current_state_ ≠ RadioState.STATE_RX_AACK_ON)
    (hq : pqIsEmpty s.tx_queue_ = true)
    (hcause : v % 256 = K.TRX_IRQ_TRX_END)
    (hin : s.miso = a :: v :: a2 :: v2 :: a3 :: b3 :: a4 :: b4 :: rest) :
    trxHandleISR K s
        = some { afterBus s rest (isrIdleTr K a v a2 v2 a3 b3 a4 b4) with
            current_state_ := RadioState.STATE_RX_AACK_ON } ∧
      transactions (isrIdleTr K a v a2 v2 a3 b3 a4 b4)
        = [[(0x80 ||| K.RG_IRQ_STATUS) % 256, 0], [(0x80 ||| K.SR_TRAC_STATUS.addr) % 256, 0],
            [(0xC0 ||| K.RG_TRX_STATE) % 256, K.CMD_PLL_ON % 256],
            [(0xC0 ||| K.RG_TRX_STATE) % 256, K.CMD_RX_AACK_ON % 256]] ∧
      frameWrites (isrIdleTr K a v a2 v2 a3 b3 a4 b4) = [] ∧
      ∀ p, Ev.payDelete p ∉ isrIdleTr K a v a2 v2 a3 b3 a4 b4 := by
  have htx : transactions (isrIdleTr K a v a2 v2 a3 b3 a4 b4)
        = [[(0x80 ||| K.RG_IRQ_STATUS) % 256, 0], [(0x80 ||| K.SR_TRAC_STATUS.addr) % 256, 0],
            [(0xC0 ||| K.RG_TRX_STATE) % 256, K.CMD_PLL_ON % 256],
            [(0xC0 ||| K.RG_TRX_STATE) % 256, K.CMD_RX_AACK_ON % 256]] := by
    simp [transactions, isrIdleTr, List.foldl_append, scan_regReadTr, scan_regWriteTr, TRX_CMD_RR,
      TRX_CMD_RW]
  refine ⟨?_, htx, ?_, ?_⟩
  · unfold trxHandleISR
    rw [trxReadReg_cons K.RG_IRQ_STATUS a v _ s hin]
    simp only [andThen_some, if_pos hcause, if_neg hst]
    rw [trxReadBit_cons K.SR_TRAC_STATUS a2 v2 (a3 :: b3 :: a4 :: b4 :: rest) _ rfl]
    simp only [andThen_some, hq, if_true]
    rw [trxWriteReg_cons K.RG_TRX_STATE K.CMD_PLL_ON a3 b3 (a4 :: b4 :: rest) _ rfl]
    simp only [andThen_some]
    rw [trxWriteReg_cons K.RG_TRX_STATE K.CMD_RX_AACK_ON a4 b4 rest _ rfl]
    simp [afterBus, isrIdleTr]
  · unfold frameWrites
    rw [htx]
    have h1 := rr_ne_fw K.RG_IRQ_STATUS
    have h2 := rr_ne_fw K.SR_TRAC_STATUS.addr
    have h3 := rw_ne_fw K.RG_TRX_STATE
    simp only [TRX_CMD_RR, TRX_CMD_RW] at h1 h2 h3
    simp [List.filter, h1, h2, h3]
  · intro p
    simp [isrIdleTr, regReadTr, regWriteTr]

/-- Witness for C17: a transfer in flight, nothing queued, cause `0x08`. -/
theorem trxHandleISR_tx_done_idle_witness :
    trxHandleISR at86rf231 (transmitting [] [0, 8, 0, 0, 0, 0, 0, 0, 7])
        = some { afterBus (transmitting [] [0, 8, 0, 0, 0, 0, 0, 0, 7]) [7]
              (isrIdleTr at86rf231 0 8 0 0 0 0 0 0) with
            current_state_ := RadioState.STATE_RX_AACK_ON } ∧
      transactions (isrIdleTr at86rf231 0 8 0 0 0 0 0 0)
        = [[(0x80 ||| 0x0F) % 256, 0], [(0x80 ||| 0x02) % 256, 0],
            [(0xC0 ||| 0x02) % 256, 9 % 256], [(0xC0 ||| 0x02) % 256, 22 % 256]] ∧
      frameWrites (isrIdleTr at86rf231 0 8 0 0 0 0 0 0) = [] ∧
      ∀ p, Ev.payDelete p ∉ isrIdleTr at86rf231 0 8 0 0 0 0 0 0 :=
  trxHandleISR_tx_done_idle at86rf231 (transmitting [] [0, 8, 0, 0, 0, 0, 0, 0, 7])
    0 8 0 0 0 0 0 0 [7] (by decide) (by decide) (by decide) rfl

/-- The command byte of a register read of an address below `0x40` has bit 6 clear, that of a
register write has it set: the two differ. -/
theorem rr_ne_rw (addr reg : Nat) (h : addr < 0x40) :
    (TRX_CMD_RR ||| addr) % 256 ≠ (TRX_CMD_RW ||| reg) % 256 := by
  intro e
  have h2 := congrArg (fun x => Nat.testBit x 6) e
  have e0 : (256 : Nat) = 2 ^ 8 := by norm_num
  have e1 : Nat.testBit 128 6 = false := by decide
  have e2 : Nat.testBit 192 6 = true := by decide
  have e3 : Nat.testBit addr 6 = false := Nat.testBit_lt_two_pow (by simpa using h)
  simp only [TRX_CMD_RR, TRX_CMD_RW, e0, Nat.testBit_mod_two_pow, Nat.testBit_or, e1, e2, e3] at h2
  simp at h2

theorem fw_ne_rw (reg : Nat) : TRX_CMD_FW ≠ (TRX_CMD_RW ||| reg) % 256 :=
  fun e => rw_ne_fw reg e.symm

/-- C18: in every state with current state `BUSY_TX_ARET` and a queued payload, an end-of-frame
interrupt for which the transceiver status reads `TX_ARET_ON` makes `trxHandleISR` pop the
oldest payload `pld` and write it in one frame-write transaction; the call returns with the
current state `BUSY_TX_ARET` and the outbound queue one element shorter. Its transactions are
three register reads (interrupt cause, transmit status, transceiver status) and the frame: none
is a register write, so `PLL_ON` is not written to the state register. -/
theorem trxHandleISR_tx_done_next (K : Deps) (s : Radio) (pld : Payload) (items : List Payload)
    (a v a2 v2 a3 v3 : Nat) (resp rest : List Nat)
    (hst : s.current_state_ = RadioState.STATE_BUSY_TX_ARET)
    (hq : s.tx_queue_.items = pld :: items)
    (hcause : v % 256 = K.TRX_IRQ_TRX_END)
    (hstatus : subRegValue K.SR_TRX_STATUS v3 = K.CMD_TX_ARET_ON)
    (hresp : resp.length = 11 + payGetPayloadLength pld % 256)
    (hin : s.miso = a :: v :: a2 :: v2 :: a3 :: v3 :: (resp ++ rest)) :
    ∃ s', trxHandleISR K s = some s' ∧
      s'.current_state_ = RadioState.STATE_BUSY_TX_ARET ∧
      s'.tx_queue_ = { s.tx_queue_ with items := items } ∧
      s'.tx_queue_.items.length + 1 = s.tx_queue_.items.length ∧
      s'.miso = rest ∧
      s'.trace = s.trace ++ isrNextTr K s.mac_tx_packet_ s.sqn pld a v a2 v2 a3 v3 resp ∧
      transactions (isrNextTr K s.mac_tx_packet_ s.sqn pld a v a2 v2 a3 v3 resp)
        = [[(0x80 ||| K.RG_IRQ_STATUS) % 256, 0], [(0x80 ||| K.SR_TRAC_STATUS.addr) % 256, 0],
            [(0x80 ||| K.SR_TRX_STATUS.addr) % 256, 0], txFrame s.mac_tx_packet_ s.sqn pld] ∧
      frameWrites (isrNextTr K s.mac_tx_packet_ s.sqn pld a v a2 v2 a3 v3 resp)
        = [txFrame s.mac_tx_packet_ s.sqn pld] ∧
      (txFrame s.mac_tx_packet_ s.sqn pld).drop 11
        = payYield (payGetPayloadLength pld % 256) (payInitIterator pld) ∧
      (K.RG_IRQ_STATUS < 0x40 → K.SR_TRAC_STATUS.addr < 0x40 → K.SR_TRX_STATUS.addr < 0x40 →
        ∀ t ∈ transactions (isrNextTr K s.mac_tx_packet_ s.sqn pld a v a2 v2 a3 v3 resp),
          t.head? ≠ some ((0xC0 ||| K.RG_TRX_STATE) % 256)) := by
  have hlen : (txFrame s.mac_tx_packet_ s.sqn pld).length = resp.length := by
    rw [txFrame_length, hresp]
  have htx : transactions (isrNextTr K s.mac_tx_packet_ s.sqn pld a v a2 v2 a3 v3 resp)
        = [[(0x80 ||| K.RG_IRQ_STATUS) % 256, 0], [(0x80 ||| K.SR_TRAC_STATUS.addr) % 256, 0],
            [(0x80 ||| K.SR_TRX_STATUS.addr) % 256, 0], txFrame s.mac_tx_packet_ s.sqn pld] := by
    simp only [transactions, isrNextTr, List.foldl_append, scan_regReadTr, List.nil_append,
      List.foldl_cons, List.foldl_nil, Scan.step]
    rw [scan_xfers _ _ resp [] hlen]
    simp [Scan.step, TRX_CMD_RR]
  have hsend := trxSendPacket_spec K
    { afterBus (afterBus s (a2 :: v2 :: a3 :: v3 :: (resp ++ rest))
        (regReadTr K.RG_IRQ_STATUS a v)) (a3 :: v3 :: (resp ++ rest))
        (regReadTr K.SR_TRAC_STATUS.addr a2 v2) with
      current_state_ := RadioState.STATE_TX_ARET_ON }
    pld items [] a3 v3 [] resp rest (by simp) hq (by simp) (Or.inl ⟨hstatus, rfl⟩) hresp rfl
  have hne : s.current_state_ ≠ RadioState.STATE_RX_AACK_ON := by rw [hst]; decide
  have hnonempty : pqIsEmpty s.tx_queue_ = false := by simp [pqIsEmpty, hq]
  have hrun : trxHandleISR K s = trxSendPacket K
      { afterBus (afterBus s (a2 :: v2 :: a3 :: v3 :: (resp ++ rest))
          (regReadTr K.RG_IRQ_STATUS a v)) (a3 :: v3 :: (resp ++ rest))
          (regReadTr K.SR_TRAC_STATUS.addr a2 v2) with
        current_state_ := RadioState.STATE_TX_ARET_ON } := by
    unfold trxHandleISR
    rw [trxReadReg_cons K.RG_IRQ_STATUS a v _ s hin]
    simp only [andThen_some, if_pos hcause, if_neg hne]
    rw [trxReadBit_cons K.SR_TRAC_STATUS a2 v2 (a3 :: v3 :: (resp ++ rest)) _ rfl]
    simp only [andThen_some, hnonempty, Bool.false_eq_true, if_false]
    rfl
  refine ⟨_, hrun.trans hsend, rfl, rfl, ?_, rfl, ?_, htx, ?_, ?_, ?_⟩
  · simp [hq]
  · simp [afterBus, isrNextTr, pollTr, armTr]
  · unfold frameWrites
    rw [htx]
    have h1 := rr_ne_fw K.RG_IRQ_STATUS
    have h2 := rr_ne_fw K.SR_TRAC_STATUS.addr
    have h3 := rr_ne_fw K.SR_TRX_STATUS.addr
    have h4 : (txFrame s.mac_tx_packet_ s.sqn pld).head? = some TRX_CMD_FW := by simp [txFrame]
    simp only [TRX_CMD_RR] at h1 h2 h3
    simp [List.filter, h1, h2, h3, h4]
  · simp [txFrame]
  · intro b1 b2 b3 t ht
    rw [htx] at ht
    have h1 := rr_ne_rw K.RG_IRQ_STATUS K.RG_TRX_STATE b1
    have h2 := rr_ne_rw K.SR_TRAC_STATUS.addr K.RG_TRX_STATE b2
    have h3 := rr_ne_rw K.SR_TRX_STATUS.addr K.RG_TRX_STATE b3
    have h4 := fw_ne_rw K.RG_TRX_STATE
    simp only [TRX_CMD_RR, TRX_CMD_RW, TRX_CMD_FW] at h1 h2 h3 h4
    simp only [List.mem_cons, List.mem_singleton, List.not_mem_nil, or_false] at ht
    rcases ht with rfl | rfl | rfl | rfl
    · simpa using h1
    · simpa using h2
    · simpa using h3
    · simpa [txFrame, TRX_CMD_FW] using h4

/-- Witness for C18: two payloads queued, cause `0x08`, status `TX_ARET_ON` (25). -/
theorem trxHandleISR_tx_done_next_witness :
    ∃ s', trxHandleISR at86rf231
          (transmitting [samplePayload, samplePayload] ([0, 8, 0, 0, 0, 25] ++
            (List.replicate 15 0 ++ [7]))) = some s' ∧
      s'.current_state_ = RadioState.STATE_BUSY_TX_ARET ∧
      s'.tx_queue_ = { capacity := 2, items := [samplePayload] } ∧
      s'.tx_queue_.items.length + 1 = [samplePayload, samplePayload].length ∧
      s'.miso = [7] ∧
      s'.trace = [] ++ isrNextTr at86rf231 (trxCreateMacPacket zeroMem) 0 samplePayload
        0 8 0 0 0 25 (List.replicate 15 0) ∧
      transactions (isrNextTr at86rf231 (trxCreateMacPacket zeroMem) 0 samplePayload
          0 8 0 0 0 25 (List.replicate 15 0))
        = [[(0x80 ||| 0x0F) % 256, 0], [(0x80 ||| 0x02) % 256, 0],
            [(0x80 ||| 0x01) % 256, 0], txFrame (trxCreateMacPacket zeroMem) 0 samplePayload] ∧
      frameWrites (isrNextTr at86rf231 (trxCreateMacPacket zeroMem) 0 samplePayload
          0 8 0 0 0 25 (List.replicate 15 0))
        = [txFrame (trxCreateMacPacket zeroMem) 0 samplePayload] ∧
      (txFrame (trxCreateMacPacket zeroMem) 0 samplePayload).drop 11
        = payYield (payGetPayloadLength samplePayload % 256) (payInitIterator samplePayload) ∧
      ((0x0F : Nat) < 0x40 → (0x02 : Nat) < 0x40 → (0x01 : Nat) < 0x40 →
        ∀ t ∈ transactions (isrNextTr at86rf231 (trxCreateMacPacket zeroMem) 0 samplePayload
            0 8 0 0 0 25 (List.replicate 15 0)),
          t.head? ≠ some ((0xC0 ||| 0x02) % 256)) :=
  trxHandleISR_tx_done_next at86rf231
    (transmitting [samplePayload, samplePayload] ([0, 8, 0, 0, 0, 25] ++
      (List.replicate 15 0 ++ [7])))
    samplePayload [samplePayload] 0 8 0 0 0 25 (List.replicate 15 0) [7] rfl rfl (by decide)
    (by decide) rfl rfl

/-! ### Byte-stream adapter -/

/-- C14: when the payload popped last has been read out, or none was ever popped
(`data_length = data_loc`), and the inbound queue is empty, `radioGetChar` returns 0 at once,
stores no byte and leaves the whole state as it was: no payload is deleted and the read
offset is unchanged. Any number of repeated calls return 0 each and change nothing. -/
theorem radioGetChar_empty (K : Deps) (s : Radio) (hdone : s.data_length = s.data_loc)
    (hq : pqIsEmpty s.rx_queue_ = true) :
    radioGetChar K s = some (0, none, s) ∧
      ∀ n, radioGetChar.times K n s = some (List.replicate n (0, none), s) := by
  have h : radioGetChar K s = some (0, none, s) := by simp [radioGetChar, hdone, hq]
  refine ⟨h, ?_⟩
  intro n
  induction n with
  | zero => rfl
  | succ n ih => simp [radioGetChar.times, h, ih, List.replicate_succ]

/-- Witness for C14: the state after set-up, nothing received yet. -/
theorem radioGetChar_empty_witness :
    radioGetChar at86rf231 (listening 1 1 [] [] []) = some (0, none, listening 1 1 [] [] []) ∧
      ∀ n, radioGetChar.times at86rf231 n (listening 1 1 [] [] [])
        = some (List.replicate n (0, none), listening 1 1 [] [] []) :=
  radioGetChar_empty at86rf231 (listening 1 1 [] [] []) rfl (by decide)

/-- One read of `radioGetChar` inside a payload: at offset `j` below the data length it
returns 1, stores byte `j` of the data and advances the offset; the payload is deleted when
the new offset equals the data length, and only then. -/
theorem radioGetChar_read_at (K : Deps) (t : Radio) (p : Payload) (j : Nat) (b : Nat)
    (hp : t.pld = some p) (hloc : t.data_loc = j) (hb : p.data[j]? = some b) :
    radioGetChar.read K t
      = some (1, some (b % 256),
          { t with data_loc := j + 1,
                   trace := t.trace ++ if t.data_length = j + 1 then [Ev.payDelete p] else [] }) := by
  unfold radioGetChar.read
  rw [hp]
  simp only [andThen_some, payReadByte, hloc, List.get?_eq_getElem?, hb]
  split <;> simp

/-- Successive calls of `radioGetChar` inside a payload: from the offset `pre.length`, one call
per byte of `bs` returns 1 and stores that byte; the payload is deleted in the call that reads
its last byte, and in no other. -/
theorem radioGetChar_times_inside (K : Deps) (p : Payload) (post : List Nat) :
    ∀ (bs pre : List Nat) (t : Radio), bs ≠ [] → p.data = pre ++ bs ++ post →
      t.pld = some p → t.data_length = p.data.length → t.data_loc = pre.length →
      radioGetChar.times K bs.length t
        = some (bs.map (fun b => (1, some (b % 256))),
            { t with data_loc := pre.length + bs.length,
                     trace := t.trace ++ if post = [] then [Ev.payDelete p] else [] }) := by
  intro bs
  induction bs with
  | nil => intro pre t h; exact absurd rfl h
  | cons b bs ih =>
    intro pre t _ hd hp hlen hloc
    have hb : p.data[pre.length]? = some b := by
      rw [hd, List.append_assoc, List.getElem?_append_right (Nat.le_refl _)]
      simp
    have hne : t.data_length ≠ t.data_loc := by
      rw [hlen, hloc, hd]; simp
    have hcall : radioGetChar K t = radioGetChar.read K t := by
      unfold radioGetChar; rw [if_neg hne]
    simp only [List.length_cons, radioGetChar.times, hcall,
      radioGetChar_read_at K t p pre.length b hp hloc hb, andThen_some]
    cases bs with
    | nil =>
      have hiff : t.data_length = pre.length + 1 ↔ post = [] := by
        rw [hlen, hd]
        simp only [List.length_append, List.length_cons, List.length_nil]
        constructor
        · intro h; exact List.length_eq_zero.mp (by omega)
        · intro h; simp [h]
      simp only [radioGetChar.times, andThen_some, List.length_nil, List.map_cons, List.map_nil,
        Nat.add_zero, hiff]
    | cons b2 bs2 =>
      have hnot : ¬ (t.data_length = pre.length + 1) := by
        rw [hlen, hd]; simp
      rw [if_neg hnot]
      have h := ih (pre ++ [b]) { t with data_loc := pre.length + 1, trace := t.trace ++ [] }
        (by simp) (by rw [hd]; simp) hp hlen (by simp)
      rw [h]
      simp [Nat.add_assoc, Nat.add_comm 1]

/-- Successive calls of `radioGetChar` that start with every earlier payload read out and a
payload `p` with at least one data byte at the head of the inbound queue: the first call pops
`p`; one call per byte of the prefix `bs` of its data returns 1 and stores that byte, read at
the offsets 0, 1, ...; `p` is deleted in the call that reads its last byte (when `bs` is all
of the data), and not before. -/
theorem radioGetChar_times_payload (K : Deps) (s : Radio) (p : Payload) (items : List Payload)
    (bs post : List Nat) (hbs : bs ≠ []) (hd : p.data = bs ++ post)
    (hdone : s.data_length = s.data_loc) (hq : s.rx_queue_.items = p :: items) :
    radioGetChar.times K bs.length s
      = some (bs.map (fun b => (1, some (b % 256))),
          { s with rx_queue_ := { s.rx_queue_ with items := items },
                   pld := some p, data_length := p.data.length, data_loc := bs.length,
                   trace := s.trace ++ if post = [] then [Ev.payDelete p] else [] }) := by
  have hne : pqIsEmpty s.rx_queue_ = false := by simp [pqIsEmpty, hq]
  have hlen : p.data.length = bs.length + post.length := by rw [hd]; simp
  have h := radioGetChar_times_inside K p post bs []
    { s with rx_queue_ := { s.rx_queue_ with items := items },
             pld := some p, data_length := p.data.length, data_loc := 0 }
    hbs (by simpa using hd) rfl rfl rfl
  obtain ⟨b, bs2, rfl⟩ : ∃ b bs2, bs = b :: bs2 := by
    cases bs with
    | nil => exact absurd rfl hbs
    | cons b bs2 => exact ⟨b, bs2, rfl⟩
  simp only [List.length_cons, radioGetChar.times] at h ⊢
  have hcall : radioGetChar K s = radioGetChar K
      { s with rx_queue_ := { s.rx_queue_ with items := items },
               pld := some p, data_length := p.data.length, data_loc := 0 } := by
    have hne2 : ¬ (p.data.length = 0) := by rw [hlen]; simp
    conv => lhs; unfold radioGetChar
    conv => rhs; unfold radioGetChar
    simp only [if_pos hdone, hne, Bool.false_eq_true, if_false, pqPop, hq, andThen_some,
      payGetDataLength, if_neg hne2]
  rw [hcall, h]
  simp

/-! ### Source PAN ID on receive -/

/-- C20: for a CRC-valid frame, `trxReceivePacket` reads the two source-PAN-ID bytes `span`
after the destination address and before the source address, and stores them in the receive
staging record, when bit 6 of the frame-control low byte `fl` is clear; when the bit is set it
reads none and leaves the stored source PAN ID as it was. With a length byte `13 ≤ L ≤ 255`
the frame-read transaction reads `L` bytes plus the source-PAN-ID bytes, `L + 2` when the bit
is clear, and the payload pushed has the `L - 13` data bytes that follow status and type. -/
theorem trxReceivePacket_srcPAN (K : Deps) (s : Radio)
    (a v y L fl fh seq dpl dph dal dah sal sah st ty lqi : Nat) (span data rest : List Nat)
    (hcrc : subRegValue K.SR_RX_CRC_VALID v ≠ 0)
    (hspan : span.length = if panIDCompBit fl = 0 then 2 else 0)
    (hdata : data.length = rxPayloadLength L - 2)
    (hin : s.miso = a :: v :: y :: L :: fl :: fh :: seq :: dpl :: dph :: dal :: dah ::
      (span ++ sal :: sah :: st :: ty :: (data ++ lqi :: rest))) :
    ∃ s', trxReceivePacket K s = some s' ∧ s'.miso = rest ∧
      received (s'.trace.drop s.trace.length)
        = a :: v :: y :: L :: fl :: fh :: seq :: dpl :: dph :: dal :: dah ::
            (span ++ sal :: sah :: st :: ty :: (data ++ [lqi])) ∧
      frameReads (s'.trace.drop s.trace.length)
        = [0x20 :: List.replicate (13 + span.length + data.length) 0] ∧
      s'.mac_rx_packet_.destAddr = word dal dah ∧
      s'.mac_rx_packet_.srcAddr = word sal sah ∧
      (panIDCompBit fl = 0 →
        ∃ lo hi, span = [lo, hi] ∧ s'.mac_rx_packet_.srcPANID = word lo hi) ∧
      (panIDCompBit fl ≠ 0 →
        span = [] ∧ s'.mac_rx_packet_.srcPANID = s.mac_rx_packet_.srcPANID) ∧
      (13 ≤ L → L ≤ 255 →
        data.length = L - 13 ∧
        13 + span.length + data.length = L + span.length ∧
        (panIDCompBit fl = 0 → 13 + span.length + data.length = L + 2) ∧
        s'.rx_queue_ = pqPush K s.rx_queue_
          { status := st % 256, type := ty % 256, data := data.map (· % 256), iter := 0 }) := by
  have hspec := trxReceivePacket_spec K s a v y L fl fh seq dpl dph dal dah sal sah st ty lqi
    span data rest hcrc hspan hdata hin
  refine ⟨_, hspec, rfl, ?_, ?_, rfl, rfl, ?_, ?_, ?_⟩
  · simp [List.drop_left, received_append, received_reads, regReadTr, received]
  · have h1 := rr_ne_fr K.SR_RX_CRC_VALID.addr
    simp only [TRX_CMD_RR, TRX_CMD_FR] at h1
    simp only [List.drop_left, frameReads, transactions, List.foldl_append, scan_regReadTr,
      List.nil_append, List.foldl_cons, List.foldl_nil, Scan.step, scan_reads]
    simp [TRX_CMD_RR, TRX_CMD_FR, h1, List.filter]
    omega
  · intro hb
    rw [if_pos hb] at hspan
    obtain ⟨lo, hi, rfl⟩ : ∃ lo hi, span = [lo, hi] := by
      match span, hspan with
      | [lo, hi], _ => exact ⟨lo, hi, rfl⟩
    exact ⟨lo, hi, rfl, rfl⟩
  · intro hb
    rw [if_neg hb] at hspan
    have : span = [] := List.length_eq_zero.mp hspan
    subst this
    exact ⟨rfl, rfl⟩
  · intro h13 h255
    have hn : rxPayloadLength L = L - 11 := by
      simp only [rxPayloadLength, MAC_HEADER_LENGTH, CRC_LENGTH]; omega
    have hd : data.length = L - 13 := by rw [hdata, hn]; omega
    refine ⟨hd, by omega, ?_, ?_⟩
    · intro hb
      rw [if_pos hb] at hspan
      omega
    · have hpld := rxPayload_eq L st ty data (by rw [hn]; omega) hdata
      simp [hpld]

/-- Witness for C20: frame-control low byte `0x21` (bit 6 clear), source PAN ID `0x1234`,
length byte 15 and two data bytes: 17 bytes are read. -/
theorem trxReceivePacket_srcPAN_witness :
    ∃ s', trxReceivePacket at86rf231 (listening 2 2 [] []
        [0, 0x80, 0, 15, 0x21, 0x98, 5, 0x20, 0x20, 0x21, 0x20, 0x34, 0x12, 0x22, 0x20, 1, 2,
          0xAA, 0xBB, 0xFF]) = some s' ∧ s'.miso = [] ∧
      received (s'.trace.drop 0)
        = 0 :: 0x80 :: 0 :: 15 :: 0x21 :: 0x98 :: 5 :: 0x20 :: 0x20 :: 0x21 :: 0x20 ::
            ([0x34, 0x12] ++ 0x22 :: 0x20 :: 1 :: 2 :: ([0xAA, 0xBB] ++ [0xFF])) ∧
      frameReads (s'.trace.drop 0) = [0x20 :: List.replicate (13 + 2 + 2) 0] ∧
      s'.mac_rx_packet_.destAddr = word 0x21 0x20 ∧
      s'.mac_rx_packet_.srcAddr = word 0x22 0x20 ∧
      (panIDCompBit 0x21 = 0 →
        ∃ lo hi, [0x34, 0x12] = [lo, hi] ∧ s'.mac_rx_packet_.srcPANID = word lo hi) ∧
      (panIDCompBit 0x21 ≠ 0 →
        [0x34, 0x12] = ([] : List Nat) ∧
          s'.mac_rx_packet_.srcPANID = (trxCreateMacPacket zeroMem).srcPANID) ∧
      (13 ≤ 15 → 15 ≤ 255 →
        [0xAA, 0xBB].length = 15 - 13 ∧
        13 + 2 + 2 = 15 + 2 ∧
        (panIDCompBit 0x21 = 0 → 13 + 2 + 2 = 15 + 2) ∧
        s'.rx_queue_ = pqPush at86rf231 { capacity := 2, items := [] }
          { status := 1, type := 2, data := [0xAA, 0xBB], iter := 0 }) :=
  trxReceivePacket_srcPAN at86rf231 (listening 2 2 [] []
      [0, 0x80, 0, 15, 0x21, 0x98, 5, 0x20, 0x20, 0x21, 0x20, 0x34, 0x12, 0x22, 0x20, 1, 2,
        0xAA, 0xBB, 0xFF])
    0 0x80 0 15 0x21 0x98 5 0x20 0x20 0x21 0x20 0x22 0x20 1 2 0xFF [0x34, 0x12] [0xAA, 0xBB] []
    (by decide) (by decide) (by decide) rfl

/-! ### State sequence of a send request -/

/-- The frame part of `trxSendPacket` is its staging statements followed by the strobe and the
frame write. -/
theorem frame_eq_stage_write (s : Radio) :
    trxSendPacket.frame s = andThen (trxSendPacket.stage s) trxSendPacket.write := by
  unfold trxSendPacket.frame trxSendPacket.stage
  cases pqPop s.tx_queue_ with
  | none => rfl
  | some x => rfl

/-- A send request that is accepted outside `BUSY_TX_ARET` is the push, the busy-wait, the
staging statements and the frame write, in this order. -/
theorem radioSendPayload_steps (K : Deps) (p : Payload) (s : Radio)
    (hroom : pqIsFull s.tx_queue_ = false)
    (hst : s.current_state_ ≠ RadioState.STATE_BUSY_TX_ARET) :
    radioSendPayload K p s
      = andThen (trxSendPacket.poll K s.miso.length { s with tx_queue_ := pqPush K s.tx_queue_ p })
          fun s => andThen (trxSendPacket.stage s)
          fun s => andThen (trxSendPacket.write s)
          fun s => some (1, s) := by
  unfold radioSendPayload trxSendPacket
  simp only [hroom, Bool.false_eq_true, if_false, if_neg hst]
  cases trxSendPacket.poll K s.miso.length { s with tx_queue_ := pqPush K s.tx_queue_ p } with
  | none => rfl
  | some s1 =>
    simp only [andThen_some, frame_eq_stage_write]
    cases trxSendPacket.stage s1 with
    | none => rfl
    | some s2 => rfl

/-- C16: `radioSetup` returns with the current state `RX_AACK_ON`, and one `radioSendPayload`
from that state, the transceiver status reading `RX_AACK_ON` at the first poll, is made of
these steps in this order: the busy-wait, which reads the status and writes `PLL_ON` and then
`TX_ARET_ON` to the state register, the current state still being `RX_AACK_ON` (state `S2`);
the staging statements, which set the current state to `BUSY_TX_ARET` and add nothing to the
trace (state `S3`); and only then the `SLP_TR` strobe and the frame-write transaction (state
`S4`). The call returns 1 with the current state `BUSY_TX_ARET` and the outbound queue empty.
The outbound queue has capacity `N ≥ 1`, so that the request is accepted. -/
theorem send_after_setup (K : Deps) (s0 : Radio) (N rx : Nat) (mem_rx mem_tx : MacPacketStruct)
    (p : Payload) (setupIn : List Nat) (a v a1 b1 a2 b2 : Nat) (resp rest : List Nat)
    (hN : 1 ≤ N) (hsetup : setupIn.length = 36)
    (hstatus : subRegValue K.SR_TRX_STATUS v = K.CMD_RX_AACK_ON)
    (hnot : subRegValue K.SR_TRX_STATUS v ≠ K.CMD_TX_ARET_ON)
    (hresp : resp.length = 11 + payGetPayloadLength p % 256)
    (hin : s0.miso = setupIn ++ a :: v :: a1 :: b1 :: a2 :: b2 :: (resp ++ rest)) :
    ∃ S1 S2 S3 S4 : Radio,
      radioSetup K N rx mem_rx mem_tx s0 = some S1 ∧
      S1.current_state_ = RadioState.STATE_RX_AACK_ON ∧
      radioSendPayload K p S1
        = (andThen
            (trxSendPacket.poll K S1.miso.length { S1 with tx_queue_ := pqPush K S1.tx_queue_ p })
            fun s => andThen (trxSendPacket.stage s)
            fun s => andThen (trxSendPacket.write s)
            fun s => some (1, s)) ∧
      trxSendPacket.poll K S1.miso.length { S1 with tx_queue_ := pqPush K S1.tx_queue_ p }
        = some S2 ∧
      S2.trace = S1.trace ++ (regReadTr K.SR_TRX_STATUS.addr a v ++
        regWriteTr K.RG_TRX_STATE K.CMD_PLL_ON a1 b1 ++
        regWriteTr K.RG_TRX_STATE K.CMD_TX_ARET_ON a2 b2) ∧
      S2.current_state_ = RadioState.STATE_RX_AACK_ON ∧
      trxSendPacket.stage S2 = some S3 ∧
      S3.current_state_ = RadioState.STATE_BUSY_TX_ARET ∧ S3.trace = S2.trace ∧
      trxSendPacket.write S3 = some S4 ∧
      S4.trace = S3.trace ++ ([Ev.slptr 1, Ev.slptr 0, Ev.cs 0] ++
        List.zipWith Ev.xfer (txFrame (trxCreateMacPacket mem_tx) s0.sqn p) resp ++
        [Ev.cs 1, Ev.payDelete { p with iter := payGetPayloadLength p % 256 }]) ∧
      radioSendPayload K p S1 = some (1, S4) ∧
      S4.current_state_ = RadioState.STATE_BUSY_TX_ARET ∧
      S4.tx_queue_ = { capacity := N, items := [] } ∧
      S4.miso = rest ∧
      transactions (S4.trace.drop S1.trace.length)
        = [[(0x80 ||| K.SR_TRX_STATUS.addr) % 256, 0],
            [(0xC0 ||| K.RG_TRX_STATE) % 256, K.CMD_PLL_ON % 256],
            [(0xC0 ||| K.RG_TRX_STATE) % 256, K.CMD_TX_ARET_ON % 256],
            txFrame (trxCreateMacPacket mem_tx) s0.sqn p] := by
  obtain ⟨S1, e1, hst1, hq1, hm1, hsqn1, hmac1⟩ : ∃ S1,
      radioSetup K N rx mem_rx mem_tx s0 = some S1 ∧
      S1.current_state_ = RadioState.STATE_RX_AACK_ON ∧ S1.tx_queue_ = pqInit N ∧
      S1.miso = a :: v :: ([a1, b1, a2, b2] ++ (resp ++ rest)) ∧ S1.sqn = s0.sqn ∧
      S1.mac_tx_packet_ = trxCreateMacPacket mem_tx := by
    obtain ⟨tr, _, e⟩ := radioSetup_spec K N rx mem_rx mem_tx s0 (by rw [hin]; simp; omega)
    refine ⟨_, e, rfl, rfl, ?_, rfl, rfl⟩
    show s0.miso.drop 36 = _
    rw [hin]; exact List.drop_left' hsetup
  have hroom : pqIsFull S1.tx_queue_ = false := by
    rw [hq1]
    simp only [pqIsFull, pqInit, decide_eq_false_iff_not, List.length_nil]; omega
  have hpush : pqPush K S1.tx_queue_ p = { capacity := N, items := [p] } := by
    simp only [pqPush, hroom]; rw [hq1]; rfl
  have hbusy : S1.current_state_ ≠ RadioState.STATE_BUSY_TX_ARET := by rw [hst1]; decide
  have hsteps := radioSendPayload_steps K p S1 hroom hbusy
  obtain ⟨S2, e2, ht2, hst2, hq2, hm2, hsqn2, hmac2⟩ : ∃ S2,
      trxSendPacket.poll K S1.miso.length { S1 with tx_queue_ := pqPush K S1.tx_queue_ p }
        = some S2 ∧
      S2.trace = S1.trace ++ (regReadTr K.SR_TRX_STATUS.addr a v ++
        regWriteTr K.RG_TRX_STATE K.CMD_PLL_ON a1 b1 ++
        regWriteTr K.RG_TRX_STATE K.CMD_TX_ARET_ON a2 b2) ∧
      S2.current_state_ = RadioState.STATE_RX_AACK_ON ∧
      S2.tx_queue_ = { capacity := N, items := [p] } ∧ S2.miso = resp ++ rest ∧
      S2.sqn = s0.sqn ∧ S2.mac_tx_packet_ = trxCreateMacPacket mem_tx := by
    have hpoll := poll_spec K [] S1.miso.length
      { S1 with tx_queue_ := pqPush K S1.tx_queue_ p } a v [a1, b1, a2, b2] (resp ++ rest)
      (by rw [hm1]; simp) (by simp) (Or.inr ⟨hnot, hstatus, rfl⟩) (by simpa [pollIn] using hm1)
    exact ⟨_, hpoll, by simp [pollTr, armTr], hst1, hpush, rfl, hsqn1, hmac1⟩
  have hframe := frame_spec S2 p [] resp rest (by rw [hq2]) hresp hm2
  obtain ⟨S3, e3, hst3, ht3, hw3⟩ : ∃ S3, trxSendPacket.stage S2 = some S3 ∧
      S3.current_state_ = RadioState.STATE_BUSY_TX_ARET ∧ S3.trace = S2.trace ∧
      trxSendPacket.write S3 = some (afterFrame S2 p [] resp rest) := by
    have hs : trxSendPacket.stage S2 = some
        { S2 with
          tx_queue_ := { S2.tx_queue_ with items := [] },
          mac_tx_packet_ := { S2.mac_tx_packet_ with
            payload := some p, payloadLength := payGetPayloadLength p % 256 },
          current_state_ := RadioState.STATE_BUSY_TX_ARET } := by
      simp only [trxSendPacket.stage, pqPop, hq2, andThen_some]
    refine ⟨_, hs, rfl, rfl, ?_⟩
    rw [frame_eq_stage_write, hs, andThen_some] at hframe
    exact hframe
  have hlen : (txFrame (trxCreateMacPacket mem_tx) s0.sqn p).length = resp.length := by
    rw [txFrame_length, hresp]
  refine ⟨S1, S2, S3, afterFrame S2 p [] resp rest, e1, hst1, hsteps, e2, ht2, hst2, e3, hst3,
    ht3, hw3, ?_, ?_, rfl, ?_, rfl, ?_⟩
  · rw [ht3]; simp [afterFrame, hmac2, hsqn2]
  · rw [hsteps, e2, andThen_some, e3, andThen_some, hw3, andThen_some]
  · simp [afterFrame, hq2]
  · have : (afterFrame S2 p [] resp rest).trace = S1.trace ++
        (regReadTr K.SR_TRX_STATUS.addr a v ++ regWriteTr K.RG_TRX_STATE K.CMD_PLL_ON a1 b1 ++
          regWriteTr K.RG_TRX_STATE K.CMD_TX_ARET_ON a2 b2 ++ [Ev.slptr 1, Ev.slptr 0, Ev.cs 0] ++
          List.zipWith Ev.xfer (txFrame (trxCreateMacPacket mem_tx) s0.sqn p) resp ++
          [Ev.cs 1, Ev.payDelete { p with iter := payGetPayloadLength p % 256 }]) := by
      simp [afterFrame, ht2, hmac2, hsqn2]
    rw [this, List.drop_left]
    simp only [transactions, List.foldl_append, scan_regReadTr, scan_regWriteTr, List.nil_append,
      List.foldl_cons, List.foldl_nil, Scan.step]
    rw [scan_xfers _ _ resp [] hlen]
    simp [Scan.step, TRX_CMD_RR, TRX_CMD_RW]

/-- Witness for C16: capacity 1, the sample payload, status `RX_AACK_ON` (22) at the first
poll. -/
theorem send_after_setup_witness :
    ∃ S1 S2 S3 S4 : Radio,
      radioSetup at86rf231 1 1 zeroMem zeroMem
          (powerOn (List.replicate 36 0 ++ 0 :: 22 :: 0 :: 0 :: 0 :: 0 :: (List.replicate 15 0 ++ []))) = some S1 ∧
      S1.current_state_ = RadioState.STATE_RX_AACK_ON ∧
      radioSendPayload at86rf231 samplePayload S1
        = (andThen
            (trxSendPacket.poll at86rf231 S1.miso.length
              { S1 with tx_queue_ := pqPush at86rf231 S1.tx_queue_ samplePayload })
            fun s => andThen (trxSendPacket.stage s)
            fun s => andThen (trxSendPacket.write s)
            fun s => some (1, s)) ∧
      trxSendPacket.poll at86rf231 S1.miso.length
          { S1 with tx_queue_ := pqPush at86rf231 S1.tx_queue_ samplePayload } = some S2 ∧
      S2.trace = S1.trace ++ (regReadTr 0x01 0 22 ++ regWriteTr 0x02 9 0 0 ++
        regWriteTr 0x02 25 0 0) ∧
      S2.current_state_ = RadioState.STATE_RX_AACK_ON ∧
      trxSendPacket.stage S2 = some S3 ∧
      S3.current_state_ = RadioState.STATE_BUSY_TX_ARET ∧ S3.trace = S2.trace ∧
      trxSendPacket.write S3 = some S4 ∧
      S4.trace = S3.trace ++ ([Ev.slptr 1, Ev.slptr 0, Ev.cs 0] ++
        List.zipWith Ev.xfer (txFrame (trxCreateMacPacket zeroMem) 0 samplePayload)
          (List.replicate 15 0) ++
        [Ev.cs 1, Ev.payDelete { samplePayload with
          iter := payGetPayloadLength samplePayload % 256 }]) ∧
      radioSendPayload at86rf231 samplePayload S1 = some (1, S4) ∧
      S4.current_state_ = RadioState.STATE_BUSY_TX_ARET ∧
      S4.tx_queue_ = { capacity := 1, items := [] } ∧
      S4.miso = [] ∧
      transactions (S4.trace.drop S1.trace.length)
        = [[(0x80 ||| 0x01) % 256, 0], [(0xC0 ||| 0x02) % 256, 9 % 256],
            [(0xC0 ||| 0x02) % 256, 25 % 256],
            txFrame (trxCreateMacPacket zeroMem) 0 samplePayload] :=
  send_after_setup at86rf231
    (powerOn (List.replicate 36 0 ++ 0 :: 22 :: 0 :: 0 :: 0 :: 0 :: (List.replicate 15 0 ++ []))) 1 1
    zeroMem zeroMem samplePayload (List.replicate 36 0) 0 22 0 0 0 0 (List.replicate 15 0) []
    (by decide) rfl (by decide) (by decide) rfl rfl

/-! ### Payloads that are not released -/

/-- With a full outbound queue `radioPutChar` only creates its one-byte payload: the send
request is refused, its result is dropped, and the payload is neither queued nor deleted. -/
theorem radioPutChar_full (K : Deps) (c : Nat) (s : Radio)
    (hfull : pqIsFull s.tx_queue_ = true) :
    radioPutChar K c s
      = some { s with trace := s.trace ++ [Ev.payCreate (payCreate 1 [c % 256] 0 0)] } := by
  simp [radioPutChar, radioSendPayload, hfull]

/-- C15, evaluated with a full outbound queue (capacity 1, one payload queued):
`radioPutChar(0x41)` returns with both queues as they were and with a trace that holds the
creation of the payload (status 0, type 0, data `[0x41]`) and no deletion; no variable of the
driver refers to the payload and the function returns nothing, so it stays allocated and
unreferenced. -/
theorem radioPutChar_full_leaks :
    (radioPutChar at86rf231 0x41 (listening 1 1 [samplePayload] [] [])).map
        (fun s' => (s'.tx_queue_.items, s'.rx_queue_.items, s'.pld, s'.mac_tx_packet_.payload,
          s'.trace))
      = some ([samplePayload], [], none, none,
          [Ev.payCreate { status := 0, type := 0, data := [0x41], iter := 0 }]) := by
  decide

/-- Calls of `radioGetChar` on a popped payload without data whose read offset is past 0:
each call returns 1, stores what `payReadByte` yields at the next index and advances the
offset; nothing is popped and nothing is deleted. -/
theorem radioGetChar_times_beyond (K : Deps) (p : Payload) :
    ∀ (m j : Nat) (t : Radio), t.pld = some p → t.data_length = 0 → t.data_loc = j + 1 →
      radioGetChar.times K m t
        = some ((List.range m).map (fun i => (1, some (payReadByte K p (j + 1 + i)))),
            { t with data_loc := j + 1 + m }) := by
  intro m
  induction m with
  | zero =>
    intro j t _ _ hloc
    simp only [radioGetChar.times, List.range_zero, List.map_nil, Nat.add_zero, ← hloc]
  | succ m ih =>
    intro j t hp hlen hloc
    have hne : t.data_length ≠ t.data_loc := by rw [hlen, hloc]; omega
    have hne2 : ¬ (t.data_length = j + 1 + 1) := by rw [hlen]; omega
    have hcall : radioGetChar K t
        = some (1, some (payReadByte K p (j + 1)), { t with data_loc := j + 1 + 1 }) := by
      unfold radioGetChar radioGetChar.read
      rw [if_neg hne, hp]
      simp only [andThen_some, hloc, if_neg hne2]
    have h := ih (j + 1) { t with data_loc := j + 1 + 1 } hp hlen rfl
    simp only [radioGetChar.times, hcall, andThen_some, h, List.range_succ_eq_map,
      List.map_cons, List.map_map, Nat.add_zero]
    simp [Function.comp, Nat.add_assoc, Nat.add_comm 1]
    exact ⟨fun a _ => by rw [Nat.add_comm 2 a], Nat.add_comm 2 m⟩

/-- C13, at data length 0: with every earlier payload read out and a payload `p` without data
at the head of the inbound queue, followed by the payloads `items`, any `n + 1` successive
calls of `radioGetChar` (up to 32767, the least range of the `int` read offset) all return 1
and store a byte: the first call pops `p` and reads its byte 0, the later ones read the bytes
1, 2, ..., `n` of `p`, none of these indices being below the data length 0. At the end the
read offset is `n + 1` against the data length 0, the trace is as before the calls, so `p`
has not been deleted, and `items` is untouched, so no byte of the next payload has been
read. -/
theorem radioGetChar_no_data_never_deleted (K : Deps) (s : Radio) (p : Payload)
    (items : List Payload) (n : Nat) (hdone : s.data_length = s.data_loc)
    (hq : s.rx_queue_.items = p :: items) (hp : p.data = []) (_hn : n < 32767) :
    radioGetChar.times K (n + 1) s
        = some ((List.range (n + 1)).map (fun i => (1, some (payReadByte K p i))),
            { s with rx_queue_ := { s.rx_queue_ with items := items },
                     pld := some p, data_length := 0, data_loc := n + 1 }) ∧
      ∀ i, ¬ (i < payGetDataLength p) := by
  have hne : pqIsEmpty s.rx_queue_ = false := by simp [pqIsEmpty, hq]
  have hcall : radioGetChar K s
      = some (1, some (payReadByte K p 0),
          { s with rx_queue_ := { s.rx_queue_ with items := items },
                   pld := some p, data_length := 0, data_loc := 1 }) := by
    unfold radioGetChar radioGetChar.read
    simp only [if_pos hdone, hne, Bool.false_eq_true, if_false, pqPop, hq, andThen_some,
      payGetDataLength, hp, List.length_nil]
    simp
  have h := radioGetChar_times_beyond K p n 0
    { s with rx_queue_ := { s.rx_queue_ with items := items },
             pld := some p, data_length := 0, data_loc := 1 } rfl rfl rfl
  refine ⟨?_, ?_⟩
  · simp only [radioGetChar.times, hcall, andThen_some, h, List.range_succ_eq_map,
      List.map_cons, List.map_map]
    simp [Function.comp, Nat.add_comm 1]
  · intro i; simp [payGetDataLength, hp]

/-- The same on received frames: `trxReceivePacket` receives a frame with length byte 13 and
then a frame with two data bytes; three calls of `radioGetChar` then return 1 each, reading
the bytes 0, 1, 2 of the first payload, which is not deleted, and the second payload stays
on the inbound queue. -/
theorem radioGetChar_no_data_never_deleted_witness :
    receiveAll at86rf231 2 (listening 2 2 [] [] noDataInput) = some noDataArrived ∧
    noDataArrived.data_length = noDataArrived.data_loc ∧
    noDataArrived.rx_queue_.items
      = [{ status := 0, type := 0, data := [], iter := 0 }, samplePayload] ∧
    2 < 32767 ∧
    (radioGetChar.times at86rf231 (2 + 1) noDataArrived
        = some ((List.range (2 + 1)).map (fun i => (1, some (payReadByte at86rf231
              { status := 0, type := 0, data := [], iter := 0 } i))),
            { noDataArrived with
                rx_queue_ := { noDataArrived.rx_queue_ with items := [samplePayload] },
                pld := some { status := 0, type := 0, data := [], iter := 0 },
                data_length := 0, data_loc := 2 + 1 }) ∧
      ∀ i, ¬ (i < payGetDataLength { status := 0, type := 0, data := [], iter := 0 })) :=
  ⟨rfl, rfl, rfl, by decide,
    radioGetChar_no_data_never_deleted at86rf231 noDataArrived
      { status := 0, type := 0, data := [], iter := 0 } [samplePayload] 2 rfl rfl rfl
      (by decide)⟩

/-! ### Inbound arrival order -/

theorem radioGetRxPayload_pop (s : Radio) (p : Payload) (items : List Payload)
    (hq : s.rx_queue_.items = p :: items) :
    radioGetRxPayload s = (some p, { s with rx_queue_ := { s.rx_queue_ with items := items } }) := by
  simp [radioGetRxPayload, pqIsEmpty, pqPop, hq]

theorem radioGetRxPayload_none (s : Radio) (hq : pqIsEmpty s.rx_queue_ = true) :
    radioGetRxPayload s = (none, s) := by
  simp [radioGetRxPayload, hq]

/-- Successive calls of `radioGetRxPayload` return the payloads of the inbound queue from the
head on, each call removing the one it returns. -/
theorem radioGetRxPayload_times : ∀ (k : Nat) (s : Radio), k ≤ s.rx_queue_.items.length →
    radioGetRxPayload.times k s
      = ((s.rx_queue_.items.take k).map some,
          { s with rx_queue_ := { s.rx_queue_ with items := s.rx_queue_.items.drop k } }) := by
  intro k
  induction k with
  | zero => intro s _; simp [radioGetRxPayload.times]
  | succ k ih =>
    intro s hk
    obtain ⟨p, items, hq⟩ : ∃ p items, s.rx_queue_.items = p :: items := by
      cases h : s.rx_queue_.items with
      | nil => rw [h] at hk; simp at hk
      | cons p items => exact ⟨p, items, rfl⟩
    have hk2 : k ≤ items.length := by rw [hq] at hk; simpa using hk
    simp only [radioGetRxPayload.times, radioGetRxPayload_pop s p items hq]
    rw [ih _ (by simpa using hk2)]
    simp [hq]

/-- Successive receptions of CRC-valid frames while the inbound queue has room append the
payloads built from them at the tail of the queue, in the order of arrival. -/
theorem receiveAll_spec (K : Deps) : ∀ (fs : List RxFrame) (s : Radio) (rest : List Nat),
    (∀ f ∈ fs, RxFrame.Valid K f) → s.miso = rxInputs fs ++ rest →
    s.rx_queue_.items.length + fs.length ≤ s.rx_queue_.capacity →
    ∃ s1, receiveAll K fs.length s = some s1 ∧ s1.miso = rest ∧
      s1.rx_queue_ = { s.rx_queue_ with items := s.rx_queue_.items ++ fs.map RxFrame.payload } := by
  intro fs
  induction fs with
  | nil =>
    intro s rest _ hin _
    exact ⟨s, rfl, by simpa [rxInputs] using hin, by simp⟩
  | cons f fs ih =>
    intro s rest hv hin hroom
    obtain ⟨hcrc, hspan, hdata⟩ := hv f (by simp)
    have hroom1 : pqIsFull s.rx_queue_ = false := by
      simp only [pqIsFull, decide_eq_false_iff_not, List.length_cons] at hroom ⊢
      omega
    have hspec := trxReceivePacket_spec K s f.a f.v f.y f.L f.fl f.fh f.seq f.dpl f.dph f.dal
      f.dah f.sal f.sah f.st f.ty f.lqi f.span f.data (rxInputs fs ++ rest) hcrc hspan hdata
      (by simpa [rxInputs, RxFrame.input] using hin)
    simp only [pqPush, hroom1, Bool.false_eq_true, if_false] at hspec
    obtain ⟨S, hS, hSm, hSq⟩ : ∃ S, trxReceivePacket K s = some S ∧
        S.miso = rxInputs fs ++ rest ∧
        S.rx_queue_ = { s.rx_queue_ with items := s.rx_queue_.items ++ [f.payload] } :=
      ⟨_, hspec, rfl, rfl⟩
    obtain ⟨s1, e, hm, hq⟩ := ih S rest (fun g hg => hv g (by simp [hg])) hSm
      (by rw [hSq]
          simp only [List.length_append, List.length_cons, List.length_nil] at hroom ⊢
          omega)
    refine ⟨s1, ?_, hm, ?_⟩
    · simp only [List.length_cons, receiveAll, hS, andThen_some, e]
    · rw [hq, hSq]; simp

/-- C12: when the CRC-valid frames `fs` are received one after the other while the inbound
queue has room for all of them, the payloads built from them are appended to the inbound queue
in the order of arrival; from an inbound queue that was empty, as many successive calls of
`radioGetRxPayload` as there are frames return these payloads in that order and leave the queue
empty; in general `k` successive calls return the first `k` queued payloads and remove exactly
those. Whenever the inbound queue is empty `radioGetRxPayload` returns `NULL` and changes
nothing. For a length byte `13 ≤ L ≤ 255` the payload built from a frame has its status, type
and data bytes. -/
theorem inbound_order (K : Deps) (s : Radio) (fs : List RxFrame) (rest : List Nat)
    (hvalid : ∀ f ∈ fs, RxFrame.Valid K f) (hin : s.miso = rxInputs fs ++ rest)
    (hroom : s.rx_queue_.items.length + fs.length ≤ s.rx_queue_.capacity) :
    ∃ s1, receiveAll K fs.length s = some s1 ∧
      s1.rx_queue_.items = s.rx_queue_.items ++ fs.map RxFrame.payload ∧
      (s.rx_queue_.items = [] →
        radioGetRxPayload.times fs.length s1
          = (fs.map (fun f => some (RxFrame.payload f)),
              { s1 with rx_queue_ := { s1.rx_queue_ with items := [] } })) ∧
      (∀ k, k ≤ s1.rx_queue_.items.length →
        radioGetRxPayload.times k s1
          = ((s1.rx_queue_.items.take k).map some,
              { s1 with rx_queue_ := { s1.rx_queue_ with items := s1.rx_queue_.items.drop k } })) ∧
      (∀ t : Radio, pqIsEmpty t.rx_queue_ = true → radioGetRxPayload t = (none, t)) ∧
      (∀ f ∈ fs, 13 ≤ f.L → f.L ≤ 255 →
        RxFrame.payload f = { status := f.st % 256, type := f.ty % 256,
                              data := f.data.map (· % 256), iter := 0 }) := by
  obtain ⟨s1, e, _, hq⟩ := receiveAll_spec K fs s rest hvalid hin hroom
  have hitems : s1.rx_queue_.items = s.rx_queue_.items ++ fs.map RxFrame.payload := by rw [hq]
  refine ⟨s1, e, hitems, ?_, fun k hk => radioGetRxPayload_times k s1 hk,
    fun t ht => radioGetRxPayload_none t ht, ?_⟩
  · intro hempty
    rw [radioGetRxPayload_times fs.length s1 (by rw [hitems]; simp), hitems, hempty]
    simp [List.map_map, Function.comp_def]
  · intro f hf h13 h255
    have hn : rxPayloadLength f.L = f.L - 11 := by
      simp only [rxPayloadLength, MAC_HEADER_LENGTH, CRC_LENGTH]; omega
    exact rxPayload_eq f.L f.st f.ty f.data (by rw [hn]; omega) (hvalid f hf).2.2

/-- Witness for C12: two frames received into an empty inbound queue of capacity 2. -/
theorem inbound_order_witness :
    [demoFrame1, demoFrame2].map RxFrame.payload
        = [{ status := 1, type := 2, data := [0xAA, 0xBB], iter := 0 },
            { status := 3, type := 4, data := [0xCC], iter := 0 }] ∧
    ∃ s1, receiveAll at86rf231 [demoFrame1, demoFrame2].length
          (listening 2 2 [] [] (rxInputs [demoFrame1, demoFrame2] ++ [])) = some s1 ∧
      s1.rx_queue_.items = (listening 2 2 [] [] (rxInputs [demoFrame1, demoFrame2] ++ [])).rx_queue_.items
        ++ [demoFrame1, demoFrame2].map RxFrame.payload ∧
      ((listening 2 2 [] [] (rxInputs [demoFrame1, demoFrame2] ++ [])).rx_queue_.items = [] →
        radioGetRxPayload.times [demoFrame1, demoFrame2].length s1
          = ([demoFrame1, demoFrame2].map (fun f => some (RxFrame.payload f)),
              { s1 with rx_queue_ := { s1.rx_queue_ with items := [] } })) ∧
      (∀ k, k ≤ s1.rx_queue_.items.length →
        radioGetRxPayload.times k s1
          = ((s1.rx_queue_.items.take k).map some,
              { s1 with rx_queue_ := { s1.rx_queue_ with items := s1.rx_queue_.items.drop k } })) ∧
      (∀ t : Radio, pqIsEmpty t.rx_queue_ = true → radioGetRxPayload t = (none, t)) ∧
      (∀ f ∈ [demoFrame1, demoFrame2], 13 ≤ f.L → f.L ≤ 255 →
        RxFrame.payload f = { status := f.st % 256, type := f.ty % 256,
                              data := f.data.map (· % 256), iter := 0 }) :=
  ⟨by decide, inbound_order at86rf231 (listening 2 2 [] [] (rxInputs [demoFrame1, demoFrame2] ++ []))
    [demoFrame1, demoFrame2] [] (by decide) rfl (by decide)⟩

/-! ### Outbound FIFO order -/

/-- When `trxReceivePacket` returns, either the CRC-valid bit read 0 and only the status
register was read, or the bus input had the shape of a whole frame: the answers to the status
read and to the command byte, the length byte, the header bytes (with the source PAN ID bytes
exactly when bit 6 of the frame-control low byte is clear), status, type, the data bytes and
the LQI byte. -/
theorem trxReceivePacket_shape (K : Deps) (s s' : Radio) (h : trxReceivePacket K s = some s') :
    (∃ a v rest, s.miso = a :: v :: rest ∧ subRegValue K.SR_RX_CRC_VALID v = 0) ∨
    (∃ a v y L fl fh seq dpl dph dal dah sal sah st ty lqi span data rest,
      subRegValue K.SR_RX_CRC_VALID v ≠ 0 ∧
      span.length = (if panIDCompBit fl = 0 then 2 else 0) ∧
      data.length = rxPayloadLength L - 2 ∧
      s.miso = a :: v :: y :: L :: fl :: fh :: seq :: dpl :: dph :: dal :: dah ::
        (span ++ sal :: sah :: st :: ty :: (data ++ lqi :: rest))) := by
  unfold trxReceivePacket at h
  obtain ⟨x, hx, h⟩ := andThen_eq_some h
  obtain ⟨a, v, m, hm, rfl⟩ := trxReadBit_some K.SR_RX_CRC_VALID s x hx
  simp only at h
  by_cases hcrc : subRegValue K.SR_RX_CRC_VALID v = 0
  · exact Or.inl ⟨a, v, m, hm, hcrc⟩
  · right
    rw [if_neg hcrc] at h
    simp only [setCS, afterBus, rxPayloadLength_int, rxCount_int, setHB_setLB] at h
    obtain ⟨y, m0, e0, h⟩ := step_write h
    simp only at e0 h
    obtain ⟨L, m1, e1, h⟩ := step_read h
    simp only [rxPayloadLength_int, rxCount_int] at e1 h
    obtain ⟨fl, m2, e2, h⟩ := step_read h
    simp only at e2 h
    obtain ⟨fh, m3, e3, h⟩ := step_read h
    simp only [setHB_setLB] at e3 h
    obtain ⟨seq, m4, e4, h⟩ := step_read h
    simp only at e4 h
    obtain ⟨dpl, m5, e5, h⟩ := step_read h
    simp only at e5 h
    obtain ⟨dph, m6, e6, h⟩ := step_read h
    simp only at e6 h
    obtain ⟨dal, m7, e7, h⟩ := step_read h
    simp only at e7 h
    obtain ⟨dah, m8, e8, h⟩ := step_read h
    simp only at e8 h
    obtain ⟨s2, hsp, h⟩ := andThen_eq_some h
    obtain ⟨span, m9, e9, hspan, hs2⟩ : ∃ span m9, m8 = span ++ m9 ∧
        span.length = (if panIDCompBit fl = 0 then 2 else 0) ∧ s2.miso = m9 := by
      unfold trxReceivePacket.srcPAN at hsp
      simp only [getBits_word] at hsp
      split at hsp
      · next hb =>
        obtain ⟨lo, r1, el, hsp⟩ := step_read hsp
        simp only at el hsp
        obtain ⟨hi, r2, eh, hsp⟩ := step_read hsp
        simp only at eh hsp
        obtain rfl := Option.some.inj hsp
        exact ⟨[lo, hi], r2, by rw [el, eh]; rfl, by simp [hb], rfl⟩
      · next hb =>
        obtain rfl := Option.some.inj hsp
        exact ⟨[], _, rfl, by simp [hb], rfl⟩
    obtain ⟨sal, m10, e10, h⟩ := step_read h
    simp only at e10 h
    obtain ⟨sah, m11, e11, h⟩ := step_read h
    simp only at e11 h
    obtain ⟨st, m12, e12, h⟩ := step_read h
    simp only at e12 h
    obtain ⟨ty, m13, e13, h⟩ := step_read h
    simp only at e13 h
    obtain ⟨⟨pld, s3⟩, hloop, h⟩ := andThen_eq_some h
    have hcnt := readLoop_needs _ _ _ _ _ hloop
    have hres := readLoop_result _ _ _ _ _ hloop
    simp only at hcnt hres
    obtain ⟨rfl, rfl⟩ := Prod.mk.inj hres
    obtain ⟨lqi, rest, e14, _⟩ := step_read h
    simp only at e14
    have hdl : (m13.take (rxPayloadLength L - 2)).length = rxPayloadLength L - 2 := by
      rw [List.length_take]; omega
    refine ⟨a, v, y, L, fl, fh, seq, dpl, dph, dal, dah, sal, sah, st, ty, lqi, span,
      m13.take (rxPayloadLength L - 2), rest, hcrc, hspan, hdl, ?_⟩
    rw [← e14, List.take_append_drop, ← e13, ← e12, ← e11, ← e10, hs2, ← e9, ← e8, ← e7,
      ← e6, ← e5, ← e4, ← e3, ← e2, ← e1, ← e0, hm]

/-- When `trxReceivePacket` returns it has left the outbound queue, the current state and the
transmit staging record as they were. -/
theorem trxReceivePacket_keeps_tx (K : Deps) (s s' : Radio)
    (h : trxReceivePacket K s = some s') :
    s'.tx_queue_ = s.tx_queue_ ∧ s'.current_state_ = s.current_state_ ∧
      s'.mac_tx_packet_ = s.mac_tx_packet_ := by
  rcases trxReceivePacket_shape K s s' h with ⟨a, v, rest, hin, hcrc⟩ |
    ⟨a, v, y, L, fl, fh, seq, dpl, dph, dal, dah, sal, sah, st, ty, lqi, span, data, rest,
      hcrc, hspan, hdata, hin⟩
  · have e : trxReceivePacket K s = some (afterBus s rest (regReadTr K.SR_RX_CRC_VALID.addr a v)) := by
      simp [trxReceivePacket, trxReadBit_cons K.SR_RX_CRC_VALID a v rest s hin, hcrc, afterBus]
    rw [h] at e
    obtain rfl := Option.some.inj e
    exact ⟨rfl, rfl, rfl⟩
  · have e := trxReceivePacket_spec K s a v y L fl fh seq dpl dph dal dah sal sah st ty lqi
      span data rest hcrc hspan hdata hin
    rw [h] at e
    obtain rfl := Option.some.inj e
    exact ⟨rfl, rfl, rfl⟩

theorem txStep_prefix {s s1 s' : Radio} {pushed : List Payload} (tr0 : List Ev)
    (hq : Quiet tr0) (ht : s1.trace = s.trace ++ tr0)
    (hi : s1.tx_queue_.items = s.tx_queue_.items ++ pushed) (h : TxStep s1 s' []) :
    TxStep s s' pushed := by
  rcases h with ⟨tr, q, e, hq2⟩ | ⟨pre, frame, resp, d, pld, q, hl, hh, hd, e, hq2⟩
  · exact Or.inl ⟨tr0 ++ tr, quiet_append hq q, by rw [e, ht, List.append_assoc],
      by rw [hq2, hi, List.append_nil]⟩
  · refine Or.inr ⟨tr0 ++ pre, frame, resp, d, pld, quiet_append hq q, hl, hh, hd, ?_, ?_⟩
    · rw [e, ht]; simp only [List.append_assoc]
    · rw [hq2, hi, List.append_nil]

theorem trxSendPacket_txStep (K : Deps) (s s' : Radio) (h : trxSendPacket K s = some s') :
    TxStep s s' [] := by
  unfold trxSendPacket at h
  split at h
  · obtain rfl := Option.some.inj h
    exact Or.inl ⟨[], quiet_nil, by simp, by simp⟩
  · obtain ⟨s1, hp, hf⟩ := andThen_eq_some h
    obtain ⟨tr, rest, q, rfl⟩ := poll_some K _ _ _ hp
    obtain ⟨pld, items, hq, hlen⟩ := frame_needs _ s' hf
    have e := frame_spec (afterBus s rest tr) pld items
      ((afterBus s rest tr).miso.take (11 + payGetPayloadLength pld % 256))
      ((afterBus s rest tr).miso.drop (11 + payGetPayloadLength pld % 256)) hq
      (by rw [List.length_take]; omega) (List.take_append_drop _ _).symm
    rw [hf] at e
    obtain rfl := Option.some.inj e
    refine Or.inr ⟨tr, txFrame s.mac_tx_packet_ s.sqn pld,
      (afterBus s rest tr).miso.take (11 + payGetPayloadLength pld % 256),
      { pld with iter := payGetPayloadLength pld % 256 }, pld, q, ?_, by simp [txFrame],
      by simp [txFrame, wireBytes], ?_, ?_⟩
    · rw [txFrame_length, List.length_take]; omega
    · simp [afterFrame, afterBus]
    · have : s.tx_queue_.items = pld :: items := hq
      simp [afterFrame, afterBus, this]

theorem radioSendPayload_txStep (K : Deps) (p : Payload) (s : Radio) (r : Nat) (s' : Radio)
    (h : radioSendPayload K p s = some (r, s')) :
    (r = 0 ∧ s' = s) ∨ (r = 1 ∧ TxStep s s' [p]) := by
  unfold radioSendPayload at h
  split at h
  · simp only [Option.some.injEq, Prod.mk.injEq] at h
    exact Or.inl ⟨h.1.symm, h.2.symm⟩
  · next hfull =>
    obtain ⟨s1, h1, h⟩ := andThen_eq_some h
    simp only [Option.some.injEq, Prod.mk.injEq] at h
    obtain ⟨rfl, rfl⟩ := h
    have hroom : pqIsFull s.tx_queue_ = false := by simpa using hfull
    refine Or.inr ⟨rfl, txStep_prefix [] quiet_nil ?_ ?_ (trxSendPacket_txStep K _ _ h1)⟩
    · simp
    · simp [pqPush, hroom]

theorem trxHandleISR_txStep (K : Deps) (s s' : Radio) (h : trxHandleISR K s = some s') :
    TxStep s s' [] := by
  unfold trxHandleISR at h
  obtain ⟨x, hx, h⟩ := andThen_eq_some h
  obtain ⟨a, v, rest, _, rfl⟩ := trxReadReg_some _ _ _ hx
  have q1 := quiet_regReadTr K.RG_IRQ_STATUS a v
  simp only at h
  split at h
  · split at h
    · obtain ⟨tr, q, e, _⟩ := trxReceivePacket_quiet K _ _ h
      obtain ⟨hk, _, _⟩ := trxReceivePacket_keeps_tx K _ _ h
      exact Or.inl ⟨regReadTr K.RG_IRQ_STATUS a v ++ tr, quiet_append q1 q,
        by rw [e]; simp [afterBus], by rw [hk]; simp [afterBus]⟩
    · obtain ⟨y, hy, h⟩ := andThen_eq_some h
      obtain ⟨a2, v2, rest2, _, rfl⟩ := trxReadBit_some K.SR_TRAC_STATUS _ _ hy
      have q2 := quiet_append q1 (quiet_regReadTr K.SR_TRAC_STATUS.addr a2 v2)
      simp only at h
      split at h
      · obtain ⟨s3, h3, h⟩ := andThen_eq_some h
        obtain ⟨s4, h4, h⟩ := andThen_eq_some h
        obtain ⟨t3, r3, q3, rfl⟩ := trxWriteReg_some _ _ _ _ h3
        obtain ⟨t4, r4, q4, rfl⟩ := trxWriteReg_some _ _ _ _ h4
        obtain rfl := Option.some.inj h
        exact Or.inl ⟨_, quiet_append q2 (quiet_append q3 q4), by simp [afterBus],
          by simp [afterBus]⟩
      · exact txStep_prefix _ q2 (by simp [afterBus]) (by simp [afterBus])
          (trxSendPacket_txStep K _ _ h)
  · obtain rfl := Option.some.inj h
    exact Or.inl ⟨_, q1, by simp [afterBus], by simp [afterBus]⟩

theorem fifoInv_step {s s' : Radio} {acc pushed : List Payload} (hi : FifoInv s acc)
    (h : TxStep s s' pushed) : FifoInv s' (acc ++ pushed) := by
  obtain ⟨txs, sent, hscan, hsent, hacc⟩ := hi
  rcases h with ⟨tr, q, e, hq⟩ | ⟨pre, frame, resp, d, pld, q, hl, hh, hd, e, hq⟩
  · obtain ⟨x, ex, hn⟩ := q txs
    refine ⟨txs ++ x, sent, by rw [e, List.foldl_append, hscan, ex], ?_, ?_⟩
    · rw [List.filter_append, filter_noFrame x hn, List.append_nil]
      exact hsent
    · rw [hq, ← List.append_assoc, hacc]
  · obtain ⟨x, ex, hn⟩ := scan_sendTrace txs pre frame resp d q hl
    refine ⟨txs ++ x ++ [frame], sent ++ [pld], by rw [e, List.foldl_append, hscan, ex], ?_, ?_⟩
    · simp [List.filter_append, filter_noFrame x hn, hh, hsent, hd]
    · rw [List.append_assoc, List.singleton_append, hq, ← List.append_assoc, hacc]

theorem txRun_fifoInv (K : Deps) : ∀ (es : List TxEntry) (s : Radio) (acc0 acc : List Payload)
    (s' : Radio), FifoInv s acc0 → txRun K es s = some (acc, s') → FifoInv s' (acc0 ++ acc) := by
  intro es
  induction es with
  | nil =>
    intro s acc0 acc s' hi h
    simp only [txRun, Option.some.injEq, Prod.mk.injEq] at h
    obtain ⟨rfl, rfl⟩ := h
    simpa using hi
  | cons e es ih =>
    intro s acc0 acc s' hi h
    cases e with
    | send p =>
      simp only [txRun] at h
      obtain ⟨⟨r, s1⟩, h1, h⟩ := andThen_eq_some h
      obtain ⟨⟨acc1, s2⟩, h2, h⟩ := andThen_eq_some h
      simp only [Option.some.injEq, Prod.mk.injEq] at h
      obtain ⟨rfl, rfl⟩ := h
      rcases radioSendPayload_txStep K p s r s1 h1 with ⟨rfl, rfl⟩ | ⟨rfl, hstep⟩
      · simpa using ih _ acc0 acc1 _ hi h2
      · have := ih _ (acc0 ++ [p]) acc1 _ (fifoInv_step hi hstep) h2
        simpa using this
    | interrupt =>
      simp only [txRun] at h
      obtain ⟨s1, h1, h⟩ := andThen_eq_some h
      have := ih _ (acc0 ++ []) acc _ (fifoInv_step hi (trxHandleISR_txStep K s s1 h1)) h
      simpa using this

/-- For a payload of at most 253 data bytes the bytes written after the frame header are the
status, the type and the data bytes, as 8-bit values. -/
theorem wireBytes_small (p : Payload) (h : p.data.length ≤ 253) :
    wireBytes p = (p.status :: p.type :: p.data).map (· % 256) := by
  have h1 : (p.data.length + 2) % 256 = (p.status :: p.type :: p.data).length := by
    simp only [List.length_cons]; omega
  have h2 := payYield_from p.status p.type p.data (p.status :: p.type :: p.data) [] rfl
  simp only [wireBytes, payGetPayloadLength, h1, payInitIterator]
  exact h2

/-- C11: in every state `s` reached from a state with an empty outbound queue and no frame
written yet through any sequence of send requests and radio interrupts that return, the
payloads `acc` of the accepted requests, in the order of the calls, are the payloads carried by
the frame writes of the trace, in the order of the frames, followed by the payloads still
queued. So the frame write number `k` carries the bytes of the accepted payload number `k`:
frames follow the order of enqueueing and no payload is written twice. The bytes carried for
a payload of at most 253 data bytes are its status, type and data bytes. -/
theorem outbound_fifo (K : Deps) (s0 : Radio) (es : List TxEntry) (acc : List Payload)
    (s : Radio) (hq : s0.tx_queue_.items = []) (ht : Quiet s0.trace)
    (hrun : txRun K es s0 = some (acc, s)) :
    (∃ sent, framePayloads s.trace = sent.map wireBytes ∧ sent ++ s.tx_queue_.items = acc) ∧
    (framePayloads s.trace).length ≤ acc.length ∧
    ∀ (k : Nat) (bytes : List Nat), (framePayloads s.trace)[k]? = some bytes →
      ∃ p, acc[k]? = some p ∧ bytes = wireBytes p ∧
        (p.data.length ≤ 253 → bytes = (p.status :: p.type :: p.data).map (· % 256)) := by
  have hinit : FifoInv s0 [] := by
    obtain ⟨x, ex, hn⟩ := ht []
    refine ⟨x, [], by simpa using ex, ?_, by simp [hq]⟩
    simp [filter_noFrame x hn]
  obtain ⟨txs, sent, hscan, hsent, hacc⟩ := txRun_fifoInv K es s0 [] acc s hinit hrun
  simp only [List.nil_append] at hacc
  have hfp : framePayloads s.trace = sent.map wireBytes := by
    simp only [framePayloads, frameWrites, transactions, hscan]
    exact hsent
  refine ⟨⟨sent, hfp, hacc⟩, ?_, ?_⟩
  · rw [hfp, ← hacc]; simp
  · intro k bytes hk
    rw [hfp, List.getElem?_map] at hk
    cases hp : sent[k]? with
    | none => rw [hp] at hk; simp at hk
    | some p =>
      rw [hp] at hk
      simp only [Option.map_some', Option.some.injEq] at hk
      refine ⟨p, ?_, hk.symm, fun hp253 => by rw [← hk]; exact wireBytes_small p hp253⟩
      have hlt : k < sent.length := by
        by_contra hge
        rw [List.getElem?_eq_none (by omega)] at hp
        simp at hp
      rw [← hacc, List.getElem?_append_left hlt, hp]

/-- Witness for C11: two requests accepted, the second sent by the interrupt handler; the
two frames carry the bytes of the two payloads in the order of the requests. -/
theorem outbound_fifo_witness :
    framePayloads fifoFinal.trace = [[0, 0, 0xAA, 0xBB], [1, 2, 0xCC]] ∧
    ((∃ sent, framePayloads fifoFinal.trace = sent.map wireBytes ∧
        sent ++ fifoFinal.tx_queue_.items = [samplePayload, otherPayload]) ∧
      (framePayloads fifoFinal.trace).length ≤ [samplePayload, otherPayload].length ∧
      ∀ (k : Nat) (bytes : List Nat), (framePayloads fifoFinal.trace)[k]? = some bytes →
        ∃ p, [samplePayload, otherPayload][k]? = some p ∧ bytes = wireBytes p ∧
          (p.data.length ≤ 253 → bytes = (p.status :: p.type :: p.data).map (· % 256))) :=
  ⟨by decide!, outbound_fifo at86rf231 (listening 2 2 [] [] fifoInput) fifoEntries
    [samplePayload, otherPayload] fifoFinal rfl quiet_nil rfl⟩

/-! ### Register and sub-register access -/

/-- For a register address below `0x40` the command bytes `0x80 | a` and `0xC0 | a` fit in
eight bits. -/
theorem cmd_lt_256 (c a : Nat) (hc : c < 256) (ha : a < 0x40) : (c ||| a) % 256 = c ||| a := by
  apply Nat.mod_eq_of_lt
  have h1 : c < 2 ^ 8 := by simpa using hc
  have h2 : a < 2 ^ 8 := by
    have : a < 256 := by omega
    simpa using this
  simpa using Nat.or_lt_two_pow h1 h2

/-- C23: for every register address below `0x40` and every 8-bit value `v`, `trxReadReg`
makes one chip-select-bracketed transaction that exchanges exactly two bytes, `0x80 | addr`
then `0x00`, and returns the byte shifted in during the second exchange (an 8-bit value);
`trxWriteReg` makes one chip-select-bracketed transaction that exchanges exactly `0xC0 | addr`
then `v`. In both, chip-select goes low before the first exchange and high after the second,
every byte written lies inside the transaction, and `SPI_CS` is high on return. Neither
returns while fewer than two bytes are answered on the bus. -/
theorem register_access (addr v a b c d : Nat) (rest : List Nat) (s : Radio)
    (haddr : addr < 0x40) (hv : v < 256) :
    (s.miso = a :: b :: rest →
      trxReadReg addr s
          = some (b % 256, afterBus s rest
              [Ev.cs 0, Ev.xfer (0x80 ||| addr) a, Ev.xfer 0x00 b, Ev.cs 1]) ∧
        transactions [Ev.cs 0, Ev.xfer (0x80 ||| addr) a, Ev.xfer 0x00 b, Ev.cs 1]
          = [[0x80 ||| addr, 0x00]] ∧
        written [Ev.cs 0, Ev.xfer (0x80 ||| addr) a, Ev.xfer 0x00 b, Ev.cs 1]
          = [0x80 ||| addr, 0x00] ∧
        received [Ev.cs 0, Ev.xfer (0x80 ||| addr) a, Ev.xfer 0x00 b, Ev.cs 1] = [a, b] ∧
        (b < 256 → b % 256 = b) ∧
        (afterBus s rest
          [Ev.cs 0, Ev.xfer (0x80 ||| addr) a, Ev.xfer 0x00 b, Ev.cs 1]).SPI_CS = 1) ∧
    (s.miso = c :: d :: rest →
      trxWriteReg addr v s
          = some (afterBus s rest
              [Ev.cs 0, Ev.xfer (0xC0 ||| addr) c, Ev.xfer v d, Ev.cs 1]) ∧
        transactions [Ev.cs 0, Ev.xfer (0xC0 ||| addr) c, Ev.xfer v d, Ev.cs 1]
          = [[0xC0 ||| addr, v]] ∧
        written [Ev.cs 0, Ev.xfer (0xC0 ||| addr) c, Ev.xfer v d, Ev.cs 1]
          = [0xC0 ||| addr, v] ∧
        (afterBus s rest
          [Ev.cs 0, Ev.xfer (0xC0 ||| addr) c, Ev.xfer v d, Ev.cs 1]).SPI_CS = 1) ∧
    (s.miso.length < 2 → trxReadReg addr s = none ∧ trxWriteReg addr v s = none) := by
  have hr : (TRX_CMD_RR ||| addr) % 256 = 0x80 ||| addr := cmd_lt_256 0x80 addr (by norm_num) haddr
  have hw : (TRX_CMD_RW ||| addr) % 256 = 0xC0 ||| addr := cmd_lt_256 0xC0 addr (by norm_num) haddr
  have hvm : v % 256 = v := Nat.mod_eq_of_lt hv
  refine ⟨fun hin => ⟨?_, ?_, ?_, ?_, fun hb => Nat.mod_eq_of_lt hb, rfl⟩,
    fun hin => ⟨?_, ?_, ?_, rfl⟩, fun hl => ⟨?_, ?_⟩⟩
  · rw [trxReadReg_cons addr a b rest s hin, regReadTr, hr]; rfl
  · simp [transactions, Scan.step]
  · simp [written]
  · simp [received]
  · rw [trxWriteReg_cons addr v c d rest s hin, regWriteTr, hw, hvm]; rfl
  · simp [transactions, Scan.step]
  · simp [written]
  · exact trxReadReg_short addr s hl
  · exact (busOnly_trxWriteReg addr v s).1 hl

/-- Witness for C23: register `0x0F`, value `0x16`, the bus answering 1 then 2. -/
theorem register_access_witness :
    ((listening 1 1 [] [] [1, 2]).miso = 1 :: 2 :: [] →
      trxReadReg 0x0F (listening 1 1 [] [] [1, 2])
          = some (2 % 256, afterBus (listening 1 1 [] [] [1, 2]) []
              [Ev.cs 0, Ev.xfer (0x80 ||| 0x0F) 1, Ev.xfer 0x00 2, Ev.cs 1]) ∧
        transactions [Ev.cs 0, Ev.xfer (0x80 ||| 0x0F) 1, Ev.xfer 0x00 2, Ev.cs 1]
          = [[0x80 ||| 0x0F, 0x00]] ∧
        written [Ev.cs 0, Ev.xfer (0x80 ||| 0x0F) 1, Ev.xfer 0x00 2, Ev.cs 1]
          = [0x80 ||| 0x0F, 0x00] ∧
        received [Ev.cs 0, Ev.xfer (0x80 ||| 0x0F) 1, Ev.xfer 0x00 2, Ev.cs 1] = [1, 2] ∧
        (2 < 256 → 2 % 256 = 2) ∧
        (afterBus (listening 1 1 [] [] [1, 2]) []
          [Ev.cs 0, Ev.xfer (0x80 ||| 0x0F) 1, Ev.xfer 0x00 2, Ev.cs 1]).SPI_CS = 1) ∧
    ((listening 1 1 [] [] [1, 2]).miso = 1 :: 2 :: [] →
      trxWriteReg 0x0F 0x16 (listening 1 1 [] [] [1, 2])
          = some (afterBus (listening 1 1 [] [] [1, 2]) []
              [Ev.cs 0, Ev.xfer (0xC0 ||| 0x0F) 1, Ev.xfer 0x16 2, Ev.cs 1]) ∧
        transactions [Ev.cs 0, Ev.xfer (0xC0 ||| 0x0F) 1, Ev.xfer 0x16 2, Ev.cs 1]
          = [[0xC0 ||| 0x0F, 0x16]] ∧
        written [Ev.cs 0, Ev.xfer (0xC0 ||| 0x0F) 1, Ev.xfer 0x16 2, Ev.cs 1]
          = [0xC0 ||| 0x0F, 0x16] ∧
        (afterBus (listening 1 1 [] [] [1, 2]) []
          [Ev.cs 0, Ev.xfer (0xC0 ||| 0x0F) 1, Ev.xfer 0x16 2, Ev.cs 1]).SPI_CS = 1) ∧
    ((listening 1 1 [] [] [1, 2]).miso.length < 2 →
      trxReadReg 0x0F (listening 1 1 [] [] [1, 2]) = none ∧
        trxWriteReg 0x0F 0x16 (listening 1 1 [] [] [1, 2]) = none) :=
  register_access 0x0F 0x16 1 2 1 2 [] (listening 1 1 [] [] [1, 2]) (by decide) (by decide)

theorem testBit_255 (i : Nat) : Nat.testBit 255 i = decide (i < 8) := by
  have : (255 : Nat) = 2 ^ 8 - 1 := by norm_num
  rw [this, Nat.testBit_two_pow_sub_one]

/-- In the byte `(old AND NOT mask) OR (x AND mask)` every bit outside `mask` is the bit of
`old`. -/
theorem merge_outside (old mask x i : Nat) (hold : old < 256) (hm : mask.testBit i = false) :
    ((old &&& (255 ^^^ mask)) ||| (x &&& mask)).testBit i = old.testBit i := by
  simp only [Nat.testBit_or, Nat.testBit_and, Nat.testBit_xor, testBit_255, hm, Bool.and_false,
    Bool.or_false, Bool.xor_false]
  by_cases hi : i < 8
  · simp [hi]
  · have : old.testBit i = false :=
      Nat.testBit_lt_two_pow (lt_of_lt_of_le hold (by
        have : (256 : Nat) = 2 ^ 8 := by norm_num
        rw [this]; exact Nat.pow_le_pow_right (by norm_num) (by omega)))
    simp [this]

/-- Masking the merged byte gives back the inserted bits when these lie inside `mask`. -/
theorem merge_inside (old mask x : Nat) (hx : x < 256) (hmask : mask < 256)
    (hin : x &&& (255 ^^^ mask) = 0) :
    ((old &&& (255 ^^^ mask)) ||| (x &&& mask)) &&& mask = x := by
  apply Nat.eq_of_testBit_eq
  intro i
  have h0 := congrArg (fun n => Nat.testBit n i) hin
  simp only [Nat.testBit_and, Nat.testBit_xor, testBit_255, Nat.zero_testBit] at h0
  simp only [Nat.testBit_or, Nat.testBit_and, Nat.testBit_xor, testBit_255]
  by_cases hi : i < 8
  · simp only [hi, decide_True, Bool.true_xor] at h0 ⊢
    cases hxb : x.testBit i <;> cases hmb : mask.testBit i <;> simp [hxb, hmb] at h0 ⊢
  · have : x.testBit i = false :=
      Nat.testBit_lt_two_pow (lt_of_lt_of_le hx (by
        have : (256 : Nat) = 2 ^ 8 := by norm_num
        rw [this]; exact Nat.pow_le_pow_right (by norm_num) (by omega)))
    have hm : mask.testBit i = false :=
      Nat.testBit_lt_two_pow (lt_of_lt_of_le hmask (by
        have : (256 : Nat) = 2 ^ 8 := by norm_num
        rw [this]; exact Nat.pow_le_pow_right (by norm_num) (by omega)))
    simp [this, hm]

theorem shift_back (val pos : Nat) (hpos : pos ≤ 7) (hval : val < 2 ^ (8 - pos)) :
    ((val <<< pos) % 256) >>> pos = val := by
  have h256 : (256 : Nat) = 2 ^ (8 - pos) * 2 ^ pos := by
    rw [← Nat.pow_add]
    have : 8 - pos + pos = 8 := by omega
    rw [this]
  have hlt : val * 2 ^ pos < 256 := by
    rw [h256]
    exact Nat.mul_lt_mul_of_pos_right hval (Nat.two_pow_pos pos)
  rw [Nat.shiftLeft_eq, Nat.mod_eq_of_lt hlt, Nat.shiftRight_eq_div_pow,
    Nat.mul_div_cancel _ (Nat.two_pow_pos pos)]

/-- C24: for 8-bit `old`, `mask`, `val` and `pos ≤ 7`, `trxWriteBit` reads `old` and writes
back exactly `(old AND NOT mask) OR (((val << pos) mod 256) AND mask)`, an 8-bit value in which
every bit outside `mask` is the bit of `old`. When `(val << pos) mod 256` has no bit outside
`mask` and `val < 2 ^ (8 - pos)`, a following `trxReadBit` with the same address, mask and
position, the register reading back what was written, returns `val`; in general `trxReadBit`
returns `(reg AND mask) >> pos` for the register byte `reg`. -/
theorem trxWriteBit_value (addr mask pos val old a a2 b2 : Nat) (rest : List Nat) (s : Radio)
    (hmask : mask < 256) (hpos : pos ≤ 7) (hval : val < 256) (hold : old < 256)
    (hin : s.miso = a :: old :: a2 :: b2 :: rest) :
    trxWriteBit addr mask pos val s
        = some (afterBus s rest (regReadTr addr a old ++
            regWriteTr addr ((old &&& (255 ^^^ mask)) ||| (((val <<< pos) % 256) &&& mask))
              a2 b2)) ∧
      (old &&& (255 ^^^ mask)) ||| (((val <<< pos) % 256) &&& mask) < 256 ∧
      (∀ i, mask.testBit i = false →
        ((old &&& (255 ^^^ mask)) ||| (((val <<< pos) % 256) &&& mask)).testBit i
          = old.testBit i) ∧
      (((val <<< pos) % 256) &&& (255 ^^^ mask) = 0 → val < 2 ^ (8 - pos) →
        ∀ (a3 : Nat) (rest2 : List Nat) (s2 : Radio),
          s2.miso = a3 ::
            ((old &&& (255 ^^^ mask)) ||| (((val <<< pos) % 256) &&& mask)) :: rest2 →
          trxReadBit addr mask pos s2
            = some (val, afterBus s2 rest2 (regReadTr addr a3
                ((old &&& (255 ^^^ mask)) ||| (((val <<< pos) % 256) &&& mask))))) ∧
      (∀ (a3 reg : Nat) (rest2 : List Nat) (s2 : Radio), reg < 256 →
        s2.miso = a3 :: reg :: rest2 →
        trxReadBit addr mask pos s2
          = some ((reg &&& mask) >>> pos, afterBus s2 rest2 (regReadTr addr a3 reg))) := by
  have hw : (old &&& (255 ^^^ mask)) ||| (((val <<< pos) % 256) &&& mask) < 256 := by
    have e : (256 : Nat) = 2 ^ 8 := by norm_num
    rw [e]
    apply Nat.or_lt_two_pow
    · exact lt_of_le_of_lt Nat.and_le_left (by rw [← e]; exact hold)
    · exact lt_of_le_of_lt Nat.and_le_right (by rw [← e]; exact hmask)
  refine ⟨?_, hw, fun i hi => merge_outside old mask _ i hold hi, ?_, ?_⟩
  · unfold trxWriteBit
    rw [trxReadReg_cons addr a old _ s hin]
    simp only [andThen_some, Nat.mod_eq_of_lt hmask, Nat.mod_eq_of_lt hval,
      Nat.mod_eq_of_lt hold]
    rw [trxWriteReg_cons addr _ a2 b2 rest _ rfl]
    simp [afterBus, Nat.lor_comm]
  · intro hinside hsmall a3 rest2 s2 hin2
    have hread := trxReadBit_cons ⟨addr, mask, pos⟩ a3 _ rest2 s2 hin2
    rw [hread]
    simp only [subRegValue, Nat.mod_eq_of_lt hw, Nat.mod_eq_of_lt hmask,
      merge_inside old mask _ (Nat.mod_lt _ (by norm_num)) hmask hinside,
      shift_back val pos hpos hsmall, afterBus]
  · intro a3 reg rest2 s2 hreg hin2
    rw [trxReadBit_cons ⟨addr, mask, pos⟩ a3 reg rest2 s2 hin2]
    simp only [subRegValue, Nat.mod_eq_of_lt hreg, Nat.mod_eq_of_lt hmask, afterBus]

/-- Witness for C24: the sub-register with mask `0xE0` at position 5, old register value
`0x15`, value 3: `0x75` is written back. -/
theorem trxWriteBit_value_witness :
    trxWriteBit 0x02 0xE0 5 3 (listening 1 1 [] [] [0, 0x15, 0, 0])
        = some (afterBus (listening 1 1 [] [] [0, 0x15, 0, 0]) [] (regReadTr 0x02 0 0x15 ++
            regWriteTr 0x02 ((0x15 &&& (255 ^^^ 0xE0)) ||| (((3 <<< 5) % 256) &&& 0xE0))
              0 0)) ∧
      (0x15 &&& (255 ^^^ 0xE0)) ||| (((3 <<< 5) % 256) &&& 0xE0) < 256 ∧
      (∀ i, Nat.testBit 0xE0 i = false →
        ((0x15 &&& (255 ^^^ 0xE0)) ||| (((3 <<< 5) % 256) &&& 0xE0)).testBit i
          = Nat.testBit 0x15 i) ∧
      (((3 <<< 5) % 256) &&& (255 ^^^ 0xE0) = 0 → 3 < 2 ^ (8 - 5) →
        ∀ (a3 : Nat) (rest2 : List Nat) (s2 : Radio),
          s2.miso = a3 ::
            ((0x15 &&& (255 ^^^ 0xE0)) ||| (((3 <<< 5) % 256) &&& 0xE0)) :: rest2 →
          trxReadBit 0x02 0xE0 5 s2
            = some (3, afterBus s2 rest2 (regReadTr 0x02 a3
                ((0x15 &&& (255 ^^^ 0xE0)) ||| (((3 <<< 5) % 256) &&& 0xE0))))) ∧
      (∀ (a3 reg : Nat) (rest2 : List Nat) (s2 : Radio), reg < 256 →
        s2.miso = a3 :: reg :: rest2 →
        trxReadBit 0x02 0xE0 5 s2
          = some ((reg &&& 0xE0) >>> 5, afterBus s2 rest2 (regReadTr 0x02 a3 reg))) :=
  trxWriteBit_value 0x02 0xE0 5 3 0x15 0 0 0 [] (listening 1 1 [] [] [0, 0x15, 0, 0])
    (by decide) (by decide) (by decide) (by decide) rfl

/-! ### Short frames -/

theorem payWriteAll_header : ∀ (data : List Nat) (p : Payload) (i : Nat),
    (payWriteAll p i data).status = p.status ∧ (payWriteAll p i data).type = p.type := by
  intro data
  induction data with
  | nil => intro p i; exact ⟨rfl, rfl⟩
  | cons b bs ih =>
    intro p i
    simp only [payWriteAll]
    exact ih (payWriteByte p i (b % 256)) (i + 1)

/-- C26: `trxReceivePacket` does not reject short frames. For a CRC-valid frame with length
byte `L < 11` it stores the 8-bit payload length `L + 245` in the receive record and copies
`L + 243` data bytes from the bus into the new payload; for `L = 11` and `L = 12` it copies no
data byte and still reads the status byte and the type byte. In each case the call returns:
the number of rounds of the copy loop is the number of data bytes, below 256, so the 8-bit
loop counter reaches it. -/
theorem trxReceivePacket_short (K : Deps) (s : Radio)
    (a v y L fl fh seq dpl dph dal dah sal sah st ty lqi : Nat) (span data rest : List Nat)
    (hcrc : subRegValue K.SR_RX_CRC_VALID v ≠ 0) (hL : L ≤ 12)
    (hspan : span.length = if panIDCompBit fl = 0 then 2 else 0)
    (hdata : data.length = if L < 11 then L + 243 else 0)
    (hin : s.miso = a :: v :: y :: L :: fl :: fh :: seq :: dpl :: dph :: dal :: dah ::
      (span ++ sal :: sah :: st :: ty :: (data ++ lqi :: rest))) :
    ∃ s', trxReceivePacket K s = some s' ∧ s'.miso = rest ∧
      s'.mac_rx_packet_.payloadLength = (if L < 11 then L + 245 else L - 11) ∧
      received (s'.trace.drop s.trace.length)
        = a :: v :: y :: L :: fl :: fh :: seq :: dpl :: dph :: dal :: dah ::
            (span ++ sal :: sah :: st :: ty :: (data ++ [lqi])) ∧
      frameReads (s'.trace.drop s.trace.length)
        = [0x20 :: List.replicate (13 + span.length + data.length) 0] ∧
      s'.rx_queue_ = pqPush K s.rx_queue_ (rxPayload L st ty data) ∧
      (rxPayload L st ty data).status = st % 256 ∧
      (rxPayload L st ty data).type = ty % 256 ∧
      (L < 11 → rxPayload L st ty data
        = { status := st % 256, type := ty % 256, data := data.map (· % 256), iter := 0 }) ∧
      ((((s'.mac_rx_packet_.payloadLength : Nat) : Int) - 2).toNat = data.length ∧
        data.length < 256) := by
  have hn : rxPayloadLength L = if L < 11 then L + 245 else L - 11 := by
    simp only [rxPayloadLength, MAC_HEADER_LENGTH, CRC_LENGTH]
    split <;> omega
  have hd : data.length = rxPayloadLength L - 2 := by
    rw [hdata, hn]; split <;> omega
  have hspec := trxReceivePacket_spec K s a v y L fl fh seq dpl dph dal dah sal sah st ty lqi
    span data rest hcrc hspan hd hin
  refine ⟨_, hspec, rfl, hn, ?_, ?_, rfl, ?_, ?_, ?_, ?_⟩
  · simp [List.drop_left, received_append, received_reads, regReadTr, received]
  · have h1 := rr_ne_fr K.SR_RX_CRC_VALID.addr
    simp only [TRX_CMD_RR, TRX_CMD_FR] at h1
    simp only [List.drop_left, frameReads, transactions, List.foldl_append, scan_regReadTr,
      List.nil_append, List.foldl_cons, List.foldl_nil, Scan.step, scan_reads]
    simp [TRX_CMD_RR, TRX_CMD_FR, h1, List.filter]
    omega
  · simp [rxPayload, (payWriteAll_header data _ 0).1, paySetType, paySetStatus]
  · simp [rxPayload, (payWriteAll_header data _ 0).2, paySetType]
  · intro h11
    exact rxPayload_eq L st ty data (by rw [hn, if_pos h11]; omega) hd
  · show ((((rxPayloadLength L : Nat) : Int) - 2).toNat = data.length ∧ data.length < 256)
    rw [hd, hn]
    split <;> omega

/-- Witness for C26: length byte 5, so 248 data bytes are copied. -/
theorem trxReceivePacket_short_witness :
    ∃ s', trxReceivePacket at86rf231
        (listening 2 2 [] [] (0 :: 0x80 :: 0 :: 5 :: 0x61 :: 0x98 :: 7 :: 0x20 :: 0x20 :: 0x21 :: 0x20 ::
          ([] ++ 0x22 :: 0x20 :: 1 :: 2 :: (List.replicate 248 9 ++ 0xFF :: [])))) = some s' ∧
      s'.miso = [] ∧
      s'.mac_rx_packet_.payloadLength = (if 5 < 11 then 5 + 245 else 5 - 11) ∧
      received (s'.trace.drop
          (listening 2 2 [] [] (0 :: 0x80 :: 0 :: 5 :: 0x61 :: 0x98 :: 7 :: 0x20 :: 0x20 :: 0x21 :: 0x20 ::
          ([] ++ 0x22 :: 0x20 :: 1 :: 2 :: (List.replicate 248 9 ++ 0xFF :: [])))).trace.length)
        = 0 :: 0x80 :: 0 :: 5 :: 0x61 :: 0x98 :: 7 :: 0x20 :: 0x20 :: 0x21 :: 0x20 ::
            ([] ++ 0x22 :: 0x20 :: 1 :: 2 :: (List.replicate 248 9 ++ [0xFF])) ∧
      frameReads (s'.trace.drop
          (listening 2 2 [] [] (0 :: 0x80 :: 0 :: 5 :: 0x61 :: 0x98 :: 7 :: 0x20 :: 0x20 :: 0x21 :: 0x20 ::
          ([] ++ 0x22 :: 0x20 :: 1 :: 2 :: (List.replicate 248 9 ++ 0xFF :: [])))).trace.length)
        = [0x20 :: List.replicate
            (13 + ([] : List Nat).length + (List.replicate 248 9).length) 0] ∧
      s'.rx_queue_ = pqPush at86rf231
        (listening 2 2 [] [] (0 :: 0x80 :: 0 :: 5 :: 0x61 :: 0x98 :: 7 :: 0x20 :: 0x20 :: 0x21 :: 0x20 ::
          ([] ++ 0x22 :: 0x20 :: 1 :: 2 :: (List.replicate 248 9 ++ 0xFF :: [])))).rx_queue_
        (rxPayload 5 1 2 (List.replicate 248 9)) ∧
      (rxPayload 5 1 2 (List.replicate 248 9)).status = 1 % 256 ∧
      (rxPayload 5 1 2 (List.replicate 248 9)).type = 2 % 256 ∧
      (5 < 11 → rxPayload 5 1 2 (List.replicate 248 9)
        = { status := 1 % 256, type := 2 % 256,
            data := (List.replicate 248 9).map (· % 256), iter := 0 }) ∧
      ((((s'.mac_rx_packet_.payloadLength : Nat) : Int) - 2).toNat
          = (List.replicate 248 9).length ∧
        (List.replicate 248 9).length < 256) :=
  trxReceivePacket_short at86rf231
    (listening 2 2 [] [] (0 :: 0x80 :: 0 :: 5 :: 0x61 :: 0x98 :: 7 :: 0x20 :: 0x20 :: 0x21 :: 0x20 ::
          ([] ++ 0x22 :: 0x20 :: 1 :: 2 :: (List.replicate 248 9 ++ 0xFF :: []))))
    0 0x80 0 5 0x61 0x98 7 0x20 0x20 0x21 0x20 0x22 0x20 1 2 0xFF [] (List.replicate 248 9) []
    (by decide) (by decide) (by decide) rfl rfl

/-! ### What an entry into the driver leaves alone -/

theorem restStep_refl (s : Radio) : RestStep s s :=
  ⟨[], quiet_nil, by simp, rfl, rfl, rfl, rfl⟩

theorem restStep_trans {s s1 s' : Radio} (h1 : RestStep s s1) (h2 : RestStep s1 s') :
    RestStep s s' := by
  obtain ⟨t1, q1, e1, a1, b1, c1, d1⟩ := h1
  obtain ⟨t2, q2, e2, a2, b2, c2, d2⟩ := h2
  exact ⟨t1 ++ t2, quiet_append q1 q2, by rw [e2, e1, List.append_assoc], by rw [a2, a1],
    by rw [b2, b1], by rw [c2, c1], by rw [d2, d1]⟩

theorem restStep_afterBus (s : Radio) (rest : List Nat) (tr : List Ev) (q : Quiet tr) :
    RestStep s (afterBus s rest tr) := ⟨tr, q, rfl, rfl, rfl, rfl, rfl⟩

theorem restStep_wire {s s' : Radio} (h : RestStep s s') : WireStep s s' := by
  obtain ⟨tr, q, e, _, hm, _, _⟩ := h
  exact ⟨Or.inl ⟨tr, q, e⟩, Or.inl (by rw [hm])⟩

theorem restStep_mode {s s' : Radio} (h : RestStep s s') : ModeStep s s' := by
  obtain ⟨tr, q, e, _, _, hc, hq⟩ := h
  exact Or.inl ⟨hc, Or.inl (by rw [hq])⟩

theorem wireStep_prefix {s s1 s' : Radio} (h2 : WireStep s1 s') (t1 : List Ev) (q1 : Quiet t1)
    (e1 : s1.trace = s.trace ++ t1) (hsq : s1.sqn = s.sqn)
    (hm : s1.mac_tx_packet_ = s.mac_tx_packet_) : WireStep s s' := by
  obtain ⟨htr, hh⟩ := h2
  refine ⟨?_, by rw [← hm]; exact hh⟩
  rcases htr with ⟨tr, q, e⟩ | ⟨pre, pld, resp, d, q, hl, e⟩
  · exact Or.inl ⟨t1 ++ tr, quiet_append q1 q, by rw [e, e1, List.append_assoc]⟩
  · refine Or.inr ⟨t1 ++ pre, pld, resp, d, quiet_append q1 q, by rw [← hm, ← hsq]; exact hl, ?_⟩
    rw [e, e1, hm, hsq]
    simp only [List.append_assoc]

/-- When `trxSendPacket` returns, either it found `BUSY_TX_ARET` and did nothing, or it has
polled the status, popped the head of the outbound queue and written its frame. -/
theorem trxSendPacket_some (K : Deps) (s s' : Radio) (h : trxSendPacket K s = some s') :
    (s.current_state_ = RadioState.STATE_BUSY_TX_ARET ∧ s' = s) ∨
    (s.current_state_ ≠ RadioState.STATE_BUSY_TX_ARET ∧
      ∃ (tr : List Ev) (rest : List Nat) (pld : Payload) (items : List Payload)
        (resp rest2 : List Nat),
        Quiet tr ∧ s.tx_queue_.items = pld :: items ∧
        resp.length = 11 + payGetPayloadLength pld % 256 ∧
        s' = afterFrame (afterBus s rest tr) pld items resp rest2) := by
  unfold trxSendPacket at h
  split at h
  · next hb => exact Or.inl ⟨hb, (Option.some.inj h).symm⟩
  · next hb =>
    obtain ⟨s1, hp, hf⟩ := andThen_eq_some h
    obtain ⟨tr, rest, q, rfl⟩ := poll_some K _ _ _ hp
    obtain ⟨pld, items, hq, hlen⟩ := frame_needs _ s' hf
    have hl : ((afterBus s rest tr).miso.take (11 + payGetPayloadLength pld % 256)).length
        = 11 + payGetPayloadLength pld % 256 := by rw [List.length_take]; omega
    have e := frame_spec (afterBus s rest tr) pld items
      ((afterBus s rest tr).miso.take (11 + payGetPayloadLength pld % 256))
      ((afterBus s rest tr).miso.drop (11 + payGetPayloadLength pld % 256)) hq hl
      (List.take_append_drop _ _).symm
    rw [hf] at e
    exact Or.inr ⟨hb, tr, rest, pld, items, _, _, q, hq, hl, Option.some.inj e⟩

theorem trxSendPacket_wire (K : Deps) (s s' : Radio) (h : trxSendPacket K s = some s') :
    WireStep s s' := by
  rcases trxSendPacket_some K s s' h with ⟨_, rfl⟩ |
    ⟨_, tr, rest, pld, items, resp, rest2, q, hq, hl, rfl⟩
  · exact restStep_wire (restStep_refl _)
  · refine ⟨Or.inr ⟨tr, pld, resp, { pld with iter := payGetPayloadLength pld % 256 }, q, ?_, ?_⟩,
      Or.inl rfl⟩
    · rw [txFrame_length, hl]
    · simp [afterFrame, afterBus]

theorem trxSendPacket_mode (K : Deps) (s s' : Radio) (h : trxSendPacket K s = some s') :
    s' = s ∨ s'.current_state_ = RadioState.STATE_BUSY_TX_ARET := by
  rcases trxSendPacket_some K s s' h with ⟨_, rfl⟩ |
    ⟨_, tr, rest, pld, items, resp, rest2, q, hq, hl, rfl⟩
  · exact Or.inl rfl
  · exact Or.inr rfl

theorem trxReceivePacket_rest (K : Deps) (s s' : Radio) (h : trxReceivePacket K s = some s') :
    RestStep s s' := by
  obtain ⟨tr, q, e, hs⟩ := trxReceivePacket_quiet K s s' h
  obtain ⟨hq, hc, hm⟩ := trxReceivePacket_keeps_tx K s s' h
  exact ⟨tr, q, e, hs, hm, hc, hq⟩

theorem radioSendPayload_wire (K : Deps) (p : Payload) (s : Radio) (r : Nat × Radio)
    (h : radioSendPayload K p s = some r) : WireStep s r.2 := by
  unfold radioSendPayload at h
  split at h
  · obtain rfl := Option.some.inj h
    exact restStep_wire (restStep_refl _)
  · obtain ⟨s1, h1, h⟩ := andThen_eq_some h
    obtain rfl := Option.some.inj h
    have hw := trxSendPacket_wire K _ _ h1
    obtain ⟨htr, hh⟩ := hw
    exact ⟨htr, hh⟩

theorem radioSendPayload_mode (K : Deps) (p : Payload) (s : Radio) (r : Nat × Radio)
    (h : radioSendPayload K p s = some r) : ModeStep s r.2 := by
  unfold radioSendPayload at h
  split at h
  · obtain rfl := Option.some.inj h
    exact restStep_mode (restStep_refl _)
  · obtain ⟨s1, h1, h⟩ := andThen_eq_some h
    obtain rfl := Option.some.inj h
    rcases trxSendPacket_some K _ _ h1 with ⟨hb, rfl⟩ | ⟨_, tr, rest, pld, items, resp, rest2, _, _, _, rfl⟩
    · exact Or.inr (Or.inl hb)
    · exact Or.inr (Or.inl rfl)

theorem radioPutChar_wire (K : Deps) (c : Nat) (s s' : Radio)
    (h : radioPutChar K c s = some s') : WireStep s s' := by
  unfold radioPutChar at h
  obtain ⟨r, h1, h⟩ := andThen_eq_some h
  obtain rfl := Option.some.inj h
  exact wireStep_prefix (radioSendPayload_wire K _ _ _ h1)
    [Ev.payCreate (payCreate 1 [c % 256] 0 0)] (quiet_offBus _ ⟨by simp, by simp⟩) rfl rfl rfl

theorem radioPutChar_mode (K : Deps) (c : Nat) (s s' : Radio)
    (h : radioPutChar K c s = some s') : ModeStep s s' := by
  unfold radioPutChar at h
  obtain ⟨r, h1, h⟩ := andThen_eq_some h
  obtain rfl := Option.some.inj h
  have hm := radioSendPayload_mode K _ _ _ h1
  exact hm

/-- The branches of `trxHandleISR`: what it has done when it returns. -/
theorem trxHandleISR_some (K : Deps) (s s' : Radio) (h : trxHandleISR K s = some s') :
    ∃ s1, RestStep s s1 ∧
      (s' = s1 ∨
        (s.current_state_ = RadioState.STATE_RX_AACK_ON ∧ trxReceivePacket K s1 = some s') ∨
        (s.current_state_ ≠ RadioState.STATE_RX_AACK_ON ∧ s.tx_queue_.items = [] ∧
          ∃ s2, RestStep s s2 ∧ s' = { s2 with current_state_ := RadioState.STATE_RX_AACK_ON }) ∨
        (s.current_state_ ≠ RadioState.STATE_RX_AACK_ON ∧ s.tx_queue_.items ≠ [] ∧
          trxSendPacket K { s1 with current_state_ := RadioState.STATE_TX_ARET_ON } = some s')) := by
  unfold trxHandleISR at h
  obtain ⟨x, hx, h⟩ := andThen_eq_some h
  obtain ⟨a, v, rest, _, rfl⟩ := trxReadReg_some _ _ _ hx
  have r1 := restStep_afterBus s rest _ (quiet_regReadTr K.RG_IRQ_STATUS a v)
  simp only at h
  split at h
  · split at h
    · next hst => exact ⟨_, r1, Or.inr (Or.inl ⟨hst, h⟩)⟩
    · next hst =>
      obtain ⟨y, hy, h⟩ := andThen_eq_some h
      obtain ⟨a2, v2, rest2, _, rfl⟩ := trxReadBit_some K.SR_TRAC_STATUS _ _ hy
      have r2 := restStep_trans r1
        (restStep_afterBus _ rest2 _ (quiet_regReadTr K.SR_TRAC_STATUS.addr a2 v2))
      simp only at h
      split at h
      · next hemp =>
        obtain ⟨s3, h3, h⟩ := andThen_eq_some h
        obtain ⟨s4, h4, h⟩ := andThen_eq_some h
        obtain ⟨t3, r3, q3, rfl⟩ := trxWriteReg_some _ _ _ _ h3
        obtain ⟨t4, r4, q4, rfl⟩ := trxWriteReg_some _ _ _ _ h4
        obtain rfl := Option.some.inj h
        have hnil : s.tx_queue_.items = [] := by
          simpa [pqIsEmpty, afterBus] using hemp
        exact ⟨_, r2, Or.inr (Or.inr (Or.inl ⟨by simpa [afterBus] using hst, hnil, _,
          restStep_trans r2 (restStep_trans (restStep_afterBus _ r3 t3 q3)
            (restStep_afterBus _ r4 t4 q4)), rfl⟩))⟩
      · next hemp =>
        have hne : s.tx_queue_.items ≠ [] := by
          simpa [pqIsEmpty, afterBus] using hemp
        exact ⟨_, r2, Or.inr (Or.inr (Or.inr ⟨by simpa [afterBus] using hst, hne, h⟩))⟩
  · obtain rfl := Option.some.inj h
    exact ⟨_, r1, Or.inl rfl⟩

theorem trxHandleISR_wire (K : Deps) (s s' : Radio) (h : trxHandleISR K s = some s') :
    WireStep s s' := by
  obtain ⟨s1, r1, hc⟩ := trxHandleISR_some K s s' h
  rcases hc with rfl | ⟨_, hrx⟩ | ⟨_, _, s2, r2, rfl⟩ | ⟨_, _, htx⟩
  · exact restStep_wire r1
  · exact restStep_wire (restStep_trans r1 (trxReceivePacket_rest K _ _ hrx))
  · obtain ⟨tr, q, e, _, hm, _, _⟩ := r2
    exact ⟨Or.inl ⟨tr, q, e⟩, Or.inl (by show txHeader s2.mac_tx_packet_ = _; rw [hm])⟩
  · obtain ⟨tr, q, e, hs, hm, _, _⟩ := r1
    exact wireStep_prefix (trxSendPacket_wire K _ _ htx) tr q e hs hm

theorem trxHandleISR_mode (K : Deps) (s s' : Radio) (h : trxHandleISR K s = some s') :
    ModeStep s s' := by
  obtain ⟨s1, r1, hc⟩ := trxHandleISR_some K s s' h
  rcases hc with rfl | ⟨_, hrx⟩ | ⟨_, hnil, s2, r2, rfl⟩ | ⟨_, _, htx⟩
  · exact restStep_mode r1
  · exact restStep_mode (restStep_trans r1 (trxReceivePacket_rest K _ _ hrx))
  · obtain ⟨_, _, _, _, _, _, hq⟩ := r2
    exact Or.inr (Or.inr ⟨rfl, by show s2.tx_queue_.items = []; rw [hq, hnil]⟩)
  · rcases trxSendPacket_some K _ _ htx with ⟨hb, _⟩ |
      ⟨_, tr, rest, pld, items, resp, rest2, _, _, _, rfl⟩
    · have hb2 : RadioState.STATE_TX_ARET_ON = RadioState.STATE_BUSY_TX_ARET := hb
      exact absurd hb2 (by decide)
    · exact Or.inr (Or.inl rfl)

/-- The state `radioSetup` returns, when it returns. -/
theorem radioSetup_some (K : Deps) (N rx : Nat) (mem_rx mem_tx : MacPacketStruct)
    (s s' : Radio) (h : radioSetup K N rx mem_rx mem_tx s = some s') :
    ∃ tr, Quiet tr ∧ s' = afterSetup s N rx mem_rx mem_tx (s.miso.drop 36) tr := by
  by_cases hl : s.miso.length < 36
  · simp [radioSetup, (busOnly_trxSetup K s).1 hl] at h
  · obtain ⟨tr, q, e⟩ := radioSetup_spec K N rx mem_rx mem_tx s (by omega)
    rw [h] at e
    exact ⟨tr, q, Option.some.inj e⟩

theorem radioSetup_wire (K : Deps) (N rx : Nat) (mem_rx mem_tx : MacPacketStruct)
    (s s' : Radio) (h : radioSetup K N rx mem_rx mem_tx s = some s') : WireStep s s' := by
  obtain ⟨tr, q, rfl⟩ := radioSetup_some K N rx mem_rx mem_tx s s' h
  exact ⟨Or.inl ⟨tr ++ [Ev.configINT4], quiet_append q (quiet_offBus _ ⟨by simp, by simp⟩), rfl⟩,
    Or.inr ⟨mem_tx, rfl⟩⟩

theorem radioSetup_mode (K : Deps) (N rx : Nat) (mem_rx mem_tx : MacPacketStruct)
    (s s' : Radio) (h : radioSetup K N rx mem_rx mem_tx s = some s') : ModeStep s s' := by
  obtain ⟨tr, q, rfl⟩ := radioSetup_some K N rx mem_rx mem_tx s s' h
  exact Or.inr (Or.inr ⟨rfl, rfl⟩)

theorem radioGetChar_read_rest (K : Deps) (s : Radio) (r : Nat × Option Nat × Radio)
    (h : radioGetChar.read K s = some r) : RestStep s r.2.2 := by
  unfold radioGetChar.read at h
  obtain ⟨p, _, h⟩ := andThen_eq_some h
  simp only at h
  split at h
  · obtain rfl := Option.some.inj h
    exact ⟨[Ev.payDelete p], quiet_offBus _ ⟨by simp, by simp⟩, rfl, rfl, rfl, rfl, rfl⟩
  · obtain rfl := Option.some.inj h
    exact restStep_refl _

theorem radioGetChar_rest (K : Deps) (s : Radio) (r : Nat × Option Nat × Radio)
    (h : radioGetChar K s = some r) : RestStep s r.2.2 := by
  unfold radioGetChar at h
  split at h
  · split at h
    · obtain rfl := Option.some.inj h
      exact restStep_refl _
    · obtain ⟨⟨p, q⟩, _, h⟩ := andThen_eq_some h
      simp only at h
      have h2 := radioGetChar_read_rest K _ _ h
      obtain ⟨tr, qt, e, a, b, c, d⟩ := h2
      exact ⟨tr, qt, e, a, b, c, d⟩
  · exact radioGetChar_read_rest K _ _ h

theorem radioGetRxPayload_rest (s : Radio) : RestStep s (radioGetRxPayload s).2 := by
  unfold radioGetRxPayload
  split
  · exact restStep_refl _
  · split
    · exact restStep_refl _
    · exact ⟨[], quiet_nil, by simp, rfl, rfl, rfl, rfl⟩

theorem drainTx_keeps : ∀ (n : Nat) (s : Radio),
    (radioDeleteQueues.drainTx n s).current_state_ = s.current_state_ ∧
      (radioDeleteQueues.drainTx n s).mac_tx_packet_ = s.mac_tx_packet_ ∧
      (s.tx_queue_.items.length ≤ n → (radioDeleteQueues.drainTx n s).tx_queue_.items = []) := by
  intro n
  induction n with
  | zero =>
    intro s
    exact ⟨rfl, rfl, fun hl => List.length_eq_zero.mp (Nat.le_zero.mp hl)⟩
  | succ n ih =>
    intro s
    unfold radioDeleteQueues.drainTx
    cases hi : s.tx_queue_.items with
    | nil => simp [pqIsEmpty, hi]
    | cons p items =>
      simp only [pqIsEmpty, hi, List.isEmpty_cons, Bool.false_eq_true, if_false, pqPop]
      obtain ⟨a, b, c⟩ := ih
        { s with tx_queue_ := { s.tx_queue_ with items := items },
                 trace := s.trace ++ [Ev.payDelete p] }
      exact ⟨a, b, fun hl => c (by simpa using hl)⟩

theorem drainRx_keeps : ∀ (n : Nat) (s : Radio),
    (radioDeleteQueues.drainRx n s).current_state_ = s.current_state_ ∧
      (radioDeleteQueues.drainRx n s).mac_tx_packet_ = s.mac_tx_packet_ ∧
      (radioDeleteQueues.drainRx n s).tx_queue_ = s.tx_queue_ := by
  intro n
  induction n with
  | zero => intro s; exact ⟨rfl, rfl, rfl⟩
  | succ n ih =>
    intro s
    unfold radioDeleteQueues.drainRx
    cases hi : s.rx_queue_.items with
    | nil => simp [pqIsEmpty, hi]
    | cons p items =>
      simp only [pqIsEmpty, hi, List.isEmpty_cons, Bool.false_eq_true, if_false, pqPop]
      exact ih
        { s with rx_queue_ := { s.rx_queue_ with items := items },
                 trace := s.trace ++ [Ev.payDelete p] }

theorem radioDeleteQueues_wire (s : Radio) : WireStep s (radioDeleteQueues s) := by
  obtain ⟨tr, q, e, _⟩ := quietStep_trans (drainTx_step s.tx_queue_.items.length s)
    (drainRx_step (radioDeleteQueues.drainTx s.tx_queue_.items.length s).rx_queue_.items.length _)
  refine ⟨Or.inl ⟨tr, q, e⟩, Or.inl ?_⟩
  have h1 := (drainTx_keeps s.tx_queue_.items.length s).2.1
  have h2 := (drainRx_keeps
    (radioDeleteQueues.drainTx s.tx_queue_.items.length s).rx_queue_.items.length
    (radioDeleteQueues.drainTx s.tx_queue_.items.length s)).2.1
  show txHeader (radioDeleteQueues s).mac_tx_packet_ = _
  unfold radioDeleteQueues
  rw [h2, h1]

theorem radioDeleteQueues_mode (s : Radio) : ModeStep s (radioDeleteQueues s) := by
  have h1 := drainTx_keeps s.tx_queue_.items.length s
  have h2 := drainRx_keeps
    (radioDeleteQueues.drainTx s.tx_queue_.items.length s).rx_queue_.items.length
    (radioDeleteQueues.drainTx s.tx_queue_.items.length s)
  refine Or.inl ⟨?_, Or.inr ?_⟩
  · unfold radioDeleteQueues
    rw [h2.1, h1.1]
  · unfold radioDeleteQueues
    rw [h2.2.2]
    exact h1.2.2 (Nat.le_refl _)

/-- Every entry into the driver that returns has written no frame, or one frame made of the
header fields of the transmit staging record, and has kept these fields or set up a new
record. -/
theorem exec_wire (K : Deps) (c : Call) (s s' : Radio) (h : Call.exec K c s = some s') :
    WireStep s s' := by
  cases c with
  | radioSetup tx rx mem_rx mem_tx => exact radioSetup_wire K tx rx mem_rx mem_tx s s' h
  | radioSendPayload pay =>
    simp only [Call.exec, Option.map_eq_some'] at h
    obtain ⟨r, hr, rfl⟩ := h
    exact radioSendPayload_wire K pay s r hr
  | radioPutChar c => exact radioPutChar_wire K c s s' h
  | radioGetRxPayload =>
    simp only [Call.exec, Option.some.injEq] at h
    subst h
    exact restStep_wire (radioGetRxPayload_rest s)
  | radioGetChar =>
    simp only [Call.exec, Option.map_eq_some'] at h
    obtain ⟨r, hr, rfl⟩ := h
    exact restStep_wire (radioGetChar_rest K s r hr)
  | radioDeleteQueues =>
    simp only [Call.exec, Option.some.injEq] at h
    subst h
    exact radioDeleteQueues_wire s
  | interrupt => exact trxHandleISR_wire K s s' h

/-- Every entry into the driver that returns leaves the current state alone, with the outbound
queue as it was or empty, or ends in `BUSY_TX_ARET`, or ends in `RX_AACK_ON` with the outbound
queue empty. -/
theorem exec_mode (K : Deps) (c : Call) (s s' : Radio) (h : Call.exec K c s = some s') :
    ModeStep s s' := by
  cases c with
  | radioSetup tx rx mem_rx mem_tx => exact radioSetup_mode K tx rx mem_rx mem_tx s s' h
  | radioSendPayload pay =>
    simp only [Call.exec, Option.map_eq_some'] at h
    obtain ⟨r, hr, rfl⟩ := h
    exact radioSendPayload_mode K pay s r hr
  | radioPutChar c => exact radioPutChar_mode K c s s' h
  | radioGetRxPayload =>
    simp only [Call.exec, Option.some.injEq] at h
    subst h
    exact restStep_mode (radioGetRxPayload_rest s)
  | radioGetChar =>
    simp only [Call.exec, Option.map_eq_some'] at h
    obtain ⟨r, hr, rfl⟩ := h
    exact restStep_mode (radioGetChar_rest K s r hr)
  | radioDeleteQueues =>
    simp only [Call.exec, Option.some.injEq] at h
    subst h
    exact radioDeleteQueues_mode s
  | interrupt => exact trxHandleISR_mode K s s' h

/-! ### Reachable states -/

theorem modeInv_step {s s' : Radio} (hi : ModeInv s) (h : ModeStep s s') : ModeInv s' := by
  obtain ⟨h1, h2⟩ := hi
  rcases h with ⟨hc, hq⟩ | hb | ⟨hr, hq⟩
  · refine ⟨by rw [hc]; exact h1, fun hrx => ?_⟩
    rcases hq with hq | hq
    · rw [hq]; exact h2 (by rw [← hc]; exact hrx)
    · exact hq
  · exact ⟨Or.inr hb, fun hrx => by rw [hb] at hrx; exact absurd hrx (by decide)⟩
  · exact ⟨Or.inl hr, fun _ => hq⟩

theorem run_modeInv (K : Deps) : ∀ (calls : List Call) (s s' : Radio),
    ModeInv s → run K calls s = some s' → ModeInv s' := by
  intro calls
  induction calls with
  | nil =>
    intro s s' hi h
    simp only [run, Option.some.injEq] at h
    subst h
    exact hi
  | cons c cs ih =>
    intro s s' hi h
    simp only [run] at h
    obtain ⟨s1, h1, h⟩ := andThen_eq_some h
    exact ih s1 s' (modeInv_step hi (exec_mode K c s s1 h1)) h

theorem hdrOK_create (mem : MacPacketStruct) : HdrOK (trxCreateMacPacket mem) := by
  simp only [HdrOK, txHeader, trxCreateMacPacket_frame_ctrl]
  rfl

theorem txFrame_default (m : MacPacketStruct) (sqn : Nat) (p : Payload) (h : HdrOK m) :
    txFrame m sqn p = defaultFrame sqn p := by
  simp only [HdrOK, txHeader, Prod.mk.injEq] at h
  obtain ⟨h1, h2, h3, h4⟩ := h
  simp only [txFrame, defaultFrame, wireBytes, h1, h2, h3, h4, LB, HB, TRX_CMD_FW,
    MAC_HEADER_LENGTH, CRC_LENGTH, DEFAULT_DEST_PAN_ID, DEFAULT_DEST_ADDR, DEFAULT_SRC_ADDR]

theorem hdrInv_step {s s' : Radio} (hi : HdrInv s) (h : WireStep s s') : HdrInv s' := by
  obtain ⟨hok, txs, hscan, hall⟩ := hi
  obtain ⟨htr, hh⟩ := h
  have hok' : HdrOK s'.mac_tx_packet_ := by
    rcases hh with hh | ⟨mem, hh⟩
    · unfold HdrOK at hok ⊢; rw [hh]; exact hok
    · rw [hh]; exact hdrOK_create mem
  refine ⟨hok', ?_⟩
  rcases htr with ⟨tr, q, e⟩ | ⟨pre, pld, resp, d, q, hl, e⟩
  · obtain ⟨x, ex, hn⟩ := q txs
    refine ⟨txs ++ x, by rw [e, List.foldl_append, hscan, ex], ?_⟩
    rw [List.filter_append, filter_noFrame x hn, List.append_nil]
    exact hall
  · obtain ⟨x, ex, hn⟩ := scan_sendTrace txs pre (txFrame s.mac_tx_packet_ s.sqn pld) resp d q hl
    refine ⟨txs ++ x ++ [txFrame s.mac_tx_packet_ s.sqn pld],
      by rw [e, List.foldl_append, hscan, ex], ?_⟩
    intro f hf
    have hhead : (txFrame s.mac_tx_packet_ s.sqn pld).head? = some TRX_CMD_FW := by
      simp [txFrame]
    simp only [List.filter_append, filter_noFrame x hn, List.append_nil, List.mem_append] at hf
    rcases hf with hf | hf
    · exact hall f hf
    · simp only [List.filter, hhead, decide_True, List.mem_singleton] at hf
      exact ⟨s.sqn, pld, by rw [hf]; exact txFrame_default _ _ _ hok⟩

theorem run_hdrInv (K : Deps) : ∀ (calls : List Call) (s s' : Radio),
    HdrInv s → run K calls s = some s' → HdrInv s' := by
  intro calls
  induction calls with
  | nil =>
    intro s s' hi h
    simp only [run, Option.some.injEq] at h
    subst h
    exact hi
  | cons c cs ih =>
    intro s s' hi h
    simp only [run] at h
    obtain ⟨s1, h1, h⟩ := andThen_eq_some h
    exact ih s1 s' (hdrInv_step hi (exec_wire K c s s1 h1)) h

/-- C25: in every state reached by `radioSetup` followed by any sequence of entries that
return (public calls and radio interrupts, one after the other), the current state is
`RX_AACK_ON` or `BUSY_TX_ARET`, and whenever it is `RX_AACK_ON` the outbound queue is
empty. -/
theorem state_invariant (K : Deps) (s0 : Radio) (tx rx : Nat) (mem_rx mem_tx : MacPacketStruct)
    (calls : List Call) (s : Radio)
    (hrun : run K (Call.radioSetup tx rx mem_rx mem_tx :: calls) s0 = some s) :
    (s.current_state_ = RadioState.STATE_RX_AACK_ON ∨
      s.current_state_ = RadioState.STATE_BUSY_TX_ARET) ∧
    (s.current_state_ = RadioState.STATE_RX_AACK_ON →
      s.tx_queue_.items = [] ∧ pqIsEmpty s.tx_queue_ = true) := by
  simp only [run] at hrun
  obtain ⟨S1, h1, hrest⟩ := andThen_eq_some hrun
  obtain ⟨tr, _, rfl⟩ := radioSetup_some K tx rx mem_rx mem_tx s0 S1 h1
  have hinit : ModeInv (afterSetup s0 tx rx mem_rx mem_tx (s0.miso.drop 36) tr) :=
    ⟨Or.inl rfl, fun _ => rfl⟩
  obtain ⟨ha, hb⟩ := run_modeInv K calls _ s hinit hrest
  exact ⟨ha, fun hrx => ⟨hb hrx, by simp [pqIsEmpty, hb hrx]⟩⟩

/-- Witness for C25: the run `demoCalls`, which ends with a transfer in flight. -/
theorem state_invariant_witness :
    demoFinal.current_state_ = RadioState.STATE_BUSY_TX_ARET ∧
    ((demoFinal.current_state_ = RadioState.STATE_RX_AACK_ON ∨
        demoFinal.current_state_ = RadioState.STATE_BUSY_TX_ARET) ∧
      (demoFinal.current_state_ = RadioState.STATE_RX_AACK_ON →
        demoFinal.tx_queue_.items = [] ∧ pqIsEmpty demoFinal.tx_queue_ = true)) :=
  ⟨by decide, state_invariant at86rf231 (powerOn demoInput) 1 1 zeroMem zeroMem
    [Call.radioSendPayload samplePayload, Call.radioSendPayload samplePayload, Call.interrupt]
    demoFinal rfl⟩

/-- C21: the staging record built by `trxCreateMacPacket` has the frame-control bytes `0x61`
(low, with bit 6, PAN-ID compression, set) and `0x98` (high), and every frame written in a run
that starts with `radioSetup` at program start is the command `0x60`, the length byte, the
nine header bytes `0x61, 0x98`, sequence number, destination PAN ID, destination address and
source address (no source PAN ID), then the payload bytes: exactly nine bytes lie between the
length byte and the first payload byte. -/
theorem frames_after_setup (K : Deps) (s0 : Radio) (tx rx : Nat)
    (mem_rx mem_tx : MacPacketStruct) (calls : List Call) (s : Radio)
    (ht : s0.trace = [])
    (hrun : run K (Call.radioSetup tx rx mem_rx mem_tx :: calls) s0 = some s) :
    LB (trxCreateMacPacket mem_tx).frame_ctrl = 0x61 ∧
    HB (trxCreateMacPacket mem_tx).frame_ctrl = 0x98 ∧
    panIDCompBit 0x61 = 1 ∧
    ∀ f ∈ frameWrites s.trace, ∃ sqn p,
      f = [0x60, (payGetPayloadLength p % 256 + 9 + 2) % 256, 0x61, 0x98, sqn % 256,
            0x20, 0x20, 0x21, 0x20, 0x22, 0x20] ++ wireBytes p ∧
      f[2]? = some 0x61 ∧ f[3]? = some 0x98 ∧
      f.drop 11 = wireBytes p ∧
      f.length = 2 + 9 + payGetPayloadLength p % 256 := by
  simp only [run] at hrun
  obtain ⟨S1, h1, hrest⟩ := andThen_eq_some hrun
  obtain ⟨tr, q, rfl⟩ := radioSetup_some K tx rx mem_rx mem_tx s0 S1 h1
  have hinit : HdrInv (afterSetup s0 tx rx mem_rx mem_tx (s0.miso.drop 36) tr) := by
    refine ⟨hdrOK_create mem_tx, ?_⟩
    obtain ⟨x, ex, hn⟩ :=
      (quiet_append q (quiet_offBus Ev.configINT4 ⟨by simp, by simp⟩)) []
    refine ⟨x, ?_, ?_⟩
    · show (s0.trace ++ (tr ++ [Ev.configINT4])).foldl Scan.step _ = _
      rw [ht]
      simpa using ex
    · rw [filter_noFrame x hn]; simp
  obtain ⟨_, txs, hscan, hall⟩ := run_hdrInv K calls _ s hinit hrest
  refine ⟨by rw [trxCreateMacPacket_frame_ctrl]; rfl, by rw [trxCreateMacPacket_frame_ctrl]; rfl,
    by decide, ?_⟩
  intro f hf
  have hfw : frameWrites s.trace = txs.filter fun t => t.head? = some TRX_CMD_FW := by
    simp only [frameWrites, transactions, hscan]
  rw [hfw] at hf
  obtain ⟨sqn, p, rfl⟩ := hall f hf
  refine ⟨sqn, p, rfl, by simp [defaultFrame], by simp [defaultFrame], by simp [defaultFrame], ?_⟩
  simp [defaultFrame, wireBytes, payYield_length]
  omega

/-- Witness for C21: the two frames of the run `demoCalls`. -/
theorem frames_after_setup_witness :
    frameWrites demoFinal.trace
        = [[0x60, 15, 0x61, 0x98, 0, 0x20, 0x20, 0x21, 0x20, 0x22, 0x20, 0, 0, 0xAA, 0xBB],
            [0x60, 15, 0x61, 0x98, 1, 0x20, 0x20, 0x21, 0x20, 0x22, 0x20, 0, 0, 0xAA, 0xBB]] ∧
    (LB (trxCreateMacPacket zeroMem).frame_ctrl = 0x61 ∧
      HB (trxCreateMacPacket zeroMem).frame_ctrl = 0x98 ∧
      panIDCompBit 0x61 = 1 ∧
      ∀ f ∈ frameWrites demoFinal.trace, ∃ sqn p,
        f = [0x60, (payGetPayloadLength p % 256 + 9 + 2) % 256, 0x61, 0x98, sqn % 256,
              0x20, 0x20, 0x21, 0x20, 0x22, 0x20] ++ wireBytes p ∧
        f[2]? = some 0x61 ∧ f[3]? = some 0x98 ∧
        f.drop 11 = wireBytes p ∧
        f.length = 2 + 9 + payGetPayloadLength p % 256) :=
  ⟨by decide!, frames_after_setup at86rf231 (powerOn demoInput) 1 1 zeroMem zeroMem
    [Call.radioSendPayload samplePayload, Call.radioSendPayload samplePayload, Call.interrupt]
    demoFinal rfl rfl⟩

/-! ### Payload reference of the transmit staging record -/

theorem afterFrame_trace_end (s : Radio) (pld : Payload) (items : List Payload)
    (resp rest : List Nat) :
    ∃ pre, (afterFrame s pld items resp rest).trace
      = pre ++ [Ev.cs 1, Ev.payDelete { pld with iter := payGetPayloadLength pld % 256 }] :=
  ⟨s.trace ++ ([Ev.slptr 1, Ev.slptr 0, Ev.cs 0] ++
    List.zipWith Ev.xfer (txFrame s.mac_tx_packet_ s.sqn pld) resp), by simp [afterFrame]⟩

theorem restStep_ref {s s' : Radio} (h : RestStep s s') : RefStep s s' := by
  obtain ⟨_, _, _, _, hm, _, _⟩ := h
  exact Or.inl (by rw [hm])

theorem trxSendPacket_ref (K : Deps) (s s' : Radio) (h : trxSendPacket K s = some s') :
    s'.mac_tx_packet_.payload = s.mac_tx_packet_.payload ∨
    (∃ (d : Payload) (pre : List Ev),
      s'.mac_tx_packet_.payload = some d ∧ s'.trace = pre ++ [Ev.cs 1, Ev.payDelete d]) := by
  rcases trxSendPacket_some K s s' h with ⟨_, rfl⟩ |
    ⟨_, tr, rest, pld, items, resp, rest2, q, hq, hl, rfl⟩
  · exact Or.inl rfl
  · obtain ⟨pre, hpre⟩ := afterFrame_trace_end (afterBus s rest tr) pld items resp rest2
    exact Or.inr ⟨{ pld with iter := payGetPayloadLength pld % 256 }, pre, rfl, hpre⟩

theorem exec_ref (K : Deps) (c : Call) (s s' : Radio) (h : Call.exec K c s = some s') :
    RefStep s s' := by
  cases c with
  | radioSetup tx rx mem_rx mem_tx =>
    obtain ⟨tr, q, rfl⟩ := radioSetup_some K tx rx mem_rx mem_tx s s' h
    exact Or.inr (Or.inr ⟨mem_tx, rfl, rfl⟩)
  | radioSendPayload pay =>
    simp only [Call.exec, Option.map_eq_some'] at h
    obtain ⟨r, hr, rfl⟩ := h
    unfold radioSendPayload at hr
    split at hr
    · obtain rfl := Option.some.inj hr
      exact Or.inl rfl
    · obtain ⟨s1, h1, hr⟩ := andThen_eq_some hr
      obtain rfl := Option.some.inj hr
      rcases trxSendPacket_ref K _ _ h1 with h2 | h2
      · exact Or.inl h2
      · exact Or.inr (Or.inl h2)
  | radioPutChar c =>
    unfold Call.exec radioPutChar at h
    obtain ⟨r, hr, h⟩ := andThen_eq_some h
    obtain rfl := Option.some.inj h
    unfold radioSendPayload at hr
    split at hr
    · obtain rfl := Option.some.inj hr
      exact Or.inl rfl
    · obtain ⟨s1, h1, hr⟩ := andThen_eq_some hr
      obtain rfl := Option.some.inj hr
      rcases trxSendPacket_ref K _ _ h1 with h2 | h2
      · exact Or.inl h2
      · exact Or.inr (Or.inl h2)
  | radioGetRxPayload =>
    simp only [Call.exec, Option.some.injEq] at h
    subst h
    exact restStep_ref (radioGetRxPayload_rest s)
  | radioGetChar =>
    simp only [Call.exec, Option.map_eq_some'] at h
    obtain ⟨r, hr, rfl⟩ := h
    exact restStep_ref (radioGetChar_rest K s r hr)
  | radioDeleteQueues =>
    simp only [Call.exec, Option.some.injEq] at h
    subst h
    have h1 := (drainTx_keeps s.tx_queue_.items.length s).2.1
    have h2 := (drainRx_keeps
      (radioDeleteQueues.drainTx s.tx_queue_.items.length s).rx_queue_.items.length
      (radioDeleteQueues.drainTx s.tx_queue_.items.length s)).2.1
    refine Or.inl ?_
    unfold radioDeleteQueues
    rw [h2, h1]
  | interrupt =>
    obtain ⟨s1, r1, hc⟩ := trxHandleISR_some K s s' h
    rcases hc with rfl | ⟨_, hrx⟩ | ⟨_, _, s2, r2, rfl⟩ | ⟨_, _, htx⟩
    · exact restStep_ref r1
    · exact restStep_ref (restStep_trans r1 (trxReceivePacket_rest K _ _ hrx))
    · obtain ⟨_, _, _, _, hm, _, _⟩ := r2
      exact Or.inl (by show s2.mac_tx_packet_.payload = _; rw [hm])
    · obtain ⟨_, _, _, _, hm, _, _⟩ := r1
      rcases trxSendPacket_ref K _ _ htx with h2 | h2
      · exact Or.inl (by rw [h2]; show s1.mac_tx_packet_.payload = _; rw [hm])
      · exact Or.inr (Or.inl h2)

/-- C22 (as stated, refuted): after `radioSetup` and one `radioSendPayload` that returns 1,
the payload reference of the transmit staging record is not null: it still refers to the
payload that was sent and deleted. -/
theorem staging_payload_kept_after_send :
    (andThen (radioSetup at86rf231 1 1 zeroMem zeroMem
        (powerOn (List.replicate 36 0 ++ [0, 22, 0, 0, 0, 0] ++ List.replicate 15 0))) fun s =>
      andThen (radioSendPayload at86rf231 samplePayload s) fun r =>
      some (r.1, r.2.mac_tx_packet_.payload))
      = some (1, some { samplePayload with iter := 4 }) := by
  decide

/-- C22 (amended): when `trxSendPacket` returns from a state other than `BUSY_TX_ARET`, the
payload reference of the transmit staging record was assigned at the pop (state `S3`, before
the frame write), the payload was deleted right after the release of chip-select (the last two
events of the trace), and on return the reference still holds that deleted payload. Every
entry into the driver that returns leaves the reference as it was, or returns after such a
frame write, or (`radioSetup`) installs a new record whose reference is what the allocated
memory held. -/
theorem staging_reference (K : Deps) (s s' : Radio) (h : trxSendPacket K s = some s')
    (hst : s.current_state_ ≠ RadioState.STATE_BUSY_TX_ARET) :
    (∃ (S2 S3 : Radio) (pld : Payload) (items : List Payload) (pre : List Ev),
      trxSendPacket.poll K s.miso.length s = some S2 ∧
      S2.tx_queue_.items = pld :: items ∧
      trxSendPacket.stage S2 = some S3 ∧
      S3.mac_tx_packet_.payload = some pld ∧ S3.trace = S2.trace ∧
      trxSendPacket.write S3 = some s' ∧
      s'.trace = pre ++ [Ev.cs 1, Ev.payDelete { pld with iter := payGetPayloadLength pld % 256 }] ∧
      s'.mac_tx_packet_.payload = some { pld with iter := payGetPayloadLength pld % 256 }) ∧
    (∀ (c : Call) (t t' : Radio), Call.exec K c t = some t' → RefStep t t') ∧
    (∀ mem : MacPacketStruct, (trxCreateMacPacket mem).payload = mem.payload) := by
  refine ⟨?_, fun c t t' ht => exec_ref K c t t' ht, fun mem => rfl⟩
  unfold trxSendPacket at h
  rw [if_neg hst] at h
  obtain ⟨S2, hp, hf⟩ := andThen_eq_some h
  obtain ⟨pld, items, hq, hlen⟩ := frame_needs S2 s' hf
  have hl : (S2.miso.take (11 + payGetPayloadLength pld % 256)).length
      = 11 + payGetPayloadLength pld % 256 := by rw [List.length_take]; omega
  have e := frame_spec S2 pld items (S2.miso.take (11 + payGetPayloadLength pld % 256))
    (S2.miso.drop (11 + payGetPayloadLength pld % 256)) hq hl (List.take_append_drop _ _).symm
  rw [hf] at e
  obtain rfl := Option.some.inj e
  have hs : trxSendPacket.stage S2 = some
      { S2 with
        tx_queue_ := { S2.tx_queue_ with items := items },
        mac_tx_packet_ := { S2.mac_tx_packet_ with
          payload := some pld, payloadLength := payGetPayloadLength pld % 256 },
        current_state_ := RadioState.STATE_BUSY_TX_ARET } := by
    simp only [trxSendPacket.stage, pqPop, hq, andThen_some]
  have hw := hf
  rw [frame_eq_stage_write, hs, andThen_some] at hw
  obtain ⟨pre, hpre⟩ := afterFrame_trace_end S2 pld items
    (S2.miso.take (11 + payGetPayloadLength pld % 256))
    (S2.miso.drop (11 + payGetPayloadLength pld % 256))
  exact ⟨S2, _, pld, items, pre, hp, hq, hs, rfl, rfl, hw, hpre, rfl⟩

/-- Witness for C22 (amended): one frame sent from the listening state. -/
theorem staging_reference_witness :
    sentOnce.mac_tx_packet_.payload = some { samplePayload with iter := 4 } ∧
    ((∃ (S2 S3 : Radio) (pld : Payload) (items : List Payload) (pre : List Ev),
        trxSendPacket.poll at86rf231
            (listening 1 1 [samplePayload] [] ([0, 25] ++ List.replicate 15 0)).miso.length
            (listening 1 1 [samplePayload] [] ([0, 25] ++ List.replicate 15 0)) = some S2 ∧
        S2.tx_queue_.items = pld :: items ∧
        trxSendPacket.stage S2 = some S3 ∧
        S3.mac_tx_packet_.payload = some pld ∧ S3.trace = S2.trace ∧
        trxSendPacket.write S3 = some sentOnce ∧
        sentOnce.trace
          = pre ++ [Ev.cs 1, Ev.payDelete { pld with iter := payGetPayloadLength pld % 256 }] ∧
        sentOnce.mac_tx_packet_.payload
          = some { pld with iter := payGetPayloadLength pld % 256 }) ∧
      (∀ (c : Call) (t t' : Radio), Call.exec at86rf231 c t = some t' → RefStep t t') ∧
      (∀ mem : MacPacketStruct, (trxCreateMacPacket mem).payload = mem.payload)) :=
  ⟨by decide, staging_reference at86rf231
    (listening 1 1 [samplePayload] [] ([0, 25] ++ List.replicate 15 0)) sentOnce rfl
    (by decide)⟩

end RadioDriver
